import Mathlib

/-! # MOTION: circuit-building examples and the `Party` facade

A shallow embedding of

* `src/motioncore/base/party.h` (the `Party::In` overload set, `Finish`),
* `src/examples/matmult/common/matmult.cpp` (`EvaluateProtocol`),
* `src/examples/mytest/common/mytest.cpp` (`EvaluateProtocol`),
* `src/examples/mytest/mytest_main.cpp` (`CheckPartyArgumentSyntax`, `ParsePartyArgument`,
  `ParseProgramOptions`, `CreateParty`, `GenerateAllCombinations`),
* `src/motioncore/protocols/data_management/unsimdify_gate.h` (the declarations of
  `UnsimdifyGate`; the gate state machine and the re-layout follow the specification).

Conventions.  `std::size_t` values are natural numbers below `2 ^ 64` and every `size_t`
operation is reduced modulo `2 ^ 64`; an `int` loop counter may not be incremented past
`INT_MAX`.  A C++ exception, and every undefined behaviour (signed overflow, out-of-range
`operator[]`, `back()`/`pop_back()` on an empty vector), ends the execution with an `Error`;
the state in which it happened is kept, so that one can say what had been done before.
The construction of a vector whose size is an argument of the call can end with
`std::length_error` or `std::bad_alloc`: whether it does is not fixed by the sources and is
given by a `Platform`.  The storage of the other vectors, which grow by `push_back`, is
taken not to run out.
-/

namespace Motion

/-! ## Protocols and messages -/

/-- The enumeration `encrypto::motion::MpcProtocol`.  Its declaration (`utility/typedefs.h`)
is not among the sources; the enumerators are the ones `party.h` names, and `other id`
stands for any further value of the underlying `unsigned int`. -/
inductive MpcProtocol where
  | kArithmeticGmw
  | kBooleanGmw
  | kBmr
  | kArithmeticConstant
  | kBooleanConstant
  | other (id : Nat)
  deriving DecidableEq, Repr

/-- The message of a `std::runtime_error`. -/
inductive Message where
  /-- a fixed text, or a text put together from strings -/
  | text (s : String)
  /-- `fmt::format("Unknown MPC protocol with id {}", static_cast<uint>(P))`, kept as its
  argument `P`: the number that is formatted is the value of the enumerator, which
  `utility/typedefs.h` declares -/
  | unknown_protocol (P : MpcProtocol)
  deriving DecidableEq, Repr

instance : Coe String Message := ⟨Message.text⟩

/-! ## Outcomes -/

/-- The operations of the examples to which the C++ standard gives no meaning. -/
inductive Undefined where
  /-- `i++` on an `int` that holds `INT_MAX` -/
  | signed_overflow
  /-- `operator[]` of a `std::vector` with an index that is not below its size -/
  | index_out_of_range
  /-- `back()` or `pop_back()` of an empty `std::vector` -/
  | empty_back
  /-- an operator applied to a default-constructed `SecureUnsignedInteger` -/
  | no_share
  deriving DecidableEq, Repr

/-- The ways an execution can stop abnormally. -/
inductive Error where
  /-- `std::invalid_argument(what)` -/
  | invalid_argument (what : String)
  /-- `std::runtime_error(what)` -/
  | runtime_error (what : Message)
  /-- `boost::bad_lexical_cast` -/
  | bad_lexical_cast
  /-- `boost::bad_any_cast` -/
  | bad_any_cast
  /-- `std::out_of_range`, thrown by `std::vector::at` -/
  | out_of_range
  /-- a `static_assert` fails: the instantiation is rejected when the program is compiled -/
  | static_assert_failure
  /-- `std::length_error`, thrown by the constructor of a `std::vector` that is asked for
  more elements than its `max_size()` -/
  | length_error
  /-- `std::bad_alloc`, thrown when storage cannot be obtained -/
  | bad_alloc
  /-- the C++ standard gives the execution no meaning from here on -/
  | undefined_behaviour (cause : Undefined)
  deriving DecidableEq, Repr

deriving instance DecidableEq for Except

/-- Result of running a statement from a state: it completes in a state, or an error is
raised in a state. -/
inductive Outcome (σ : Type) where
  | done (s : σ)
  | raised (e : Error) (s : σ)
  deriving DecidableEq, Repr

/-- Sequencing of statements: the second runs only if the first completes. -/
def Outcome.andThen {σ : Type} (o : Outcome σ) (f : σ → Outcome σ) : Outcome σ :=
  match o with
  | .done s => f s
  | .raised e s => .raised e s

/-- Largest value of a (32-bit) `int`. -/
def INT_MAX : Nat := 2147483647

/-- Number of values of `std::size_t` (64 bits). -/
def SIZE_MOD : Nat := 18446744073709551616

/-- The loop `for (int i = 0; i < bound; i++) body`, entered with `n = bound - i` iterations
left.  The comparison converts the non-negative `i` to `size_t`, so it is exact; the
increment of a counter that holds `INT_MAX` is undefined behaviour. -/
def forInt {σ : Type} (body : Nat → σ → Outcome σ) : Nat → Nat → σ → Outcome σ
  | 0, _, s => .done s
  | n + 1, i, s =>
    match body i s with
    | .done s' =>
      if i < INT_MAX then forInt body n (i + 1) s'
      else .raised (.undefined_behaviour .signed_overflow) s'
    | .raised e s' => .raised e s'

/-! ## Storage for the vectors whose size is an argument -/

/-- The exceptions that end the construction of a `std::vector` which cannot be made. -/
inductive StorageError where
  /-- more elements than `max_size()` are asked for -/
  | length_error
  /-- the storage cannot be obtained -/
  | bad_alloc
  deriving DecidableEq, Repr

/-- The exception as an `Error`. -/
def StorageError.toError : StorageError → Error
  | .length_error => .length_error
  | .bad_alloc => .bad_alloc

/-- The declarations of the two `EvaluateProtocol`s that construct a `std::vector` whose
size is an argument of the call. -/
inductive Temporary where
  /-- `temporary_bool(bit_size, BitVector<>(number_of_simd))`, lines 37-38 of `matmult.cpp`
  and of `mytest.cpp` -/
  | temporary_bool (bit_size number_of_simd : Nat)
  /-- `std::vector<T> temporary_arithmetic(number_of_simd)` of `matmult.cpp`, for the
  unsigned integer type `T` of `width` bits -/
  | temporary_arithmetic (width number_of_simd : Nat)
  /-- `std::vector<T> temporary_arithmetic_a(number_of_simd)` of `mytest.cpp` -/
  | temporary_arithmetic_a (width number_of_simd : Nat)
  /-- `std::vector<T> temporary_arithmetic_b(number_of_simd)` of `mytest.cpp` -/
  | temporary_arithmetic_b (width number_of_simd : Nat)
  deriving DecidableEq, Repr

/-- What the sources do not fix about the construction of these vectors: `max_size()` is
implementation-defined, `BitVector<>` (`utility/bit_vector.h`) is not among the sources, and
the memory at hand varies.  `refuses t` is the exception that ends the declaration `t`, if
there is one. -/
structure Platform where
  refuses : Temporary → Option StorageError

/-- The declaration `t` of a vector that holds `x` once it is constructed. -/
def Platform.construct {α : Type} (pf : Platform) (t : Temporary) (x : α) : Except Error α :=
  match pf.refuses t with
  | some e => .error e.toError
  | none => .ok x

/-- Largest value of `std::ptrdiff_t` (64 bits). -/
def PTRDIFF_MAX : Nat := 9223372036854775807

/-- An implementation with `max_size() = PTRDIFF_MAX / sizeof(T)` (that of GCC's library)
and storage for every vector within `max_size()`; `size` stands for `sizeof(BitVector<>)`,
and the construction of the element `BitVector<>(number_of_simd)` is taken to succeed. -/
def Platform.lp64 (size : Nat) : Platform :=
  { refuses := fun t =>
      match t with
      | .temporary_bool bit_size _ =>
        if bit_size > PTRDIFF_MAX / size then some .length_error else none
      | .temporary_arithmetic width number_of_simd =>
        if number_of_simd > PTRDIFF_MAX / (width / 8) then some .length_error else none
      | .temporary_arithmetic_a width number_of_simd =>
        if number_of_simd > PTRDIFF_MAX / (width / 8) then some .length_error else none
      | .temporary_arithmetic_b width number_of_simd =>
        if number_of_simd > PTRDIFF_MAX / (width / 8) then some .length_error else none }

/-! ## Protocols, shares and the party -/

/-- The input operations of the backend that `Party::In` dispatches to. -/
inductive InputOperation where
  | BooleanGmwInput
  | BmrInput
  | ArithmeticGmwInput
  | ConstantArithmeticGmwInput
  deriving DecidableEq, Repr

/-- The protocol an input operation belongs to. -/
def InputOperation.protocol : InputOperation → MpcProtocol
  | .BooleanGmwInput => .kBooleanGmw
  | .BmrInput => .kBmr
  | .ArithmeticGmwInput => .kArithmeticGmw
  | .ConstantArithmeticGmwInput => .kArithmeticConstant

/-- The argument kinds of the `Party::In` overloads. -/
inductive InputValue where
  /-- `bool` -/
  | bit (b : Bool)
  /-- `BitVector<>` -/
  | bitVector (bits : List Bool)
  /-- `std::vector<BitVector<>>` -/
  | bitVectors (wires : List (List Bool))
  /-- `std::vector<T>` for an unsigned integer type `T` of `width` bits -/
  | unsigneds (width : Nat) (values : List Nat)
  deriving DecidableEq, Repr

/-- A share, as the term that produced it: an input gate (with the input operation that
made it and the position of the gate in the party's trace) or the result of an operator. -/
inductive Share where
  | input (op : InputOperation) (gate : Nat)
  | mul (a b : Share)
  | add (a b : Share)
  deriving DecidableEq, Repr

/-- What a party has been asked to do, in order. -/
inductive Event where
  /-- an input gate; `party_id` is absent for a constant input -/
  | input (op : InputOperation) (party_id : Option Nat) (value : InputValue)
  | mul (a b : Share)
  | add (a b : Share)
  | sub (a b : Share)
  | gt (a b : Share)
  | div (a b : Share)
  | eq (a b : Share)
  | run
  | finish
  deriving DecidableEq, Repr

/-- The part of `Party` (with its backend) that the examples can observe. -/
structure Party where
  /-- gates created and calls made so far, oldest first -/
  trace : List Event
  /-- the member `finished_` -/
  finished : Bool
  deriving DecidableEq, Repr

/-- The party before anything was asked of it. -/
def Party.fresh : Party := { trace := [], finished := false }

/-- Modelled from the spec: the backend (`base/backend.h`) is missing; an input operation
creates one Input gate, which "builds a Share", and is taken to succeed. -/
def Backend.Input (op : InputOperation) (party_id : Option Nat) (value : InputValue)
    (p : Party) : Share × Party :=
  (Share.input op p.trace.length, { p with trace := p.trace ++ [Event.input op party_id value] })

/-- The call `backend_->BooleanGmwInput(party_id, input)`. -/
def Backend.BooleanGmwInput (party_id : Nat) (value : InputValue) (p : Party) : Share × Party :=
  Backend.Input .BooleanGmwInput (some party_id) value p

/-- The call `backend_->BmrInput(party_id, input)`. -/
def Backend.BmrInput (party_id : Nat) (value : InputValue) (p : Party) : Share × Party :=
  Backend.Input .BmrInput (some party_id) value p

/-- The call `backend_->ArithmeticGmwInput(party_id, input)`. -/
def Backend.ArithmeticGmwInput (party_id : Nat) (value : InputValue) (p : Party) :
    Share × Party :=
  Backend.Input .ArithmeticGmwInput (some party_id) value p

/-- The call `backend_->ConstantArithmeticGmwInput(input)`. -/
def Backend.ConstantArithmeticGmwInput (value : InputValue) (p : Party) : Share × Party :=
  Backend.Input .ConstantArithmeticGmwInput none value p

/-- A call of `Party::In` that returns the share made by a backend operation. -/
def returned (r : Share × Party) : Except Error Share × Party := (.ok r.1, r.2)

/-- A call of `Party::In` that throws, having called nothing. -/
def thrown (e : Error) (p : Party) : Except Error Share × Party := (.error e, p)

/-- The four overloads `Party::In<P>` for `std::vector<BitVector<>>` and `BitVector<>`
(by const reference and by rvalue reference) have the same body up to `std::move`:
two `static_assert`s, then a `switch (P)` whose case `kBooleanConstant` holds a third. -/
def Party.In_bits (P : MpcProtocol) (input : InputValue) (party_id : Nat) (p : Party) :
    Except Error Share × Party :=
  if P = .kArithmeticGmw then thrown .static_assert_failure p
  else if P = .kArithmeticConstant then thrown .static_assert_failure p
  else
    match P with
    | .kBooleanConstant => thrown .static_assert_failure p
    | .kBooleanGmw => returned (Backend.BooleanGmwInput party_id input p)
    | .kBmr => returned (Backend.BmrInput party_id input p)
    | _ => thrown (.runtime_error (.unknown_protocol P)) p

/-- `Party::In<P>(const std::vector<BitVector<>>& input, party_id)`, lines 60-82. -/
def Party.In_BitVectors (P : MpcProtocol) (input : List (List Bool)) (party_id : Nat)
    (p : Party) : Except Error Share × Party :=
  Party.In_bits P (.bitVectors input) party_id p

/-- `Party::In<P>(std::vector<BitVector<>>&& input, party_id)`, lines 84-106. -/
def Party.In_BitVectors_rvalue (P : MpcProtocol) (input : List (List Bool)) (party_id : Nat)
    (p : Party) : Except Error Share × Party :=
  Party.In_bits P (.bitVectors input) party_id p

/-- `Party::In<P>(const BitVector<>& input, party_id)`, lines 108-130. -/
def Party.In_BitVector (P : MpcProtocol) (input : List Bool) (party_id : Nat)
    (p : Party) : Except Error Share × Party :=
  Party.In_bits P (.bitVector input) party_id p

/-- `Party::In<P>(BitVector<>&& input, party_id)`, lines 132-154. -/
def Party.In_BitVector_rvalue (P : MpcProtocol) (input : List Bool) (party_id : Nat)
    (p : Party) : Except Error Share × Party :=
  Party.In_bits P (.bitVector input) party_id p

/-- `Party::In<P, T>(const std::vector<T>& input, party_id)`, lines 156-182. -/
def Party.In_Unsigneds (P : MpcProtocol) (width : Nat) (input : List Nat) (party_id : Nat)
    (p : Party) : Except Error Share × Party :=
  match P with
  | .kArithmeticConstant =>
    returned (Backend.ConstantArithmeticGmwInput (.unsigneds width input) p)
  | .kArithmeticGmw => returned (Backend.ArithmeticGmwInput party_id (.unsigneds width input) p)
  | .kBooleanGmw =>
    thrown (.runtime_error ("Non-binary types have to be converted to BitVectors in BooleanGMW, "
      ++ "consider using TODO function for the input")) p
  | .kBmr =>
    thrown (.runtime_error ("Non-binary types have to be converted to BitVectors in BMR, "
      ++ "consider using TODO function for the input")) p
  | _ => thrown (.runtime_error (.unknown_protocol P)) p

/-- `Party::In<P, T>(std::vector<T>&& input, party_id)`, lines 184-210. -/
def Party.In_Unsigneds_rvalue (P : MpcProtocol) (width : Nat) (input : List Nat)
    (party_id : Nat) (p : Party) : Except Error Share × Party :=
  match P with
  | .kArithmeticConstant =>
    returned (Backend.ConstantArithmeticGmwInput (.unsigneds width input) p)
  | .kArithmeticGmw => returned (Backend.ArithmeticGmwInput party_id (.unsigneds width input) p)
  | .kBooleanGmw =>
    thrown (.runtime_error ("Non-binary types have to be converted to BitVectors in BooleanGMW, "
      ++ "consider using TODO function for the input")) p
  | .kBmr =>
    thrown (.runtime_error ("Non-binary types have to be converted to BitVectors in BMR, "
      ++ "consider using TODO function for the input")) p
  | _ => thrown (.runtime_error (.unknown_protocol P)) p

/-- The argument of the scalar overload: a `bool`, or a value of another unsigned integer
type of `width` bits. -/
inductive Scalar where
  | bool (b : Bool)
  | unsigned (width : Nat) (value : Nat)
  deriving DecidableEq, Repr

/-- `Party::In<P, T>(T input, party_id)`, lines 212-223: for `T = bool` the Boolean GMW
input if `P == kBooleanGmw` and the BMR input otherwise; for any other `T` the rvalue
vector overload on the one-element vector. -/
def Party.In_Scalar (P : MpcProtocol) (input : Scalar) (party_id : Nat) (p : Party) :
    Except Error Share × Party :=
  match input with
  | .bool b =>
    if P = .kBooleanGmw then returned (Backend.BooleanGmwInput party_id (.bit b) p)
    else returned (Backend.BmrInput party_id (.bit b) p)
  | .unsigned width value => Party.In_Unsigneds_rvalue P width [value] party_id p

/-- Modelled from the spec: `SecureUnsignedInteger::operator*` (`secure_type/`) is missing;
an operator "lazily extends" the graph and produces a new share; taken to succeed. -/
def SecureUnsignedInteger.mul (a b : Share) (p : Party) : Share × Party :=
  (Share.mul a b, { p with trace := p.trace ++ [Event.mul a b] })

/-- Modelled from the spec: `SecureUnsignedInteger::operator+` is missing; see `mul`. -/
def SecureUnsignedInteger.add (a b : Share) (p : Party) : Share × Party :=
  (Share.add a b, { p with trace := p.trace ++ [Event.add a b] })

/-- Modelled from the spec: `Party::Run` (`base/party.cpp`) is missing; it "executes the
accumulated gates" and is taken to succeed. -/
def Party.Run (p : Party) : Party :=
  { p with trace := p.trace ++ [Event.run] }

/-- Modelled from the spec: `Party::Finish` is missing; it "sends a termination signal to
all peers" and is "idempotent - safe to call multiple times". -/
def Party.Finish (p : Party) : Party :=
  if p.finished then p else { trace := p.trace ++ [Event.finish], finished := true }

namespace matmult

/-- The local vectors of `EvaluateProtocol` and the party it works on. -/
structure State where
  party : Party
  v1 : List Share
  v2 : List Share
  tmp : List Share
  v : List Share
  deriving DecidableEq, Repr

/-- The state in which `EvaluateProtocol` starts: all four vectors are empty. -/
def State.init (party : Party) : State :=
  { party := party, v1 := [], v2 := [], tmp := [], v := [] }

/-- One round of an input loop,
`v1.push_back(party->In<P>(x, 0)); v2.push_back(party->In<P>(x, 0));`
where `In` is the overload the call selects, already applied to `x` and `0`. -/
def inputBody (In : Party → Except Error Share × Party) (_i : Nat) (s : State) :
    Outcome State :=
  match In s.party with
  | (.error e, p) => .raised e { s with party := p }
  | (.ok a, p) =>
    match In p with
    | (.error e, q) => .raised e { s with party := q, v1 := s.v1 ++ [a] }
    | (.ok b, q) => .done { s with party := q, v1 := s.v1 ++ [a], v2 := s.v2 ++ [b] }

/-- A case of the `switch (bit_size)`, lines 63-70 (and 71-78, 79-86, 87-94) for the
unsigned integer type of `width` bits: `temporary_arithmetic` is constructed, then the
input loop runs. -/
def arithmeticCase (pf : Platform) (width number_of_simd dim : Nat) (s : State) :
    Outcome State :=
  match pf.construct (.temporary_arithmetic width number_of_simd)
      (List.replicate number_of_simd 0) with
  | .error e => .raised e s
  | .ok temporary_arithmetic =>
    forInt (inputBody (Party.In_Unsigneds .kArithmeticGmw width temporary_arithmetic 0))
      (dim * dim % SIZE_MOD) 0 s

/-- Lines 46-103: the `switch (protocol)` that fills `v1` and `v2`; `temporary_bool` is the
vector of lines 37-38. -/
def makeInputs (pf : Platform) (temporary_bool : List (List Bool))
    (number_of_simd bit_size dim : Nat) (protocol : MpcProtocol) (s : State) : Outcome State :=
  match protocol with
  | .kBooleanGmw =>
    forInt (inputBody (Party.In_BitVectors .kBooleanGmw temporary_bool 0))
      (dim * dim % SIZE_MOD) 0 s
  | .kBmr =>
    forInt (inputBody (Party.In_BitVectors .kBmr temporary_bool 0)) (dim * dim % SIZE_MOD) 0 s
  | .kArithmeticGmw =>
    if bit_size = 8 then arithmeticCase pf 8 number_of_simd dim s
    else if bit_size = 16 then arithmeticCase pf 16 number_of_simd dim s
    else if bit_size = 32 then arithmeticCase pf 32 number_of_simd dim s
    else if bit_size = 64 then arithmeticCase pf 64 number_of_simd dim s
    else .raised (.invalid_argument "Unknown bit size") s
  | _ => .raised (.invalid_argument "Invalid MPC protocol") s

/-- Line 109: `tmp.push_back(v1[i*dim+k]*v2[k*dim+j]);` -/
def productBody (dim i j k : Nat) (s : State) : Outcome State :=
  match s.v1[(i * dim + k) % SIZE_MOD]?, s.v2[(k * dim + j) % SIZE_MOD]? with
  | some a, some b =>
    let r := SecureUnsignedInteger.mul a b s.party
    .done { s with party := r.2, tmp := s.tmp ++ [r.1] }
  | _, _ => .raised (.undefined_behaviour .index_out_of_range) s

/-- Lines 115-116: `v.back() = v.back()+tmp.back(); tmp.pop_back();` -/
def sumBody (_k : Nat) (s : State) : Outcome State :=
  match s.v.getLast?, s.tmp.getLast? with
  | some acc, some t =>
    let r := SecureUnsignedInteger.add acc t s.party
    .done { s with party := r.2, v := s.v.dropLast ++ [r.1], tmp := s.tmp.dropLast }
  | _, _ => .raised (.undefined_behaviour .empty_back) s

/-- Lines 112-113: `v.push_back(tmp.back()); tmp.pop_back();` -/
def moveLast (s : State) : Outcome State :=
  match s.tmp.getLast? with
  | some t => .done { s with v := s.v ++ [t], tmp := s.tmp.dropLast }
  | none => .raised (.undefined_behaviour .empty_back) s

/-- Lines 118-119: `if (tmp.size()>0) throw std::invalid_argument("Vector tmp not zero");` -/
def checkTmp (s : State) : Outcome State :=
  if s.tmp.length > 0 then .raised (.invalid_argument "Vector tmp not zero") s else .done s

/-- Lines 107-119, the body of the loop over `j`: one cell of the result. -/
def cellBody (dim i j : Nat) (s : State) : Outcome State :=
  ((((forInt (productBody dim i j) dim 0 s).andThen moveLast).andThen
    (forInt sumBody ((dim + SIZE_MOD - 1) % SIZE_MOD) 0)).andThen checkTmp)

/-- Lines 106-120, the body of the loop over `i`: one row of the result. -/
def rowBody (dim i : Nat) (s : State) : Outcome State :=
  forInt (cellBody dim i) dim 0 s

/-- Lines 105-121: the accumulation loops. -/
def accumulate (dim : Nat) (s : State) : Outcome State :=
  forInt (rowBody dim) dim 0 s

/-- Lines 37-121: everything up to the end of the accumulation loops.  The declaration of
`temporary_bool` comes first, before the `switch`; `BitVector<>(number_of_simd)` is
`number_of_simd` bits, none set. -/
def buildCircuit (pf : Platform) (party : Party) (number_of_simd bit_size dim : Nat)
    (protocol : MpcProtocol) : Outcome State :=
  match pf.construct (.temporary_bool bit_size number_of_simd)
      (List.replicate bit_size (List.replicate number_of_simd false)) with
  | .error e => .raised e (State.init party)
  | .ok temporary_bool =>
    (makeInputs pf temporary_bool number_of_simd bit_size dim protocol (State.init party)).andThen
      (accumulate dim)

/-- Lines 122-123:
`if (v.size()!=dim*dim) throw std::invalid_argument("Vector v size not correct");` -/
def checkV (dim : Nat) (s : State) : Outcome State :=
  if s.v.length ≠ dim * dim % SIZE_MOD then
    .raised (.invalid_argument "Vector v size not correct") s
  else .done s

/-- Lines 125-126: `party->Run(); party->Finish();` -/
def runAndFinish (s : State) : Outcome State :=
  .done { s with party := s.party.Run.Finish }

/-- `EvaluateProtocol(party, number_of_simd, bit_size, dim, protocol)` of `matmult.cpp`.
The statistics it returns are not modelled: the outcome is the final state. -/
def EvaluateProtocol (pf : Platform) (party : Party) (number_of_simd bit_size dim : Nat)
    (protocol : MpcProtocol) : Outcome State :=
  ((buildCircuit pf party number_of_simd bit_size dim protocol).andThen (checkV dim)).andThen
    runAndFinish

/-- The combinations `EvaluateProtocol` has a case for. -/
def Supported (protocol : MpcProtocol) (bit_size : Nat) : Prop :=
  protocol = .kBooleanGmw ∨ protocol = .kBmr ∨
    (protocol = .kArithmeticGmw ∧ (bit_size = 8 ∨ bit_size = 16 ∨ bit_size = 32 ∨ bit_size = 64))

instance (protocol : MpcProtocol) (bit_size : Nat) : Decidable (Supported protocol bit_size) := by
  unfold Supported; infer_instance

/-- The vectors that a call declares are constructed: `temporary_bool` and, in the four
cases of `kArithmeticGmw`, `temporary_arithmetic`. -/
def Constructed (pf : Platform) (number_of_simd bit_size : Nat) (protocol : MpcProtocol) :
    Prop :=
  pf.refuses (.temporary_bool bit_size number_of_simd) = none ∧
    (protocol = .kArithmeticGmw →
      (bit_size = 8 ∨ bit_size = 16 ∨ bit_size = 32 ∨ bit_size = 64) →
      pf.refuses (.temporary_arithmetic bit_size number_of_simd) = none)

instance (pf : Platform) (number_of_simd bit_size : Nat) (protocol : MpcProtocol) :
    Decidable (Constructed pf number_of_simd bit_size protocol) := by
  unfold Constructed; infer_instance

/-- The share the `n`-th round of the input loop pushes to `v1`. -/
def in1 (op : InputOperation) (g0 n : Nat) : Share := Share.input op (g0 + 2 * n)

/-- The share the `n`-th round of the input loop pushes to `v2`. -/
def in2 (op : InputOperation) (g0 n : Nat) : Share := Share.input op (g0 + 2 * n + 1)

/-- The product `v1[i*dim+k] * v2[k*dim+j]`. -/
def prodShare (op : InputOperation) (g0 dim i j k : Nat) : Share :=
  Share.mul (in1 op g0 (i * dim + k)) (in2 op g0 (k * dim + j))

/-- The entry of `v` for a cell after `m` rounds of the summation loop, when the products
are `P 0, ..., P d`: it starts as the last product and takes the others from the back. -/
def accShare (P : Nat → Share) (d : Nat) : Nat → Share
  | 0 => P d
  | m + 1 => Share.add (accShare P d m) (P (d - 1 - m))

/-- The finished entry of `v` for the cell `(i, j)`. -/
def cellShare (op : InputOperation) (g0 dim i j : Nat) : Share :=
  accShare (prodShare op g0 dim i j) (dim - 1) (dim - 1)

/-- The events of one cell: `dim` multiplications, then `dim - 1` additions. -/
def cellEvents (op : InputOperation) (g0 dim i j : Nat) : List Event :=
  (List.range dim).map (fun k => Event.mul (in1 op g0 (i * dim + k)) (in2 op g0 (k * dim + j)))
    ++ (List.range (dim - 1)).map (fun m =>
      Event.add (accShare (prodShare op g0 dim i j) (dim - 1) m)
        (prodShare op g0 dim i j (dim - 1 - 1 - m)))

/-- The state after the input loop has run `k` rounds from `State.init p`. -/
def inputState (op : InputOperation) (value : InputValue) (p : Party) (k : Nat) : State :=
  { party := { trace := p.trace ++ List.replicate (2 * k) (Event.input op (some 0) value),
               finished := p.finished },
    v1 := (List.range k).map (in1 op p.trace.length),
    v2 := (List.range k).map (in2 op p.trace.length),
    tmp := [],
    v := [] }

/-- The state after the accumulation loops have finished `rows` rows, entered in the state
`inputState op value p (dim * dim)`. -/
def accState (op : InputOperation) (value : InputValue) (p : Party) (dim rows : Nat) : State :=
  { party :=
      { trace := (p.trace ++ List.replicate (2 * (dim * dim)) (Event.input op (some 0) value)) ++
          (List.range rows).flatMap (fun i =>
            (List.range dim).flatMap (fun j => cellEvents op p.trace.length dim i j)),
        finished := p.finished },
    v1 := (List.range (dim * dim)).map (in1 op p.trace.length),
    v2 := (List.range (dim * dim)).map (in2 op p.trace.length),
    tmp := [],
    v := (List.range rows).flatMap (fun i =>
      (List.range dim).map (fun j => cellShare op p.trace.length dim i j)) }

/-- The state inside a cell after `k` rounds of the product loop entered in `s`. -/
def prodState (op : InputOperation) (g0 dim i j : Nat) (s : State) (k : Nat) : State :=
  { party :=
      { trace := s.party.trace ++ (List.range k).map (fun k =>
          Event.mul (in1 op g0 (i * dim + k)) (in2 op g0 (k * dim + j))),
        finished := s.party.finished },
    v1 := s.v1,
    v2 := s.v2,
    tmp := s.tmp ++ (List.range k).map (prodShare op g0 dim i j),
    v := s.v }

/-- The state inside a cell after `m` rounds of the summation loop, for a cell entered
in `s` with `tmp` empty, when `dim = d + 1`. -/
def sumState (op : InputOperation) (g0 d i j : Nat) (s : State) (m : Nat) : State :=
  { party :=
      { trace := (s.party.trace ++ (List.range (d + 1)).map (fun k =>
          Event.mul (in1 op g0 (i * (d + 1) + k)) (in2 op g0 (k * (d + 1) + j))))
          ++ (List.range m).map (fun m =>
            Event.add (accShare (prodShare op g0 (d + 1) i j) d m)
              (prodShare op g0 (d + 1) i j (d - 1 - m))),
        finished := s.party.finished },
    v1 := s.v1,
    v2 := s.v2,
    tmp := (List.range (d - m)).map (prodShare op g0 (d + 1) i j),
    v := s.v ++ [accShare (prodShare op g0 (d + 1) i j) d m] }

/-- The state inside a row after `j` cells, for a row entered in `s`. -/
def rowState (op : InputOperation) (g0 dim i : Nat) (s : State) (j : Nat) : State :=
  { party :=
      { trace := s.party.trace ++ (List.range j).flatMap (fun j => cellEvents op g0 dim i j),
        finished := s.party.finished },
    v1 := s.v1,
    v2 := s.v2,
    tmp := s.tmp,
    v := s.v ++ (List.range j).map (fun j => cellShare op g0 dim i j) }

/-- The state in which `EvaluateProtocol` returns: the circuit of `accState`, run and
finished. -/
def finalState (op : InputOperation) (value : InputValue) (p : Party) (dim : Nat) : State :=
  { party := (accState op value p dim dim).party.Run.Finish,
    v1 := (accState op value p dim dim).v1,
    v2 := (accState op value p dim dim).v2,
    tmp := (accState op value p dim dim).tmp,
    v := (accState op value p dim dim).v }

/-- The input operation and the argument `EvaluateProtocol` uses for a combination. -/
def inputOf (number_of_simd bit_size : Nat) : MpcProtocol → InputOperation × InputValue
  | .kBooleanGmw =>
    (.BooleanGmwInput, .bitVectors (List.replicate bit_size (List.replicate number_of_simd false)))
  | .kBmr =>
    (.BmrInput, .bitVectors (List.replicate bit_size (List.replicate number_of_simd false)))
  | _ => (.ArithmeticGmwInput, .unsigneds bit_size (List.replicate number_of_simd 0))

end matmult

end Motion

namespace Motion

/-! ## `mytest_main.cpp`: the party arguments -/

namespace mytest

/-- The regular expressions that `kPartyArgumentRegex` is made of: `\d{lo,hi}` (greedy;
`\d+` has no upper bound), a literal character, concatenation and a capturing group. -/
inductive Regex where
  | digits (lo : Nat) (hi : Option Nat)
  | char (c : Char)
  | seq (r1 r2 : Regex)
  | group (r : Regex)
  deriving DecidableEq, Repr

/-- The largest number of characters `\d{lo,hi}` can take when `m` digits are there. -/
def digitsTop (hi : Option Nat) (m : Nat) : Nat :=
  match hi with
  | some h => min m h
  | none => m

/-- The ways `\d{lo,hi}` can match at the start of `cs`, longest first: what is left of
`cs` after each. -/
def digitsRun (lo : Nat) (hi : Option Nat) (cs : List Char) : List (List Char) :=
  let top := digitsTop hi (cs.takeWhile Char.isDigit).length
  (List.range (top + 1 - lo)).map (fun t => cs.drop (top - t))

/-- Backtracking matcher: the ways `r` can match at the start of `cs`, in the order a
backtracking matcher tries them; each gives what is left of `cs` and the texts of the
groups, in the order the groups open. -/
def Regex.run : Regex → List Char → List (List Char × List (List Char))
  | .digits lo hi, cs => (digitsRun lo hi cs).map (fun rest => (rest, []))
  | .char c, cs =>
    match cs with
    | x :: xs => if x = c then [(xs, [])] else []
    | [] => []
  | .seq r1 r2, cs =>
    (r1.run cs).flatMap (fun a => (r2.run a.1).map (fun b => (b.1, a.2 ++ b.2)))
  | .group r, cs =>
    (r.run cs).map (fun a => (a.1, cs.take (cs.length - a.1.length) :: a.2))

/-- What it means for `r` to match exactly the text `w`, with the groups `caps`. -/
def Regex.Matches : Regex → List Char → List (List Char) → Prop
  | .digits lo hi, w, caps =>
    (∀ c ∈ w, c.isDigit = true) ∧ lo ≤ w.length ∧ (∀ h, hi = some h → w.length ≤ h) ∧ caps = []
  | .char c, w, caps => w = [c] ∧ caps = []
  | .seq r1 r2, w, caps =>
    ∃ w1 w2 c1 c2, w = w1 ++ w2 ∧ caps = c1 ++ c2 ∧ r1.Matches w1 c1 ∧ r2.Matches w2 c2
  | .group r, w, caps => ∃ c, caps = w :: c ∧ r.Matches w c

/-- `std::regex_match(s, match, r)`: the first way to match all of `s`; the result holds
the sub-matches `match[1]`, `match[2]`, ... -/
def regex_match (s : String) (r : Regex) : Option (List (List Char)) :=
  ((r.run s.toList).find? (fun a => a.1.isEmpty)).map (fun a => a.2)

/-- Line 169: `(\d+),(\d{1,3}\.\d{1,3}\.\d{1,3}\.\d{1,3}),(\d{1,5})`. -/
def kPartyArgumentRegex : Regex :=
  .seq (.group (.digits 1 none))
    (.seq (.char ',')
      (.seq (.group
          (.seq (.digits 1 (some 3)) (.seq (.char '.')
            (.seq (.digits 1 (some 3)) (.seq (.char '.')
              (.seq (.digits 1 (some 3)) (.seq (.char '.') (.digits 1 (some 3)))))))))
        (.seq (.char ',') (.group (.digits 1 (some 5))))))

/-- `bool CheckPartyArgumentSyntax(const std::string& party_argument)`, lines 172-175. -/
def CheckPartyArgumentSyntax (party_argument : String) : Bool :=
  (regex_match party_argument kPartyArgumentRegex).isSome

/-- `match[i]` for `i >= 1`: the text of the `i`-th group, empty when there is no match. -/
def sub_match (m : Option (List (List Char))) (i : Nat) : List Char :=
  match m with
  | some groups => groups.getD (i - 1) []
  | none => []

/-- The number a string of decimal digits denotes. -/
def decimalValue (cs : List Char) : Nat :=
  cs.foldl (fun acc c => 10 * acc + (c.toNat - '0'.toNat)) 0

/-- `boost::lexical_cast<T>(text)` for an unsigned integer type `T` of `width` bits, as
Boost documents it: an optional sign, then one or more decimal digits; the number must fit
`T`; with a minus sign the result is negated in `T`. -/
def lexical_cast (width : Nat) (text : List Char) : Except Error Nat :=
  let has_minus := text.head? = some '-'
  let body := if has_minus ∨ text.head? = some '+' then text.tail else text
  if body ≠ [] ∧ body.all Char.isDigit ∧ decimalValue body < 2 ^ width then
    .ok (if has_minus then (2 ^ width - decimalValue body) % 2 ^ width else decimalValue body)
  else .error .bad_lexical_cast

/-- `ParsePartyArgument`, lines 177-185: the id as a `size_t`, the host, and the port as a
`uint16_t`. -/
def ParsePartyArgument (party_argument : String) : Except Error (Nat × String × Nat) :=
  let m := regex_match party_argument kPartyArgumentRegex
  match lexical_cast 64 (sub_match m 1) with
  | .error e => .error e
  | .ok id =>
    let host := sub_match m 2
    match lexical_cast 16 (sub_match m 3) with
    | .error e => .error e
    | .ok port => .ok (id, String.mk host, port)

/-- A string of decimal digits with at least `lo` and at most `hi` characters. -/
def IsDigits (lo hi : Nat) (cs : List Char) : Prop :=
  (∀ c ∈ cs, c.isDigit = true) ∧ lo ≤ cs.length ∧ cs.length ≤ hi

/-- The text `A.B.C.D` put together from its fields. -/
def hostText (a b c d : List Char) : List Char :=
  a ++ '.' :: (b ++ '.' :: (c ++ '.' :: d))

/-- The text `ID,A.B.C.D,PORT` put together from its fields. -/
def partyArgument (id a b c d port : List Char) : List Char :=
  id ++ ',' :: (hostText a b c d ++ ',' :: port)

/-- The form the specification gives for a party argument: `ID,A.B.C.D,PORT` where `ID`
is one or more digits, each of `A`, `B`, `C`, `D` one to three digits and `PORT` one to
five digits, with nothing before or after. -/
def HasPartyArgumentForm (s : String) : Prop :=
  ∃ id a b c d port : List Char,
    1 ≤ id.length ∧ (∀ ch ∈ id, ch.isDigit = true) ∧
    IsDigits 1 3 a ∧ IsDigits 1 3 b ∧ IsDigits 1 3 c ∧ IsDigits 1 3 d ∧
    IsDigits 1 5 port ∧
    s.toList = partyArgument id a b c d port

/-! ## `mytest_main.cpp`: the program options -/

/-- The value of an option in a `boost::program_options::variables_map`. -/
inductive OptionValue where
  /-- an option that takes no value (`disable-logging`) -/
  | present
  | bool (b : Bool)
  | size (n : Nat)
  | string (s : String)
  | strings (ss : List String)
  deriving DecidableEq, Repr

/-- A `variables_map` over the options that `ParseProgramOptions` declares (lines 195-203):
only a declared option can be stored, each with the type of its declaration. -/
structure VariablesMap where
  help : Option Bool
  disable_logging : Bool
  print_configuration : Option Bool
  configuration_file : Option String
  my_id : Option Nat
  other_parties : Option (List String)
  online_after_setup : Option Bool
  repetitions : Option Nat
  deriving DecidableEq, Repr

/-- The map `{}`. -/
def VariablesMap.empty : VariablesMap :=
  { help := none, disable_logging := false, print_configuration := none,
    configuration_file := none, my_id := none, other_parties := none,
    online_after_setup := none, repetitions := none }

/-- `user_options[name]`: the stored value, if there is one. -/
def VariablesMap.find (m : VariablesMap) (name : String) : Option OptionValue :=
  if name = "help" then m.help.map .bool
  else if name = "disable-logging" then (if m.disable_logging then some .present else none)
  else if name = "print-configuration" then m.print_configuration.map .bool
  else if name = "configuration-file" then m.configuration_file.map .string
  else if name = "my-id" then m.my_id.map .size
  else if name = "other-parties" then m.other_parties.map .strings
  else if name = "online-after-setup" then m.online_after_setup.map .bool
  else if name = "repetitions" then m.repetitions.map .size
  else none

/-- `user_options.count(name)`. -/
def VariablesMap.count (m : VariablesMap) (name : String) : Nat :=
  if (m.find name).isSome then 1 else 0

/-- `user_options[name].as<std::size_t>()`. -/
def VariablesMap.as_size_t (m : VariablesMap) (name : String) : Except Error Nat :=
  match m.find name with
  | some (.size n) => .ok n
  | _ => .error .bad_any_cast

/-- `user_options[name].as<std::string>()`. -/
def VariablesMap.as_string (m : VariablesMap) (name : String) : Except Error String :=
  match m.find name with
  | some (.string x) => .ok x
  | _ => .error .bad_any_cast

/-- `user_options[name].as<std::vector<std::string>>()`. -/
def VariablesMap.as_strings (m : VariablesMap) (name : String) : Except Error (List String) :=
  match m.find name with
  | some (.strings x) => .ok x
  | _ => .error .bad_any_cast

/-- `user_options[name].as<bool>()`. -/
def VariablesMap.as_bool (m : VariablesMap) (name : String) : Except Error Bool :=
  match m.find name with
  | some (.bool x) => .ok x
  | _ => .error .bad_any_cast

/-- The value `notify` gives the variable bound to a `bool_switch`; `store` has given the
switch its default `false` if it was not set. -/
def VariablesMap.switch (m : VariablesMap) (name : String) : Bool :=
  match m.find name with
  | some (.bool x) => x
  | _ => false

/-- Lines 235-241: the loop over the entries of `other-parties`. -/
def checkParties : List String → Except Error Unit
  | [] => .ok ()
  | party :: rest =>
    if CheckPartyArgumentSyntax party then checkParties rest
    else .error (.runtime_error ("Incorrect party argument syntax " ++ party))

/-- Lines 217-223: if a configuration file is named, its options are stored as well.
`config_file name m` is what `store(parse_config_file(...), m)` makes of `m` for the file
called `name`. -/
def readConfigurationFile (config_file : String → VariablesMap → VariablesMap)
    (user_options : VariablesMap) : Except Error VariablesMap :=
  if user_options.count "configuration-file" ≠ 0 then
    match user_options.as_string "configuration-file" with
    | .ok name => .ok (config_file name user_options)
    | .error e => .error e
  else .ok user_options

/-- `ParseProgramOptions`, lines 188-253.  The parsing that Boost does is taken to succeed:
`parsed` is `user_options` after line 209.  What is printed is not modelled. -/
def ParseProgramOptions (config_file : String → VariablesMap → VariablesMap)
    (parsed : VariablesMap) : Except Error (VariablesMap × Bool) :=
  let help := parsed.switch "help"
  -- argument help or no arguments (at least a configuration file is expected)
  if help then .ok (VariablesMap.empty, true)
  else
    -- read configuration file
    match readConfigurationFile config_file parsed with
    | .error e => .error e
    | .ok user_options =>
      let help := user_options.switch "help"
      let print := user_options.switch "print-configuration"
      -- print parsed parameters
      if user_options.count "my-id" = 0 then
        .error (.runtime_error "My id is not set but required")
      else
        match (if print then user_options.as_size_t "my-id" else .ok 0) with
        | .error e => .error e
        | .ok _ =>
          if user_options.count "other-parties" = 0 then
            .error (.runtime_error "Other parties' information is not set but required")
          else
            match user_options.as_strings "other-parties" with
            | .error e => .error e
            | .ok other_parties =>
              match checkParties other_parties with
              | .error e => .error e
              | .ok _ =>
                if print then
                  match user_options.as_size_t "num-simd" with
                  | .error e => .error e
                  | .ok _ =>
                    match user_options.as_string "protocol" with
                    | .error e => .error e
                    | .ok _ => .ok (user_options, help)
                else .ok (user_options, help)

/-! ## `mytest_main.cpp`: `CreateParty` -/

/-- What `CreateParty` has done so far. -/
structure Creation where
  /-- `parties_configuration`, a vector of (host, port) -/
  parties_configuration : List (String × Nat)
  /-- the party id and the configuration `TcpSetupHelper` was constructed with and
  `SetupConnections` worked on, once that has happened -/
  connections : Option (Nat × List (String × Nat))
  /-- the value given to `SetLoggingEnabled`, once that has happened -/
  logging : Option Bool
  /-- the value given to `SetOnlineAfterSetup`, once that has happened -/
  online_after_setup : Option Bool
  deriving DecidableEq, Repr

/-- Lines 267-276: the loop over the party strings; `n` is `number_of_parties`. -/
def fillConfiguration (n : Nat) : List String → Creation → Outcome Creation
  | [], s => .done s
  | party_string :: rest, s =>
    match ParsePartyArgument party_string with
    | .error e => .raised e s
    | .ok (party_id, host, port) =>
      if party_id ≥ n then
        .raised (.runtime_error ("Party's id needs to be in the range [0, #parties - 1], "
          ++ "current id is " ++ toString party_id ++ " and #parties is " ++ toString n)) s
      else if party_id < s.parties_configuration.length then
        fillConfiguration n rest
          { s with parties_configuration := s.parties_configuration.set party_id (host, port) }
      else .raised .out_of_range s

/-- `CreateParty`, lines 255-287.  Setting up the connections and constructing the party
are taken to succeed; the outcome records what they were given. -/
def CreateParty (user_options : VariablesMap) : Outcome Creation :=
  let start : Creation :=
    { parties_configuration := [], connections := none, logging := none,
      online_after_setup := none }
  match user_options.as_strings "other-parties" with
  | .error e => .raised e start
  | .ok parties_string =>
    let number_of_parties := parties_string.length
    match user_options.as_size_t "my-id" with
    | .error e => .raised e start
    | .ok my_id =>
      if my_id ≥ number_of_parties then
        .raised (.runtime_error ("My id needs to be in the range [0, #parties - 1], "
          ++ "current my id is " ++ toString my_id ++ " and #parties is "
          ++ toString number_of_parties)) start
      else
        let s := { start with
          parties_configuration := List.replicate number_of_parties ("", 0) }
        (fillConfiguration number_of_parties parties_string s).andThen fun s =>
          let s := { s with connections := some (my_id, s.parties_configuration) }
          let logging := user_options.count "disable-logging" = 0
          let s := { s with logging := some logging }
          match user_options.as_bool "online-after-setup" with
          | .error e => .raised e s
          | .ok b => .done { s with online_after_setup := some b }

end mytest

end Motion

namespace Motion

/-! ## `mytest.cpp` -/

/-- The enumeration `encrypto::motion::IntegerOperationType`.  Its declaration
(`utility/typedefs.h`) is not among the sources; the enumerators are the ones the examples
name, and `other id` stands for any further value of the underlying integer, such as
`kIllegalOperationType`. -/
inductive IntegerOperationType where
  | kAdd
  | kDiv
  | kGt
  | kEq
  | kMul
  | kSub
  | other (id : Nat)
  deriving DecidableEq, Repr

/-- Modelled from the spec: the operators `-`, `>`, `/` and `==` of `SecureUnsignedInteger`
(`secure_type/`) are missing; an operator "lazily extends" the graph and is taken to
succeed.  `EvaluateProtocol` discards the share they return, which is not modelled. -/
def SecureUnsignedInteger.discarded (event : Share → Share → Event) (a b : Share)
    (p : Party) : Party :=
  { p with trace := p.trace ++ [event a b] }

/-- Modelled from the spec: the destructor `~Party()` (`base/party.cpp`) is missing; by the
documentation of `Party::Finish` in `party.h`, "this method is executed by the Party
destructor". -/
def Party.destroy (p : Party) : Party := p.Finish

namespace mytest

/-- The locals `a` and `b` of `EvaluateProtocol` (a default-constructed
`SecureUnsignedInteger` holds no share) and the party it works on. -/
structure State where
  party : Party
  a : Option Share
  b : Option Share
  deriving DecidableEq, Repr

/-- The state in which `EvaluateProtocol` starts. -/
def State.init (party : Party) : State := { party := party, a := none, b := none }

/-- The two statements `a = party->In<P>(x, 0); b = party->In<P>(y, 0);` of a case of the
first `switch`, where `In` is the overload the calls select, applied to its arguments
(`x` and `y` have the same value). -/
def makeShares (In : Party → Except Error Share × Party) (s : State) : Outcome State :=
  match In s.party with
  | (.error e, p) => .raised e { s with party := p }
  | (.ok a, p) =>
    match In p with
    | (.error e, q) => .raised e { s with party := q, a := some a }
    | (.ok b, q) => .done { s with party := q, a := some a, b := some b }

/-- A case of the `switch (bit_size)`, lines 55-61 (and 62-68, 69-75, 76-82) for the
unsigned integer type of `width` bits: `temporary_arithmetic_a` and `temporary_arithmetic_b`
are constructed, then `a` and `b` are made; the two vectors have the same value. -/
def arithmeticCase (pf : Platform) (width number_of_simd : Nat) (s : State) : Outcome State :=
  match pf.construct (.temporary_arithmetic_a width number_of_simd)
      (List.replicate number_of_simd 0) with
  | .error e => .raised e s
  | .ok temporary_arithmetic_a =>
    match pf.construct (.temporary_arithmetic_b width number_of_simd)
        (List.replicate number_of_simd 0) with
    | .error e => .raised e s
    | .ok _temporary_arithmetic_b =>
      makeShares (Party.In_Unsigneds .kArithmeticGmw width temporary_arithmetic_a 0) s

/-- Lines 42-92: the `switch (protocol)` that makes `a` and `b`; `temporary_bool` is the
vector of lines 37-38. -/
def makeInputs (pf : Platform) (temporary_bool : List (List Bool))
    (number_of_simd bit_size : Nat) (protocol : MpcProtocol) (s : State) : Outcome State :=
  match protocol with
  | .kBooleanGmw => makeShares (Party.In_BitVectors .kBooleanGmw temporary_bool 0) s
  | .kBmr => makeShares (Party.In_BitVectors .kBmr temporary_bool 0) s
  | .kArithmeticGmw =>
    if bit_size = 8 then arithmeticCase pf 8 number_of_simd s
    else if bit_size = 16 then arithmeticCase pf 16 number_of_simd s
    else if bit_size = 32 then arithmeticCase pf 32 number_of_simd s
    else if bit_size = 64 then arithmeticCase pf 64 number_of_simd s
    else .raised (.invalid_argument "Unknown bit size") s
  | _ => .raised (.invalid_argument "Invalid MPC protocol") s

/-- An operator applied to `a` and `b`, its result discarded: `f` extends the graph.
Applying it to a `SecureUnsignedInteger` that holds no share has no defined meaning. -/
def applyOperator (f : Share → Share → Party → Party) (s : State) : Outcome State :=
  match s.a, s.b with
  | some a, some b => .done { s with party := f a b s.party }
  | _, _ => .raised (.undefined_behaviour .no_share) s

/-- Lines 94-122: the `switch (operation_type)`. -/
def operate (operation_type : IntegerOperationType) (s : State) : Outcome State :=
  match operation_type with
  | .kSub => applyOperator (SecureUnsignedInteger.discarded Event.sub) s
  | .kGt => applyOperator (SecureUnsignedInteger.discarded Event.gt) s
  | .kDiv => applyOperator (SecureUnsignedInteger.discarded Event.div) s
  | .kMul => applyOperator (fun a b p => (SecureUnsignedInteger.mul a b p).2) s
  | .kAdd => applyOperator (fun a b p => (SecureUnsignedInteger.add a b p).2) s
  | .kEq => applyOperator (SecureUnsignedInteger.discarded Event.eq) s
  | _ => .raised (.invalid_argument "Unknown operation type") s

/-- Lines 124-125: `party->Run(); party->Finish();` -/
def runAndFinish (s : State) : Outcome State :=
  .done { s with party := s.party.Run.Finish }

/-- `EvaluateProtocol(party, number_of_simd, bit_size, protocol, operation_type)` of
`mytest.cpp`.  The statistics it returns are not modelled: the outcome is the final
state. -/
def EvaluateProtocol (pf : Platform) (party : Party) (number_of_simd bit_size : Nat)
    (protocol : MpcProtocol) (operation_type : IntegerOperationType) : Outcome State :=
  match pf.construct (.temporary_bool bit_size number_of_simd)
      (List.replicate bit_size (List.replicate number_of_simd false)) with
  | .error e => .raised e (State.init party)
  | .ok temporary_bool =>
    ((makeInputs pf temporary_bool number_of_simd bit_size protocol (State.init party)).andThen
      (operate operation_type)).andThen runAndFinish

/-- The operation types the second `switch` has a case for. -/
def KnownOperation (operation_type : IntegerOperationType) : Prop :=
  operation_type = .kSub ∨ operation_type = .kGt ∨ operation_type = .kDiv ∨
    operation_type = .kMul ∨ operation_type = .kAdd ∨ operation_type = .kEq

instance (operation_type : IntegerOperationType) : Decidable (KnownOperation operation_type) := by
  unfold KnownOperation; infer_instance

/-- The vectors that a call declares are constructed: `temporary_bool` and, in the four
cases of `kArithmeticGmw`, `temporary_arithmetic_a` and `temporary_arithmetic_b`. -/
def Constructed (pf : Platform) (number_of_simd bit_size : Nat) (protocol : MpcProtocol) :
    Prop :=
  pf.refuses (.temporary_bool bit_size number_of_simd) = none ∧
    (protocol = .kArithmeticGmw →
      (bit_size = 8 ∨ bit_size = 16 ∨ bit_size = 32 ∨ bit_size = 64) →
      pf.refuses (.temporary_arithmetic_a bit_size number_of_simd) = none ∧
      pf.refuses (.temporary_arithmetic_b bit_size number_of_simd) = none)

instance (pf : Platform) (number_of_simd bit_size : Nat) (protocol : MpcProtocol) :
    Decidable (Constructed pf number_of_simd bit_size protocol) := by
  unfold Constructed; infer_instance

/-- `struct Combination`, lines 87-99 of `mytest_main.cpp`. -/
structure Combination where
  bit_size_ : Nat
  protocol_ : MpcProtocol
  operation_type_ : IntegerOperationType
  number_of_simd_ : Nat
  deriving DecidableEq, Repr

/-- `GenerateAllCombinations`, lines 102-124 of `mytest_main.cpp`. -/
def GenerateAllCombinations : List Combination :=
  let kArithmeticBitSizes := [8, 16, 32, 64]
  let kNumbersOfSimd := [1]
  let kOperationTypes := [IntegerOperationType.kAdd]
  kArithmeticBitSizes.flatMap fun bit_size =>
    kOperationTypes.flatMap fun operation_type =>
      kNumbersOfSimd.flatMap fun number_of_simd =>
        [{ bit_size_ := bit_size, protocol_ := .kArithmeticGmw,
           operation_type_ := operation_type, number_of_simd_ := number_of_simd },
         { bit_size_ := bit_size, protocol_ := .kBooleanGmw,
           operation_type_ := operation_type, number_of_simd_ := number_of_simd },
         { bit_size_ := bit_size, protocol_ := .kBmr,
           operation_type_ := operation_type, number_of_simd_ := number_of_simd }]

end mytest

end Motion

namespace Motion

/-! ## Counting what was built -/

/-- An input gate. -/
def Event.isInput : Event → Bool
  | .input _ _ _ => true
  | _ => false

/-- A multiplication. -/
def Event.isMul : Event → Bool
  | .mul _ _ => true
  | _ => false

/-- An addition. -/
def Event.isAdd : Event → Bool
  | .add _ _ => true
  | _ => false

namespace matmult

/-- Everything `EvaluateProtocol` asks of the party before `Run`, on a supported
combination: the input gates, then the events of the cells, row by row. -/
def builtEvents (op : InputOperation) (value : InputValue) (g0 dim : Nat) : List Event :=
  List.replicate (2 * (dim * dim)) (Event.input op (some 0) value) ++
    (List.range dim).flatMap (fun i =>
      (List.range dim).flatMap (fun j => cellEvents op g0 dim i j))

end matmult

end Motion

namespace Motion

namespace matmult

end matmult

end Motion

namespace Motion

namespace mytest

/-- The configuration after the parsed entries `rs` (id, host, port) have been written into
`cfg`, first to last. -/
def writeAll (cfg : List (String × Nat)) (rs : List (Nat × String × Nat)) :
    List (String × Nat) :=
  rs.foldl (fun c r => c.set r.1 (r.2.1, r.2.2)) cfg

end mytest

end Motion

namespace Motion

/-! ## `mytest.cpp`: the run in closed form -/

/-- The state an execution ends in, whether it completes or raises. -/
def Outcome.state {σ : Type} : Outcome σ → σ
  | .done s => s
  | .raised _ s => s

namespace mytest

/-- The state after `a` and `b` were made on a supported combination. -/
def inputState (op : InputOperation) (value : InputValue) (p : Party) : State :=
  { party := { trace := p.trace ++ [Event.input op (some 0) value, Event.input op (some 0) value],
               finished := p.finished },
    a := some (Share.input op p.trace.length),
    b := some (Share.input op (p.trace.length + 1)) }

/-- The event the operator of `operation_type` leaves in the trace (for `other`, which the
`switch` has no case for, the value is not used). -/
def operationEvent (operation_type : IntegerOperationType) (a b : Share) : Event :=
  match operation_type with
  | .kSub => Event.sub a b
  | .kGt => Event.gt a b
  | .kDiv => Event.div a b
  | .kMul => Event.mul a b
  | .kEq => Event.eq a b
  | .kAdd => Event.add a b
  | .other _ => Event.add a b

/-- Everything `EvaluateProtocol` asks of the party before `Run`, on a supported
combination with a known operation type. -/
def builtEvents (op : InputOperation) (value : InputValue) (g0 : Nat)
    (operation_type : IntegerOperationType) : List Event :=
  [Event.input op (some 0) value, Event.input op (some 0) value,
    operationEvent operation_type (Share.input op g0) (Share.input op (g0 + 1))]

/-- The state after the operator was applied, on a supported combination with a known
operation type. -/
def builtState (op : InputOperation) (value : InputValue) (p : Party)
    (operation_type : IntegerOperationType) : State :=
  { party := { trace := p.trace ++ builtEvents op value p.trace.length operation_type,
               finished := p.finished },
    a := some (Share.input op p.trace.length),
    b := some (Share.input op (p.trace.length + 1)) }

/-- The state in which `EvaluateProtocol` returns. -/
def finalState (op : InputOperation) (value : InputValue) (p : Party)
    (operation_type : IntegerOperationType) : State :=
  { party := { trace := p.trace ++ builtEvents op value p.trace.length operation_type ++
                 Event.run :: (if p.finished then [] else [Event.finish]),
               finished := true },
    a := some (Share.input op p.trace.length),
    b := some (Share.input op (p.trace.length + 1)) }

end mytest

end Motion

namespace Motion

/-! ## Gates: the state machine and the SIMD re-layout -/

/-- Modelled from the spec: the gate base class (`protocols/gate.h`) is missing; a gate has
"a state ∈ {Constructed, SetupPending, SetupDone, OnlinePending, OnlineDone}". -/
inductive GateState where
  | Constructed
  | SetupPending
  | SetupDone
  | OnlinePending
  | OnlineDone
  deriving DecidableEq, Repr

/-- Modelled from the spec: the gates of a backend, "keyed by integer id": the state of
every gate and, as a record of what has happened, whether its `EvaluateSetup` has
completed. -/
structure Gates where
  state : Nat → GateState
  setup_completed : Nat → Bool

/-- Modelled from the spec: all gates as they are constructed. -/
def Gates.init : Gates :=
  { state := fun _ => .Constructed, setup_completed := fun _ => false }

/-- The gates after gate `g` has moved to the state `st`. -/
def Gates.move (s : Gates) (g : Nat) (st : GateState) : Gates :=
  { s with state := fun h => if h = g then st else s.state h }

/-- Modelled from the spec: the steps of the state machine,
`Constructed → SetupPending → SetupDone → OnlinePending → OnlineDone`, each for one gate. -/
inductive Transition where
  /-- `EvaluateSetup` starts -/
  | beginSetup (g : Nat)
  /-- `EvaluateSetup` completes -/
  | endSetup (g : Nat)
  /-- `EvaluateOnline` starts -/
  | beginOnline (g : Nat)
  /-- `EvaluateOnline` completes -/
  | endOnline (g : Nat)
  deriving DecidableEq, Repr

/-- Modelled from the spec: one step, if it is enabled; `parents g` are the gates whose
output shares gate `g` consumes.  "A gate may only enter OnlinePending once its own
SetupDone holds AND all parent gates are OnlineDone (or, for Input gates with no parents,
immediately after SetupDone)." -/
def Gates.step (parents : Nat → List Nat) (t : Transition) (s : Gates) : Option Gates :=
  match t with
  | .beginSetup g =>
    if s.state g = .Constructed then some (s.move g .SetupPending) else none
  | .endSetup g =>
    if s.state g = .SetupPending then
      some { s.move g .SetupDone with
        setup_completed := fun h => if h = g then true else s.setup_completed h }
    else none
  | .beginOnline g =>
    if s.state g = .SetupDone ∧ ∀ q ∈ parents g, s.state q = .OnlineDone then
      some (s.move g .OnlinePending)
    else none
  | .endOnline g =>
    if s.state g = .OnlinePending then some (s.move g .OnlineDone) else none

/-- The gates after the steps `ts`, taken from `s` in order, if all of them are enabled. -/
def Gates.run (parents : Nat → List Nat) : List Transition → Gates → Option Gates
  | [], s => some s
  | t :: ts, s =>
    match s.step parents t with
    | some s' => s'.run parents ts
    | none => none

/-- The property of the claim: a gate that is in its online phase has completed its setup,
and all its parents are `OnlineDone`. -/
def Gates.Ordered (parents : Nat → List Nat) (s : Gates) : Prop :=
  ∀ g, (s.state g = .OnlinePending ∨ s.state g = .OnlineDone) →
    s.setup_completed g = true ∧ ∀ q ∈ parents g, s.state q = .OnlineDone

/-- What the invariant adds to carry `Ordered` through the steps: a gate in `SetupDone` has
completed its setup. -/
def Gates.Invariant (parents : Nat → List Nat) (s : Gates) : Prop :=
  s.Ordered parents ∧ ∀ g, s.state g = .SetupDone → s.setup_completed g = true

/-- Modelled from the spec: the share and wire classes (`protocols/share.h`,
`protocols/wire.h`) are missing; §3 gives a share as an ordered sequence of wires that all
have the same SIMD length, and a wire as a batch of values that is either unset or set.
A wire is `none` while unset and `some` of its batch once set. -/
structure SimdShare (α : Type) where
  number_of_simd : Nat
  wires : List (Option (List α))
  deriving DecidableEq, Repr

/-- Every wire of the share is set and carries one value per SIMD index. -/
def SimdShare.Ready {α : Type} (s : SimdShare α) : Prop :=
  ∀ wire ∈ s.wires, ∃ values, wire = some values ∧ values.length = s.number_of_simd

/-- The value of wire `j` at SIMD index `i`, if the wire exists, is set and is that long. -/
def SimdShare.value {α : Type} (s : SimdShare α) (j i : Nat) : Option α :=
  match s.wires[j]? with
  | some (some values) => values[i]?
  | _ => none

/-- Modelled from the spec: `unsimdify_gate.cpp` is missing, the header declares the
constructor, `EvaluateSetup`, `EvaluateOnline` and `GetOutputAsVectorOfShares` only. By §4.3
the gate has one output share per SIMD index of the parent, each with the parent's wire
count and SIMD length 1, filled by a local copy in the online phase. -/
structure UnsimdifyGate (α : Type) where
  parent : SimdShare α
  state : GateState
  output : List (SimdShare α)
  deriving DecidableEq, Repr

/-- Modelled from the spec: `UnsimdifyGate::UnsimdifyGate(parent)`; the output shares exist
from construction on, their wires unset. -/
def UnsimdifyGate.new {α : Type} (parent : SimdShare α) : UnsimdifyGate α :=
  { parent := parent
    state := .Constructed
    output := List.replicate parent.number_of_simd
      { number_of_simd := 1, wires := parent.wires.map fun _ => none } }

/-- Modelled from the spec: `UnsimdifyGate::EvaluateSetup()`, which needs no setup work. -/
def UnsimdifyGate.EvaluateSetup {α : Type} (g : UnsimdifyGate α) : UnsimdifyGate α :=
  if g.state = .Constructed then { g with state := .SetupDone } else g

/-- The parent's values at SIMD index `i`, one single-value wire per parent wire. -/
def UnsimdifyGate.layer {α : Type} (parent : SimdShare α) (i : Nat) : SimdShare α :=
  { number_of_simd := 1
    wires := parent.wires.map fun wire => wire.bind fun values => values[i]?.map fun x => [x] }

/-- Modelled from the spec: `UnsimdifyGate::EvaluateOnline()`, the local copy of §4.3, run
once the gate's setup is done. -/
def UnsimdifyGate.EvaluateOnline {α : Type} (g : UnsimdifyGate α) : UnsimdifyGate α :=
  if g.state = .SetupDone then
    { g with
      state := .OnlineDone
      output := (List.range g.parent.number_of_simd).map (UnsimdifyGate.layer g.parent) }
  else g

/-- Modelled from the spec: `UnsimdifyGate::GetOutputAsVectorOfShares()`. -/
def UnsimdifyGate.GetOutputAsVectorOfShares {α : Type} (g : UnsimdifyGate α) :
    List (SimdShare α) :=
  g.output

end Motion

/-! # Theorems -/

namespace Motion

/-! ## Loops -/

theorem forInt_done_eq {σ : Type} (body : Nat → σ → Outcome σ) (f : Nat → σ) :
    ∀ (n i : Nat), i + n ≤ INT_MAX →
      (∀ k, i ≤ k → k < i + n → body k (f k) = .done (f (k + 1))) →
      forInt body n i (f i) = .done (f (i + n)) := by
  intro n
  induction n with
  | zero => intro i _ _; simp [forInt]
  | succ n ih =>
    intro i hb hstep
    have h1 := hstep i (le_refl i) (by omega)
    have h2 : i < INT_MAX := by omega
    simp only [forInt, h1, h2, if_true]
    have := ih (i + 1) (by omega) (fun k hk1 hk2 => hstep k (by omega) (by omega))
    rw [this]
    congr 2
    omega

theorem forInt_raised_first {σ : Type} (body : Nat → σ → Outcome σ) (n i : Nat) (s s' : σ)
    (e : Error) (h : body i s = .raised e s') : forInt body (n + 1) i s = .raised e s' := by
  simp [forInt, h]

/-- The state in which the counter overflows, for a loop whose rounds are known: the one
after the round in which the counter holds `INT_MAX`. -/
theorem forInt_overflow_eq {σ : Type} (body : Nat → σ → Outcome σ) (f : Nat → σ) :
    ∀ (n i : Nat), i ≤ INT_MAX → INT_MAX < i + n →
      (∀ k, i ≤ k → k ≤ INT_MAX → body k (f k) = .done (f (k + 1))) →
      forInt body n i (f i)
        = .raised (.undefined_behaviour .signed_overflow) (f (INT_MAX + 1)) := by
  intro n
  induction n with
  | zero => intro i h1 h2; omega
  | succ n ih =>
    intro i h1 h2 hstep
    have hb := hstep i (le_refl i) h1
    by_cases hi : i < INT_MAX
    · simp only [forInt, hb, hi, if_true]
      exact ih (i + 1) (by omega) (by omega) (fun k hk1 hk2 => hstep k (by omega) hk2)
    · have e : i = INT_MAX := by omega
      subst e
      simp [forInt, hb]

/-- A loop whose body can only complete (keeping `Inv`) or run into the undefined behaviour
`c`, and does the latter at some round `k0` that its counter can reach, runs into `c`. -/
theorem forInt_undefined {σ : Type} (body : Nat → σ → Outcome σ) (Inv : σ → Prop)
    (c : Undefined) (k0 : Nat) (hk : k0 ≤ INT_MAX)
    (hbody : ∀ k t, Inv t →
      (∃ t', body k t = .done t' ∧ Inv t') ∨
        (∃ t', body k t = .raised (.undefined_behaviour c) t'))
    (hk0 : ∀ t, Inv t → ∃ t', body k0 t = .raised (.undefined_behaviour c) t') :
    ∀ (n i : Nat) (s : σ), Inv s → i ≤ k0 → k0 < i + n →
      ∃ s', forInt body n i s = .raised (.undefined_behaviour c) s' := by
  intro n
  induction n with
  | zero => intro i s _ h1 h2; omega
  | succ n ih =>
    intro i s hs h1 h2
    rcases hbody i s hs with ⟨t, ht, hinv⟩ | ⟨t, ht⟩
    · have hne : i ≠ k0 := by
        rintro rfl
        obtain ⟨t', ht'⟩ := hk0 s hs
        rw [ht] at ht'
        cases ht'
      have hi : i < INT_MAX := by omega
      obtain ⟨s', hs'⟩ := ih (i + 1) t hinv (by omega) (by omega)
      exact ⟨s', by simp [forInt, ht, hi, hs']⟩
    · exact ⟨t, by simp [forInt, ht]⟩

/-! ## Values of shares -/

namespace matmult

theorem inputBody_step (op : InputOperation) (value : InputValue) (p : Party) (k : Nat) :
    inputBody (fun q => returned (Backend.Input op (some 0) value q)) k (inputState op value p k)
      = .done (inputState op value p (k + 1)) := by
  have h2 : 2 * (k + 1) = 2 * k + 2 := by ring
  simp [inputBody, returned, Backend.Input, inputState, List.range_succ, in1, in2, h2,
    List.replicate_add]
  omega

theorem inputLoop_done (op : InputOperation) (value : InputValue) (p : Party) (n : Nat)
    (hn : n ≤ INT_MAX) :
    forInt (inputBody (fun q => returned (Backend.Input op (some 0) value q))) n 0 (State.init p)
      = .done (inputState op value p n) := by
  have h0 : State.init p = inputState op value p 0 := by
    simp [State.init, inputState]
  rw [h0]
  have := forInt_done_eq (inputBody (fun q => returned (Backend.Input op (some 0) value q)))
    (inputState op value p) n 0 (by omega) (fun k _ _ => inputBody_step op value p k)
  simpa using this

/-- With more than `INT_MAX` rounds to make, the input loop stops when its counter
overflows, after `INT_MAX + 1` rounds. -/
theorem inputLoop_overflow (op : InputOperation) (value : InputValue) (p : Party) (n : Nat)
    (hn : INT_MAX < n) :
    forInt (inputBody (fun q => returned (Backend.Input op (some 0) value q))) n 0 (State.init p)
      = .raised (.undefined_behaviour .signed_overflow) (inputState op value p (INT_MAX + 1)) := by
  have h0 : State.init p = inputState op value p 0 := by
    simp [State.init, inputState]
  rw [h0]
  exact forInt_overflow_eq (inputBody (fun q => returned (Backend.Input op (some 0) value q)))
    (inputState op value p) n 0 (Nat.zero_le _) (by omega)
    (fun k _ _ => inputBody_step op value p k)

theorem index_lt {d i k : Nat} (hi : i < d) (hk : k < d) : i * d + k < d * d := by
  have h1 : (i + 1) * d ≤ d * d := Nat.mul_le_mul_right d hi
  have h2 : (i + 1) * d = i * d + d := by ring
  omega

theorem index_mod {d i k : Nat} (hd : d * d ≤ INT_MAX) (hi : i < d) (hk : k < d) :
    (i * d + k) % SIZE_MOD = i * d + k := by
  apply Nat.mod_eq_of_lt
  have := index_lt hi hk
  simp only [INT_MAX, SIZE_MOD] at *
  omega

theorem productBody_step (op : InputOperation) (g0 dim i j : Nat) (s : State) (k : Nat)
    (hd : dim * dim ≤ INT_MAX) (hi : i < dim) (hj : j < dim) (hk : k < dim)
    (h1 : s.v1 = (List.range (dim * dim)).map (in1 op g0))
    (h2 : s.v2 = (List.range (dim * dim)).map (in2 op g0)) :
    productBody dim i j k (prodState op g0 dim i j s k)
      = .done (prodState op g0 dim i j s (k + 1)) := by
  have e1 := index_mod hd hi hk
  have e2 := index_mod hd hk hj
  have l1 := index_lt hi hk
  have l2 := index_lt hk hj
  simp [productBody, prodState, h1, h2, e1, e2, l1, l2, SecureUnsignedInteger.mul,
    List.range_succ, prodShare]

theorem productLoop_done (op : InputOperation) (g0 dim i j : Nat) (s : State)
    (hd : dim * dim ≤ INT_MAX) (hi : i < dim) (hj : j < dim)
    (h1 : s.v1 = (List.range (dim * dim)).map (in1 op g0))
    (h2 : s.v2 = (List.range (dim * dim)).map (in2 op g0)) :
    forInt (productBody dim i j) dim 0 s = .done (prodState op g0 dim i j s dim) := by
  have hle : dim ≤ dim * dim := by
    rcases Nat.eq_zero_or_pos dim with h | h
    · simp [h]
    · exact Nat.le_mul_of_pos_left dim h
  have h0 : s = prodState op g0 dim i j s 0 := by
    simp [prodState]
  have := forInt_done_eq (productBody dim i j) (prodState op g0 dim i j s) dim 0 (by omega)
    (fun k _ hk => productBody_step op g0 dim i j s k hd hi hj (by omega) h1 h2)
  rw [← h0] at this
  simpa using this

theorem moveLast_prodState (op : InputOperation) (g0 d i j : Nat) (s : State)
    (ht : s.tmp = []) :
    moveLast (prodState op g0 (d + 1) i j s (d + 1)) = .done (sumState op g0 d i j s 0) := by
  simp [moveLast, prodState, sumState, ht, List.range_succ, accShare]

theorem sumBody_step (op : InputOperation) (g0 d i j : Nat) (s : State) (m : Nat)
    (hm : m < d) :
    sumBody m (sumState op g0 d i j s m) = .done (sumState op g0 d i j s (m + 1)) := by
  have e : d - m = (d - 1 - m) + 1 := by omega
  have e' : d - (m + 1) = d - 1 - m := by omega
  simp [sumBody, sumState, e, e', List.range_succ, accShare, SecureUnsignedInteger.add]

theorem pred_mod {d : Nat} (hd : d + 1 ≤ INT_MAX) : (d + 1 + SIZE_MOD - 1) % SIZE_MOD = d := by
  simp only [INT_MAX, SIZE_MOD] at *
  omega

theorem cellBody_done (op : InputOperation) (g0 d i j : Nat) (s : State)
    (hd : (d + 1) * (d + 1) ≤ INT_MAX) (hi : i < d + 1) (hj : j < d + 1)
    (h1 : s.v1 = (List.range ((d + 1) * (d + 1))).map (in1 op g0))
    (h2 : s.v2 = (List.range ((d + 1) * (d + 1))).map (in2 op g0))
    (ht : s.tmp = []) :
    cellBody (d + 1) i j s = .done (sumState op g0 d i j s d) := by
  have hle : d + 1 ≤ INT_MAX := by
    have : d + 1 ≤ (d + 1) * (d + 1) := Nat.le_mul_of_pos_left (d + 1) (by omega)
    omega
  have hsum : forInt sumBody d 0 (sumState op g0 d i j s 0) = .done (sumState op g0 d i j s d) := by
    have := forInt_done_eq sumBody (sumState op g0 d i j s) d 0 (by omega)
      (fun m _ hm => sumBody_step op g0 d i j s m (by omega))
    simpa using this
  unfold cellBody
  rw [pred_mod hle, productLoop_done op g0 (d + 1) i j s hd hi hj h1 h2]
  simp only [Outcome.andThen]
  rw [moveLast_prodState op g0 d i j s ht]
  simp only [hsum]
  simp [checkTmp, sumState]

theorem cellBody_rowState (op : InputOperation) (g0 d i j : Nat) (s : State)
    (hd : (d + 1) * (d + 1) ≤ INT_MAX) (hi : i < d + 1) (hj : j < d + 1)
    (h1 : s.v1 = (List.range ((d + 1) * (d + 1))).map (in1 op g0))
    (h2 : s.v2 = (List.range ((d + 1) * (d + 1))).map (in2 op g0))
    (ht : s.tmp = []) :
    cellBody (d + 1) i j (rowState op g0 (d + 1) i s j)
      = .done (rowState op g0 (d + 1) i s (j + 1)) := by
  rw [cellBody_done op g0 d i j (rowState op g0 (d + 1) i s j) hd hi hj
    (by simpa [rowState] using h1) (by simpa [rowState] using h2) (by simpa [rowState] using ht)]
  simp [sumState, rowState, List.range_succ, cellEvents, cellShare, ht]

theorem rowBody_done (op : InputOperation) (g0 dim i : Nat) (s : State)
    (hd : dim * dim ≤ INT_MAX) (hi : i < dim)
    (h1 : s.v1 = (List.range (dim * dim)).map (in1 op g0))
    (h2 : s.v2 = (List.range (dim * dim)).map (in2 op g0))
    (ht : s.tmp = []) :
    rowBody dim i s = .done (rowState op g0 dim i s dim) := by
  obtain ⟨d, rfl⟩ : ∃ d, dim = d + 1 := ⟨dim - 1, by omega⟩
  have hle : d + 1 ≤ INT_MAX := by
    have : d + 1 ≤ (d + 1) * (d + 1) := Nat.le_mul_of_pos_left (d + 1) (by omega)
    omega
  have h0 : s = rowState op g0 (d + 1) i s 0 := by simp [rowState]
  have := forInt_done_eq (cellBody (d + 1) i) (rowState op g0 (d + 1) i s) (d + 1) 0 (by omega)
    (fun j _ hj => cellBody_rowState op g0 d i j s hd hi (by omega) h1 h2 ht)
  rw [← h0] at this
  simpa [rowBody] using this

theorem rowBody_accState (op : InputOperation) (value : InputValue) (p : Party) (dim i : Nat)
    (hd : dim * dim ≤ INT_MAX) (hi : i < dim) :
    rowBody dim i (accState op value p dim i) = .done (accState op value p dim (i + 1)) := by
  rw [rowBody_done op p.trace.length dim i (accState op value p dim i) hd hi
    (by simp [accState]) (by simp [accState]) (by simp [accState])]
  simp [rowState, accState, List.range_succ]

theorem accumulate_done (op : InputOperation) (value : InputValue) (p : Party) (dim : Nat)
    (hd : dim * dim ≤ INT_MAX) :
    accumulate dim (inputState op value p (dim * dim)) = .done (accState op value p dim dim) := by
  have hle : dim ≤ INT_MAX := by
    rcases Nat.eq_zero_or_pos dim with h | h
    · simp [h]
    · have := Nat.le_mul_of_pos_left dim h
      omega
  have h0 : inputState op value p (dim * dim) = accState op value p dim 0 := by
    simp [inputState, accState]
  have := forInt_done_eq (rowBody dim) (accState op value p dim) dim 0 (by omega)
    (fun i _ hi => rowBody_accState op value p dim i hd (by omega))
  rw [← h0] at this
  simpa [accumulate] using this

theorem sq_mod {dim : Nat} (hd : dim * dim ≤ INT_MAX) : dim * dim % SIZE_MOD = dim * dim := by
  apply Nat.mod_eq_of_lt
  simp only [INT_MAX, SIZE_MOD] at *
  omega

theorem In_BitVectors_BooleanGmw (x : List (List Bool)) :
    Party.In_BitVectors .kBooleanGmw x 0
      = fun q => returned (Backend.Input .BooleanGmwInput (some 0) (.bitVectors x) q) := by
  funext q
  simp [Party.In_BitVectors, Party.In_bits, Backend.BooleanGmwInput]

theorem In_BitVectors_Bmr (x : List (List Bool)) :
    Party.In_BitVectors .kBmr x 0
      = fun q => returned (Backend.Input .BmrInput (some 0) (.bitVectors x) q) := by
  funext q
  simp [Party.In_BitVectors, Party.In_bits, Backend.BmrInput]

theorem In_Unsigneds_ArithmeticGmw (w : Nat) (x : List Nat) :
    Party.In_Unsigneds .kArithmeticGmw w x 0
      = fun q => returned (Backend.Input .ArithmeticGmwInput (some 0) (.unsigneds w x) q) := by
  funext q
  simp [Party.In_Unsigneds, Backend.ArithmeticGmwInput]

/-! ### What the entries of `v` evaluate to -/

theorem length_rows {α : Type} (f : Nat → Nat → α) (dim rows : Nat) :
    ((List.range rows).flatMap (fun i => (List.range dim).map (f i))).length = rows * dim := by
  induction rows with
  | zero => simp
  | succ r ih => simp [List.range_succ, ih, Nat.succ_mul]

/-! ### The runs of `EvaluateProtocol` -/

theorem arithmeticCase_constructed (pf : Platform) (width number_of_simd dim : Nat) (s : State)
    (h : pf.refuses (.temporary_arithmetic width number_of_simd) = none) :
    arithmeticCase pf width number_of_simd dim s
      = forInt (inputBody (fun q => returned (Backend.Input .ArithmeticGmwInput (some 0)
          (.unsigneds width (List.replicate number_of_simd 0)) q))) (dim * dim % SIZE_MOD) 0 s := by
  simp [arithmeticCase, Platform.construct, h, In_Unsigneds_ArithmeticGmw]

theorem arithmeticCase_refused (pf : Platform) (width number_of_simd dim : Nat) (s : State)
    (e : StorageError) (h : pf.refuses (.temporary_arithmetic width number_of_simd) = some e) :
    arithmeticCase pf width number_of_simd dim s = .raised e.toError s := by
  simp [arithmeticCase, Platform.construct, h]

theorem makeInputs_supported (pf : Platform) (number_of_simd bit_size dim : Nat)
    (protocol : MpcProtocol) (hs : Supported protocol bit_size)
    (hc : protocol = .kArithmeticGmw →
      (bit_size = 8 ∨ bit_size = 16 ∨ bit_size = 32 ∨ bit_size = 64) →
      pf.refuses (.temporary_arithmetic bit_size number_of_simd) = none) (s : State) :
    makeInputs pf (List.replicate bit_size (List.replicate number_of_simd false))
        number_of_simd bit_size dim protocol s
      = forInt (inputBody (fun q => returned (Backend.Input
          (inputOf number_of_simd bit_size protocol).1 (some 0)
          (inputOf number_of_simd bit_size protocol).2 q))) (dim * dim % SIZE_MOD) 0 s := by
  unfold makeInputs
  rcases hs with rfl | rfl | ⟨rfl, hb⟩
  · simp only [In_BitVectors_BooleanGmw, inputOf]
  · simp only [In_BitVectors_Bmr, inputOf]
  · have hc' := hc rfl hb
    rcases hb with rfl | rfl | rfl | rfl <;>
    simp [arithmeticCase_constructed _ _ _ _ _ hc', inputOf]

/-- In a case of `kArithmeticGmw` whose `temporary_arithmetic` cannot be constructed, the
exception of the constructor is raised and nothing else is done. -/
theorem makeInputs_refused (pf : Platform) (temporary_bool : List (List Bool))
    (number_of_simd bit_size dim : Nat)
    (hb : bit_size = 8 ∨ bit_size = 16 ∨ bit_size = 32 ∨ bit_size = 64) (e : StorageError)
    (h : pf.refuses (.temporary_arithmetic bit_size number_of_simd) = some e) (s : State) :
    makeInputs pf temporary_bool number_of_simd bit_size dim .kArithmeticGmw s
      = .raised e.toError s := by
  unfold makeInputs
  rcases hb with rfl | rfl | rfl | rfl <;>
  simp [arithmeticCase_refused _ _ _ _ _ e h]

theorem makeInputs_unsupported (pf : Platform) (temporary_bool : List (List Bool))
    (number_of_simd bit_size dim : Nat) (protocol : MpcProtocol)
    (hs : ¬ Supported protocol bit_size) (s : State) :
    makeInputs pf temporary_bool number_of_simd bit_size dim protocol s
      = .raised (.invalid_argument
          (if protocol = .kArithmeticGmw then "Unknown bit size" else "Invalid MPC protocol")) s := by
  unfold Supported at hs
  unfold makeInputs
  cases protocol <;> simp_all

theorem productBody_cases (dim i j k : Nat) (t : State) :
    (∃ t', productBody dim i j k t = .done t' ∧ t'.v1 = t.v1) ∨
      productBody dim i j k t = .raised (.undefined_behaviour .index_out_of_range) t := by
  unfold productBody
  split
  · left; exact ⟨_, rfl, rfl⟩
  · right; rfl

theorem productBody_out_of_range (dim j B : Nat) (hB : B < SIZE_MOD) (t : State)
    (ht : t.v1.length = B) :
    productBody dim 0 j B t = .raised (.undefined_behaviour .index_out_of_range) t := by
  have e : (0 * dim + B) % SIZE_MOD = B := by
    rw [Nat.zero_mul, Nat.zero_add]
    exact Nat.mod_eq_of_lt hB
  have hnone : t.v1[B]? = none := by
    rw [List.getElem?_eq_none_iff]
    omega
  unfold productBody
  rw [e, hnone]

/-- With fewer entries in `v1` than `dim`, the first cell reads `v1` out of range. -/
theorem accumulate_undefined (dim B : Nat) (hB : B ≤ INT_MAX) (hdim : B < dim) (s : State)
    (hs : s.v1.length = B) :
    ∃ s', accumulate dim s = .raised (.undefined_behaviour .index_out_of_range) s' := by
  obtain ⟨d, rfl⟩ : ∃ d, dim = d + 1 := ⟨dim - 1, by omega⟩
  have hlt : B < SIZE_MOD := by
    simp only [INT_MAX, SIZE_MOD] at *
    omega
  obtain ⟨s', hs'⟩ := forInt_undefined (productBody (d + 1) 0 0) (fun t => t.v1.length = B)
    .index_out_of_range B hB
    (fun k t ht => by
      rcases productBody_cases (d + 1) 0 0 k t with ⟨t', h1, h2⟩ | h
      · exact Or.inl ⟨t', h1, by show t'.v1.length = B; rw [h2]; exact ht⟩
      · exact Or.inr ⟨t, h⟩)
    (fun t ht => ⟨t, productBody_out_of_range (d + 1) 0 B hlt t ht⟩)
    (d + 1) 0 s hs (Nat.zero_le B) (by omega)
  have hcell : cellBody (d + 1) 0 0 s
      = .raised (.undefined_behaviour .index_out_of_range) s' := by
    unfold cellBody
    rw [hs']
    rfl
  have hrow : rowBody (d + 1) 0 s = .raised (.undefined_behaviour .index_out_of_range) s' := by
    unfold rowBody
    exact forInt_raised_first _ d 0 s s' _ hcell
  exact ⟨s', forInt_raised_first _ d 0 s s' _ hrow⟩

/-- With `v1` empty, the first product of the first cell reads `v1` out of range. -/
theorem accumulate_empty (dim : Nat) (hdim : 1 ≤ dim) (s : State) (hs : s.v1.length = 0) :
    accumulate dim s = .raised (.undefined_behaviour .index_out_of_range) s := by
  obtain ⟨d, rfl⟩ : ∃ d, dim = d + 1 := ⟨dim - 1, by omega⟩
  have hprod : forInt (productBody (d + 1) 0 0) (d + 1) 0 s
      = .raised (.undefined_behaviour .index_out_of_range) s :=
    forInt_raised_first _ d 0 s s _
      (productBody_out_of_range (d + 1) 0 0 (by decide) s hs)
  have hcell : cellBody (d + 1) 0 0 s
      = .raised (.undefined_behaviour .index_out_of_range) s := by
    unfold cellBody
    rw [hprod]
    rfl
  have hrow : rowBody (d + 1) 0 s = .raised (.undefined_behaviour .index_out_of_range) s := by
    unfold rowBody
    exact forInt_raised_first _ d 0 s s _ hcell
  exact forInt_raised_first _ d 0 s s _ hrow

theorem lt_of_sq_mod {dim : Nat} (h1 : dim * dim % SIZE_MOD ≤ INT_MAX) (h2 : INT_MAX < dim * dim) :
    dim * dim % SIZE_MOD < dim := by
  by_contra hcon
  have hle : dim ≤ INT_MAX := by omega
  have hsq : dim * dim ≤ INT_MAX * INT_MAX := Nat.mul_le_mul hle hle
  have hlt : dim * dim < SIZE_MOD := by
    have : INT_MAX * INT_MAX < SIZE_MOD := by decide
    omega
  rw [Nat.mod_eq_of_lt hlt] at h1
  omega

/-- Whatever `sizeof(BitVector<>)` is, a `temporary_bool` of `2^64 - 1` wires exceeds
`max_size()`. -/
theorem lp64_refuses_oversized (size number_of_simd : Nat) :
    (Platform.lp64 size).refuses (.temporary_bool 18446744073709551615 number_of_simd)
      = some .length_error := by
  have h : PTRDIFF_MAX / size < 18446744073709551615 :=
    Nat.lt_of_le_of_lt (Nat.div_le_self _ _) (by decide)
  simp only [Platform.lp64]
  rw [if_pos h]

theorem construct_constructed {α : Type} (pf : Platform) (t : Temporary) (x : α)
    (h : pf.refuses t = none) : pf.construct t x = .ok x := by
  simp [Platform.construct, h]

theorem construct_refused {α : Type} (pf : Platform) (t : Temporary) (x : α)
    (e : StorageError) (h : pf.refuses t = some e) : pf.construct t x = .error e.toError := by
  simp [Platform.construct, h]

/-- Once `temporary_bool` is constructed, the `switch` and the accumulation loops run. -/
theorem buildCircuit_constructed (pf : Platform) (p : Party) (number_of_simd bit_size dim : Nat)
    (protocol : MpcProtocol) (h : pf.refuses (.temporary_bool bit_size number_of_simd) = none) :
    buildCircuit pf p number_of_simd bit_size dim protocol
      = (makeInputs pf (List.replicate bit_size (List.replicate number_of_simd false))
          number_of_simd bit_size dim protocol (State.init p)).andThen (accumulate dim) := by
  unfold buildCircuit
  rw [construct_constructed pf _ _ h]

/-- When `temporary_bool` cannot be constructed, the exception of its constructor is raised
before anything else is done. -/
theorem buildCircuit_refused (pf : Platform) (p : Party) (number_of_simd bit_size dim : Nat)
    (protocol : MpcProtocol) (e : StorageError)
    (h : pf.refuses (.temporary_bool bit_size number_of_simd) = some e) :
    buildCircuit pf p number_of_simd bit_size dim protocol = .raised e.toError (State.init p) := by
  unfold buildCircuit
  rw [construct_refused pf _ _ e h]

/-- On a supported combination whose vectors are constructed and whose `dim * dim` fits an
`int`, the circuit is built without error and the final state is the closed form
`accState`. -/
theorem buildCircuit_done (pf : Platform) (p : Party) (number_of_simd bit_size dim : Nat)
    (protocol : MpcProtocol) (hs : Supported protocol bit_size)
    (hc : Constructed pf number_of_simd bit_size protocol) (hd : dim * dim ≤ INT_MAX) :
    buildCircuit pf p number_of_simd bit_size dim protocol
      = .done (accState (inputOf number_of_simd bit_size protocol).1
          (inputOf number_of_simd bit_size protocol).2 p dim dim) := by
  rw [buildCircuit_constructed pf p number_of_simd bit_size dim protocol hc.1,
    makeInputs_supported pf number_of_simd bit_size dim protocol hs hc.2, sq_mod hd,
    inputLoop_done _ _ p _ hd]
  simp only [Outcome.andThen]
  exact accumulate_done _ _ p dim hd

/-- On a supported combination whose vectors are constructed and whose `dim * dim` does not
fit an `int`, building the circuit runs into undefined behaviour: the counter of the input
loop overflows, or `v1` is read out of range. -/
theorem buildCircuit_undefined (pf : Platform) (p : Party) (number_of_simd bit_size dim : Nat)
    (protocol : MpcProtocol) (hs : Supported protocol bit_size)
    (hc : Constructed pf number_of_simd bit_size protocol) (hd : INT_MAX < dim * dim) :
    ∃ c s, (c = .signed_overflow ∨ c = .index_out_of_range) ∧
      buildCircuit pf p number_of_simd bit_size dim protocol
        = .raised (.undefined_behaviour c) s := by
  rw [buildCircuit_constructed pf p number_of_simd bit_size dim protocol hc.1,
    makeInputs_supported pf number_of_simd bit_size dim protocol hs hc.2]
  by_cases hB : dim * dim % SIZE_MOD ≤ INT_MAX
  · rw [inputLoop_done _ _ p _ hB]
    simp only [Outcome.andThen]
    obtain ⟨s', hs'⟩ := accumulate_undefined dim (dim * dim % SIZE_MOD) hB (lt_of_sq_mod hB hd)
      (inputState (inputOf number_of_simd bit_size protocol).1
        (inputOf number_of_simd bit_size protocol).2 p (dim * dim % SIZE_MOD))
      (by simp [inputState])
    exact ⟨_, s', Or.inr rfl, hs'⟩
  · rw [inputLoop_overflow _ _ p _ (by omega)]
    exact ⟨_, _, Or.inl rfl, rfl⟩

/-- When `dim * dim` is 0 modulo `2 ^ 64` and `dim` is not 0, no input gate is made and the
first product reads the empty `v1`. -/
theorem buildCircuit_wrapped (pf : Platform) (p : Party) (number_of_simd bit_size dim : Nat)
    (protocol : MpcProtocol) (hs : Supported protocol bit_size)
    (hc : Constructed pf number_of_simd bit_size protocol)
    (hdim : 1 ≤ dim) (hd : dim * dim % SIZE_MOD = 0) :
    buildCircuit pf p number_of_simd bit_size dim protocol
      = .raised (.undefined_behaviour .index_out_of_range) (State.init p) := by
  rw [buildCircuit_constructed pf p number_of_simd bit_size dim protocol hc.1,
    makeInputs_supported pf number_of_simd bit_size dim protocol hs hc.2, hd]
  simp only [forInt, Outcome.andThen]
  exact accumulate_empty dim hdim (State.init p) (by simp [State.init])

/-- On an unsupported combination, once `temporary_bool` is constructed, nothing is built:
an `invalid_argument` is raised in the initial state. -/
theorem buildCircuit_unsupported (pf : Platform) (p : Party) (number_of_simd bit_size dim : Nat)
    (protocol : MpcProtocol) (hc : pf.refuses (.temporary_bool bit_size number_of_simd) = none)
    (hs : ¬ Supported protocol bit_size) :
    buildCircuit pf p number_of_simd bit_size dim protocol
      = .raised (.invalid_argument
          (if protocol = .kArithmeticGmw then "Unknown bit size" else "Invalid MPC protocol"))
          (State.init p) := by
  rw [buildCircuit_constructed pf p number_of_simd bit_size dim protocol hc,
    makeInputs_unsupported pf _ number_of_simd bit_size dim protocol hs]
  rfl

/-- On a supported combination one of whose vectors cannot be constructed, the exception
of the constructor is raised in the initial state. -/
theorem buildCircuit_not_constructed (pf : Platform) (p : Party)
    (number_of_simd bit_size dim : Nat) (protocol : MpcProtocol)
    (hs : Supported protocol bit_size)
    (hc : ¬ Constructed pf number_of_simd bit_size protocol) :
    ∃ e : StorageError, buildCircuit pf p number_of_simd bit_size dim protocol
      = .raised e.toError (State.init p) := by
  by_cases hb : pf.refuses (.temporary_bool bit_size number_of_simd) = none
  · have ha : ¬ (protocol = .kArithmeticGmw →
        (bit_size = 8 ∨ bit_size = 16 ∨ bit_size = 32 ∨ bit_size = 64) →
        pf.refuses (.temporary_arithmetic bit_size number_of_simd) = none) :=
      fun h => hc ⟨hb, h⟩
    have hp : protocol = .kArithmeticGmw := by
      by_contra hne
      exact ha (fun h => absurd h hne)
    have hne : pf.refuses (.temporary_arithmetic bit_size number_of_simd) ≠ none :=
      fun h => ha (fun _ _ => h)
    obtain ⟨e, he⟩ := Option.ne_none_iff_exists'.mp hne
    subst hp
    have hbits : bit_size = 8 ∨ bit_size = 16 ∨ bit_size = 32 ∨ bit_size = 64 := by
      rcases hs with h | h | ⟨-, h⟩
      · cases h
      · cases h
      · exact h
    refine ⟨e, ?_⟩
    rw [buildCircuit_constructed pf p number_of_simd bit_size dim _ hb,
      makeInputs_refused pf _ number_of_simd bit_size dim hbits e he]
    rfl
  · obtain ⟨e, he⟩ := Option.ne_none_iff_exists'.mp hb
    exact ⟨e, buildCircuit_refused pf p number_of_simd bit_size dim protocol e he⟩

/-- The runs of `buildCircuit`: a vector cannot be constructed, or the combination is not
supported, or the circuit is built, or `dim * dim` does not fit an `int`. -/
theorem buildCircuit_cases (pf : Platform) (p : Party) (number_of_simd bit_size dim : Nat)
    (protocol : MpcProtocol) :
    (∃ e : StorageError, ¬ Constructed pf number_of_simd bit_size protocol ∧
      buildCircuit pf p number_of_simd bit_size dim protocol
        = .raised e.toError (State.init p)) ∨
    (¬ Supported protocol bit_size ∧
      pf.refuses (.temporary_bool bit_size number_of_simd) = none ∧
      buildCircuit pf p number_of_simd bit_size dim protocol
        = .raised (.invalid_argument
            (if protocol = .kArithmeticGmw then "Unknown bit size" else "Invalid MPC protocol"))
            (State.init p)) ∨
    (Supported protocol bit_size ∧ Constructed pf number_of_simd bit_size protocol ∧
      dim * dim ≤ INT_MAX ∧
      buildCircuit pf p number_of_simd bit_size dim protocol
        = .done (accState (inputOf number_of_simd bit_size protocol).1
            (inputOf number_of_simd bit_size protocol).2 p dim dim)) ∨
    (Supported protocol bit_size ∧ Constructed pf number_of_simd bit_size protocol ∧
      INT_MAX < dim * dim ∧
      ∃ c s, (c = .signed_overflow ∨ c = .index_out_of_range) ∧
        buildCircuit pf p number_of_simd bit_size dim protocol
          = .raised (.undefined_behaviour c) s) := by
  by_cases hs : Supported protocol bit_size
  · by_cases hc : Constructed pf number_of_simd bit_size protocol
    · by_cases hd : dim * dim ≤ INT_MAX
      · exact Or.inr (Or.inr (Or.inl ⟨hs, hc, hd,
          buildCircuit_done pf p number_of_simd bit_size dim protocol hs hc hd⟩))
      · exact Or.inr (Or.inr (Or.inr ⟨hs, hc, by omega,
          buildCircuit_undefined pf p number_of_simd bit_size dim protocol hs hc (by omega)⟩))
    · obtain ⟨e, he⟩ :=
        buildCircuit_not_constructed pf p number_of_simd bit_size dim protocol hs hc
      exact Or.inl ⟨e, hc, he⟩
  · by_cases hb : pf.refuses (.temporary_bool bit_size number_of_simd) = none
    · exact Or.inr (Or.inl ⟨hs, hb,
        buildCircuit_unsupported pf p number_of_simd bit_size dim protocol hb hs⟩)
    · obtain ⟨e, he⟩ := Option.ne_none_iff_exists'.mp hb
      exact Or.inl ⟨e, fun h => hb h.1,
        buildCircuit_refused pf p number_of_simd bit_size dim protocol e he⟩

/-! ### `EvaluateProtocol` as a whole -/

theorem EvaluateProtocol_done (pf : Platform) (p : Party) (number_of_simd bit_size dim : Nat)
    (protocol : MpcProtocol) (hs : Supported protocol bit_size)
    (hc : Constructed pf number_of_simd bit_size protocol) (hd : dim * dim ≤ INT_MAX) :
    EvaluateProtocol pf p number_of_simd bit_size dim protocol
      = .done (finalState (inputOf number_of_simd bit_size protocol).1
          (inputOf number_of_simd bit_size protocol).2 p dim) := by
  unfold EvaluateProtocol
  rw [buildCircuit_done pf p number_of_simd bit_size dim protocol hs hc hd]
  simp only [Outcome.andThen, checkV, sq_mod hd]
  have hlen : (accState (inputOf number_of_simd bit_size protocol).1
      (inputOf number_of_simd bit_size protocol).2 p dim dim).v.length = dim * dim := by
    simp only [accState]
    exact length_rows _ dim dim
  simp [hlen, runAndFinish, finalState]

/-- What `EvaluateProtocol` raises is what `buildCircuit` raises. -/
theorem EvaluateProtocol_raised (pf : Platform) (p : Party) (number_of_simd bit_size dim : Nat)
    (protocol : MpcProtocol) (e : Error) (s : State)
    (h : buildCircuit pf p number_of_simd bit_size dim protocol = .raised e s) :
    EvaluateProtocol pf p number_of_simd bit_size dim protocol = .raised e s := by
  unfold EvaluateProtocol
  rw [h]
  rfl

theorem EvaluateProtocol_undefined (pf : Platform) (p : Party)
    (number_of_simd bit_size dim : Nat) (protocol : MpcProtocol)
    (hs : Supported protocol bit_size)
    (hc : Constructed pf number_of_simd bit_size protocol) (hd : INT_MAX < dim * dim) :
    ∃ c s, (c = .signed_overflow ∨ c = .index_out_of_range) ∧
      EvaluateProtocol pf p number_of_simd bit_size dim protocol
        = .raised (.undefined_behaviour c) s := by
  obtain ⟨c, s, hcause, h⟩ :=
    buildCircuit_undefined pf p number_of_simd bit_size dim protocol hs hc hd
  exact ⟨c, s, hcause, EvaluateProtocol_raised pf p number_of_simd bit_size dim protocol _ s h⟩

theorem EvaluateProtocol_unsupported (pf : Platform) (p : Party)
    (number_of_simd bit_size dim : Nat) (protocol : MpcProtocol)
    (hc : pf.refuses (.temporary_bool bit_size number_of_simd) = none)
    (hs : ¬ Supported protocol bit_size) :
    EvaluateProtocol pf p number_of_simd bit_size dim protocol
      = .raised (.invalid_argument
          (if protocol = .kArithmeticGmw then "Unknown bit size" else "Invalid MPC protocol"))
          (State.init p) :=
  EvaluateProtocol_raised pf p number_of_simd bit_size dim protocol _ _
    (buildCircuit_unsupported pf p number_of_simd bit_size dim protocol hc hs)

/-- The runs of `EvaluateProtocol`: a vector cannot be constructed, or the combination is
not supported, or the circuit is built and run, or `dim * dim` does not fit an `int`. -/
theorem EvaluateProtocol_cases (pf : Platform) (p : Party) (number_of_simd bit_size dim : Nat)
    (protocol : MpcProtocol) :
    (∃ e : StorageError, ¬ Constructed pf number_of_simd bit_size protocol ∧
      EvaluateProtocol pf p number_of_simd bit_size dim protocol
        = .raised e.toError (State.init p)) ∨
    (¬ Supported protocol bit_size ∧
      pf.refuses (.temporary_bool bit_size number_of_simd) = none ∧
      EvaluateProtocol pf p number_of_simd bit_size dim protocol
        = .raised (.invalid_argument
            (if protocol = .kArithmeticGmw then "Unknown bit size" else "Invalid MPC protocol"))
            (State.init p)) ∨
    (Supported protocol bit_size ∧ Constructed pf number_of_simd bit_size protocol ∧
      dim * dim ≤ INT_MAX ∧
      EvaluateProtocol pf p number_of_simd bit_size dim protocol
        = .done (finalState (inputOf number_of_simd bit_size protocol).1
            (inputOf number_of_simd bit_size protocol).2 p dim)) ∨
    (Supported protocol bit_size ∧ Constructed pf number_of_simd bit_size protocol ∧
      INT_MAX < dim * dim ∧
      ∃ c s, (c = .signed_overflow ∨ c = .index_out_of_range) ∧
        EvaluateProtocol pf p number_of_simd bit_size dim protocol
          = .raised (.undefined_behaviour c) s) := by
  rcases buildCircuit_cases pf p number_of_simd bit_size dim protocol with
    ⟨e, hc, h⟩ | ⟨hs, hb, h⟩ | ⟨hs, hc, hd, -⟩ | ⟨hs, hc, hd, c, s, hcause, h⟩
  · exact Or.inl ⟨e, hc,
      EvaluateProtocol_raised pf p number_of_simd bit_size dim protocol _ _ h⟩
  · exact Or.inr (Or.inl ⟨hs, hb,
      EvaluateProtocol_raised pf p number_of_simd bit_size dim protocol _ _ h⟩)
  · exact Or.inr (Or.inr (Or.inl ⟨hs, hc, hd,
      EvaluateProtocol_done pf p number_of_simd bit_size dim protocol hs hc hd⟩))
  · exact Or.inr (Or.inr (Or.inr ⟨hs, hc, hd, c, s, hcause,
      EvaluateProtocol_raised pf p number_of_simd bit_size dim protocol _ _ h⟩))

/-- If `EvaluateProtocol` returns, the combination is supported, its vectors were
constructed, `dim * dim` fits an `int` and the final state is the closed form. -/
theorem EvaluateProtocol_done_inv (pf : Platform) (p : Party)
    (number_of_simd bit_size dim : Nat) (protocol : MpcProtocol) (s : State)
    (h : EvaluateProtocol pf p number_of_simd bit_size dim protocol = .done s) :
    Supported protocol bit_size ∧ Constructed pf number_of_simd bit_size protocol ∧
      dim * dim ≤ INT_MAX ∧
      s = finalState (inputOf number_of_simd bit_size protocol).1
          (inputOf number_of_simd bit_size protocol).2 p dim := by
  rcases EvaluateProtocol_cases pf p number_of_simd bit_size dim protocol with
    ⟨e, -, he⟩ | ⟨-, -, he⟩ | ⟨hs, hc, hd, he⟩ | ⟨-, -, -, c, t, -, he⟩
  · rw [he] at h; cases h
  · rw [he] at h; cases h
  · rw [he] at h
    exact ⟨hs, hc, hd, (Outcome.done.inj h).symm⟩
  · rw [he] at h; cases h

theorem buildCircuit_done_inv (pf : Platform) (p : Party) (number_of_simd bit_size dim : Nat)
    (protocol : MpcProtocol) (s : State)
    (h : buildCircuit pf p number_of_simd bit_size dim protocol = .done s) :
    Supported protocol bit_size ∧ Constructed pf number_of_simd bit_size protocol ∧
      dim * dim ≤ INT_MAX ∧
      s = accState (inputOf number_of_simd bit_size protocol).1
          (inputOf number_of_simd bit_size protocol).2 p dim dim := by
  rcases buildCircuit_cases pf p number_of_simd bit_size dim protocol with
    ⟨e, -, he⟩ | ⟨-, -, he⟩ | ⟨hs, hc, hd, he⟩ | ⟨-, -, -, c, t, -, he⟩
  · rw [he] at h; cases h
  · rw [he] at h; cases h
  · rw [he] at h
    exact ⟨hs, hc, hd, (Outcome.done.inj h).symm⟩
  · rw [he] at h; cases h

/-- C2: for every `dim`, 0 included, and every supported combination, a state in which the
accumulation loops have finished has exactly `dim*dim` entries in `v` and passes the check
of line 122, and `EvaluateProtocol` never raises "Vector v size not correct"; the loops do
finish whenever the vectors of the call are constructed and `dim*dim` fits the `int` loop
counter. -/
theorem matmult_v_has_dim_sq_entries (pf : Platform) (p : Party) (number_of_simd bit_size dim : Nat)
    (protocol : MpcProtocol) (hs : Supported protocol bit_size) :
    (Constructed pf number_of_simd bit_size protocol → dim * dim ≤ INT_MAX →
      ∃ s, buildCircuit pf p number_of_simd bit_size dim protocol = .done s) ∧
    (∀ s, buildCircuit pf p number_of_simd bit_size dim protocol = .done s →
      s.v.length = dim * dim ∧ checkV dim s = .done s) ∧
    ∀ s, EvaluateProtocol pf p number_of_simd bit_size dim protocol
      ≠ .raised (.invalid_argument "Vector v size not correct") s := by
  refine ⟨fun hc hd =>
    ⟨_, buildCircuit_done pf p number_of_simd bit_size dim protocol hs hc hd⟩, ?_, ?_⟩
  · intro s h
    obtain ⟨-, -, hd, rfl⟩ :=
      buildCircuit_done_inv pf p number_of_simd bit_size dim protocol s h
    have hlen : (accState (inputOf number_of_simd bit_size protocol).1
        (inputOf number_of_simd bit_size protocol).2 p dim dim).v.length = dim * dim := by
      simp only [accState]
      exact length_rows _ dim dim
    refine ⟨hlen, ?_⟩
    simp only [checkV, sq_mod hd, hlen]
    simp
  · intro s h
    rcases EvaluateProtocol_cases pf p number_of_simd bit_size dim protocol with
      ⟨e, -, he⟩ | ⟨-, -, he⟩ | ⟨-, -, -, he⟩ | ⟨-, -, -, c, t, -, he⟩
    · rw [he] at h
      cases e <;> cases h
    · rw [he] at h
      have h2 := Error.invalid_argument.inj (Outcome.raised.inj h).1
      split at h2 <;> exact absurd h2 (by decide)
    · rw [he] at h
      cases h
    · rw [he] at h
      cases h

/-- Witness for C2 at `dim = 0` and at `dim = 3`. -/
theorem matmult_v_has_dim_sq_entries_witness :
    (∃ s, buildCircuit (Platform.lp64 32) Party.fresh 1 8 0 .kArithmeticGmw = .done s ∧
      s.v.length = 0) ∧
    (∃ s, buildCircuit (Platform.lp64 32) Party.fresh 1 16 3 .kBmr = .done s ∧
      s.v.length = 9) := by
  have h0 := matmult_v_has_dim_sq_entries (Platform.lp64 32) Party.fresh 1 8 0 .kArithmeticGmw
    (by decide)
  have h3 := matmult_v_has_dim_sq_entries (Platform.lp64 32) Party.fresh 1 16 3 .kBmr
    (by decide)
  obtain ⟨s0, hs0⟩ := h0.1 (by decide) (by decide)
  obtain ⟨s3, hs3⟩ := h3.1 (by decide) (by decide)
  exact ⟨⟨s0, hs0, (h0.2.1 s0 hs0).1⟩, ⟨s3, hs3, (h3.2.1 s3 hs3).1⟩⟩

/-- C6, counterexample: with `bit_size = 2^64 - 1` and the protocol `kArithmeticConstant`,
which the `switch` has no case for, the constructor of `temporary_bool` raises
`length_error` before the `switch` is reached: no `invalid_argument` is raised. -/
theorem matmult_length_error_before_switch :
    EvaluateProtocol (Platform.lp64 32) Party.fresh 1 18446744073709551615 1
        .kArithmeticConstant
      = .raised .length_error (State.init Party.fresh) ∧
    (MpcProtocol.kArithmeticConstant ≠ .kBooleanGmw ∧
      MpcProtocol.kArithmeticConstant ≠ .kBmr ∧
      MpcProtocol.kArithmeticConstant ≠ .kArithmeticGmw) ∧
    ¬ ∃ what s, EvaluateProtocol (Platform.lp64 32) Party.fresh 1 18446744073709551615 1
        .kArithmeticConstant = .raised (.invalid_argument what) s := by
  have h : EvaluateProtocol (Platform.lp64 32) Party.fresh 1 18446744073709551615 1
      .kArithmeticConstant = .raised .length_error (State.init Party.fresh) :=
    EvaluateProtocol_raised _ _ _ _ _ _ _ _
      (buildCircuit_refused (Platform.lp64 32) Party.fresh 1 18446744073709551615 1
        .kArithmeticConstant .length_error (by decide))
  refine ⟨h, by decide, ?_⟩
  rintro ⟨what, s, hw⟩
  rw [h] at hw
  cases hw

/-- C6, amended: when `temporary_bool` is constructed, `EvaluateProtocol` raises
`invalid_argument` if and only if the protocol is none of `kBooleanGmw`, `kBmr`,
`kArithmeticGmw`, or it is `kArithmeticGmw` and `bit_size` is not in {8,16,32,64}; when
`temporary_bool` cannot be constructed, the exception of its constructor is raised
instead, whatever the protocol; and whenever `invalid_argument` is raised, the party is as
it was (no gate was created, `Run` was not called) and `v1`, `v2` are empty. -/
theorem matmult_invalid_argument_iff (pf : Platform) (p : Party)
    (number_of_simd bit_size dim : Nat) (protocol : MpcProtocol) :
    (pf.refuses (.temporary_bool bit_size number_of_simd) = none →
      ((∃ what s, EvaluateProtocol pf p number_of_simd bit_size dim protocol
          = .raised (.invalid_argument what) s) ↔
        ((protocol ≠ .kBooleanGmw ∧ protocol ≠ .kBmr ∧ protocol ≠ .kArithmeticGmw) ∨
          (protocol = .kArithmeticGmw ∧
            ¬ (bit_size = 8 ∨ bit_size = 16 ∨ bit_size = 32 ∨ bit_size = 64))))) ∧
    (∀ e, pf.refuses (.temporary_bool bit_size number_of_simd) = some e →
      EvaluateProtocol pf p number_of_simd bit_size dim protocol
        = .raised e.toError (State.init p)) ∧
    ∀ what s, EvaluateProtocol pf p number_of_simd bit_size dim protocol
        = .raised (.invalid_argument what) s →
      s.party = p ∧ s.v1 = [] ∧ s.v2 = [] ∧
        Event.run ∉ s.party.trace.drop p.trace.length := by
  have hiff : ¬ Supported protocol bit_size ↔
      ((protocol ≠ .kBooleanGmw ∧ protocol ≠ .kBmr ∧ protocol ≠ .kArithmeticGmw) ∨
        (protocol = .kArithmeticGmw ∧
          ¬ (bit_size = 8 ∨ bit_size = 16 ∨ bit_size = 32 ∨ bit_size = 64))) := by
    unfold Supported
    cases protocol <;> simp
  have hraise : ∀ what s, EvaluateProtocol pf p number_of_simd bit_size dim protocol
      = .raised (.invalid_argument what) s → ¬ Supported protocol bit_size ∧ s = State.init p := by
    intro what s h
    rcases EvaluateProtocol_cases pf p number_of_simd bit_size dim protocol with
      ⟨e, -, he⟩ | ⟨hs, -, he⟩ | ⟨-, -, -, he⟩ | ⟨-, -, -, c, t, -, he⟩
    · rw [he] at h
      cases e <;> cases h
    · rw [he] at h
      cases h
      exact ⟨hs, rfl⟩
    · rw [he] at h
      cases h
    · rw [he] at h
      cases h
  refine ⟨fun hb => ⟨?_, ?_⟩, ?_, ?_⟩
  · rintro ⟨what, s, h⟩
    exact hiff.mp (hraise what s h).1
  · intro h
    exact ⟨_, _, EvaluateProtocol_unsupported pf p number_of_simd bit_size dim protocol hb
      (hiff.mpr h)⟩
  · intro e he
    exact EvaluateProtocol_raised pf p number_of_simd bit_size dim protocol _ _
      (buildCircuit_refused pf p number_of_simd bit_size dim protocol e he)
  · intro what s h
    obtain ⟨-, rfl⟩ := hraise what s h
    simp [State.init]

/-- Witness for C6: on an implementation that constructs `temporary_bool` of 8 wires,
`kBooleanConstant` raises `invalid_argument`, as does `kArithmeticGmw` with 12 bits, and
`kBmr` does not. -/
theorem matmult_invalid_argument_iff_witness :
    (Platform.lp64 32).refuses (.temporary_bool 8 1) = none ∧
    (∃ what s, EvaluateProtocol (Platform.lp64 32) Party.fresh 1 8 2 .kBooleanConstant
      = .raised (.invalid_argument what) s) ∧
    ¬ ∃ what s, EvaluateProtocol (Platform.lp64 32) Party.fresh 1 8 2 .kBmr
      = .raised (.invalid_argument what) s :=
  ⟨by decide,
    ((matmult_invalid_argument_iff (Platform.lp64 32) Party.fresh 1 8 2 .kBooleanConstant).1
      (by decide)).mpr (by decide),
    fun h => absurd
      (((matmult_invalid_argument_iff (Platform.lp64 32) Party.fresh 1 8 2 .kBmr).1
        (by decide)).mp h) (by decide)⟩

end matmult

/-! ## `Party::In` -/

/-- The overloads for bit vectors and for vectors of unsigned integers, and the scalar
overload for an unsigned type other than `bool`, return only shares made by the input
operation of the protocol `P` they are instantiated with. -/
theorem In_returns_own_protocol (P : MpcProtocol) (party_id : Nat) (p q : Party) (x : Share) :
    (∀ input, Party.In_bits P input party_id p = (.ok x, q) →
      ∃ op g, x = Share.input op g ∧ op.protocol = P) ∧
    (∀ width input, Party.In_Unsigneds P width input party_id p = (.ok x, q) →
      ∃ op g, x = Share.input op g ∧ op.protocol = P) ∧
    (∀ width input, Party.In_Unsigneds_rvalue P width input party_id p = (.ok x, q) →
      ∃ op g, x = Share.input op g ∧ op.protocol = P) ∧
    (∀ width value, Party.In_Scalar P (.unsigned width value) party_id p = (.ok x, q) →
      ∃ op g, x = Share.input op g ∧ op.protocol = P) := by
  refine ⟨?_, ?_, ?_, ?_⟩
  · intro input h
    cases P <;>
      simp [Party.In_bits, thrown, returned, Backend.BooleanGmwInput, Backend.BmrInput,
        Backend.Input] at h
    · exact ⟨.BooleanGmwInput, _, h.1.symm, rfl⟩
    · exact ⟨.BmrInput, _, h.1.symm, rfl⟩
  · intro width input h
    cases P <;>
      simp [Party.In_Unsigneds, thrown, returned, Backend.ArithmeticGmwInput,
        Backend.ConstantArithmeticGmwInput, Backend.Input] at h
    · exact ⟨.ArithmeticGmwInput, _, h.1.symm, rfl⟩
    · exact ⟨.ConstantArithmeticGmwInput, _, h.1.symm, rfl⟩
  · intro width input h
    cases P <;>
      simp [Party.In_Unsigneds_rvalue, thrown, returned, Backend.ArithmeticGmwInput,
        Backend.ConstantArithmeticGmwInput, Backend.Input] at h
    · exact ⟨.ArithmeticGmwInput, _, h.1.symm, rfl⟩
    · exact ⟨.ConstantArithmeticGmwInput, _, h.1.symm, rfl⟩
  · intro width value h
    cases P <;>
      simp [Party.In_Scalar, Party.In_Unsigneds_rvalue, thrown, returned,
        Backend.ArithmeticGmwInput, Backend.ConstantArithmeticGmwInput, Backend.Input] at h
    · exact ⟨.ArithmeticGmwInput, _, h.1.symm, rfl⟩
    · exact ⟨.ConstantArithmeticGmwInput, _, h.1.symm, rfl⟩

/-- C4, at the failing input: the scalar overload with `T = bool`, instantiated with a
protocol other than `kBooleanGmw` and `kBmr`, raises no error and returns the share made by
`BmrInput`, a share of another protocol. -/
theorem In_Scalar_bool_returns_Bmr_share :
    Party.In_Scalar .kArithmeticGmw (.bool true) 0 Party.fresh
      = (.ok (Share.input .BmrInput 0),
          { trace := [Event.input .BmrInput (some 0) (.bit true)], finished := false }) ∧
    Party.In_Scalar .kArithmeticConstant (.bool true) 0 Party.fresh
      = (.ok (Share.input .BmrInput 0),
          { trace := [Event.input .BmrInput (some 0) (.bit true)], finished := false }) ∧
    Party.In_Scalar (.other 100) (.bool false) 0 Party.fresh
      = (.ok (Share.input .BmrInput 0),
          { trace := [Event.input .BmrInput (some 0) (.bit false)], finished := false }) ∧
    InputOperation.BmrInput.protocol ≠ MpcProtocol.kArithmeticGmw ∧
    InputOperation.BmrInput.protocol ≠ MpcProtocol.kArithmeticConstant ∧
    InputOperation.BmrInput.protocol ≠ MpcProtocol.other 100 := by
  refine ⟨?_, ?_, ?_, ?_, ?_, ?_⟩ <;> decide

/-- C5: each of the two overloads of `Party::In` for a vector of unsigned integers raises a
runtime error exactly when `P` is neither `kArithmeticGmw` nor `kArithmeticConstant`
(so for `kBooleanGmw` and `kBmr`); an error leaves the party as it was, no input operation
having been called; for `kArithmeticGmw` the result is that of
`ArithmeticGmwInput(party_id, input)` and for `kArithmeticConstant` that of
`ConstantArithmeticGmwInput(input)`. -/
theorem In_Unsigneds_runtime_error_iff (P : MpcProtocol) (width : Nat) (input : List Nat)
    (party_id : Nat) (p : Party) :
    (((∃ what q, Party.In_Unsigneds P width input party_id p = (.error (.runtime_error what), q))
        ↔ (P ≠ .kArithmeticGmw ∧ P ≠ .kArithmeticConstant)) ∧
      (∀ e q, Party.In_Unsigneds P width input party_id p = (.error e, q) →
        q = p ∧ ∃ what, e = .runtime_error what) ∧
      Party.In_Unsigneds .kArithmeticGmw width input party_id p
        = returned (Backend.ArithmeticGmwInput party_id (.unsigneds width input) p) ∧
      Party.In_Unsigneds .kArithmeticConstant width input party_id p
        = returned (Backend.ConstantArithmeticGmwInput (.unsigneds width input) p)) ∧
    (((∃ what q,
          Party.In_Unsigneds_rvalue P width input party_id p = (.error (.runtime_error what), q))
        ↔ (P ≠ .kArithmeticGmw ∧ P ≠ .kArithmeticConstant)) ∧
      (∀ e q, Party.In_Unsigneds_rvalue P width input party_id p = (.error e, q) →
        q = p ∧ ∃ what, e = .runtime_error what) ∧
      Party.In_Unsigneds_rvalue .kArithmeticGmw width input party_id p
        = returned (Backend.ArithmeticGmwInput party_id (.unsigneds width input) p) ∧
      Party.In_Unsigneds_rvalue .kArithmeticConstant width input party_id p
        = returned (Backend.ConstantArithmeticGmwInput (.unsigneds width input) p)) ∧
    (returned (Backend.ArithmeticGmwInput party_id (.unsigneds width input) p)).2.trace
      = p.trace ++ [Event.input .ArithmeticGmwInput (some party_id) (.unsigneds width input)] ∧
    (returned (Backend.ConstantArithmeticGmwInput (.unsigneds width input) p)).2.trace
      = p.trace ++ [Event.input .ConstantArithmeticGmwInput none (.unsigneds width input)] := by
  refine ⟨⟨?_, ?_, rfl, rfl⟩, ⟨?_, ?_, rfl, rfl⟩, rfl, rfl⟩
  · cases P <;> simp [Party.In_Unsigneds, thrown, returned]
  · intro e q h
    cases P <;> simp [Party.In_Unsigneds, thrown, returned] at h <;>
      exact ⟨h.2.symm, _, h.1.symm⟩
  · cases P <;> simp [Party.In_Unsigneds_rvalue, thrown, returned]
  · intro e q h
    cases P <;> simp [Party.In_Unsigneds_rvalue, thrown, returned] at h <;>
      exact ⟨h.2.symm, _, h.1.symm⟩

/-! ## The regular expression matcher -/

namespace mytest

theorem le_digitsTop (hi : Option Nat) (m n : Nat) :
    n ≤ digitsTop hi m ↔ n ≤ m ∧ ∀ h, hi = some h → n ≤ h := by
  cases hi with
  | none => simp [digitsTop]
  | some h => simp [digitsTop]

theorem mem_digitsRun (lo : Nat) (hi : Option Nat) (cs rest : List Char) :
    rest ∈ digitsRun lo hi cs ↔
      ∃ w, cs = w ++ rest ∧ (∀ c ∈ w, c.isDigit = true) ∧ lo ≤ w.length ∧
        (∀ h, hi = some h → w.length ≤ h) := by
  simp only [digitsRun, List.mem_map, List.mem_range]
  constructor
  · rintro ⟨t, ht, rfl⟩
    obtain ⟨hnm, hhi⟩ := (le_digitsTop hi (cs.takeWhile Char.isDigit).length
      (digitsTop hi (cs.takeWhile Char.isDigit).length - t)).mp (Nat.sub_le _ _)
    have hlo : lo ≤ digitsTop hi (cs.takeWhile Char.isDigit).length - t := by omega
    generalize digitsTop hi (cs.takeWhile Char.isDigit).length - t = n at hnm hhi hlo ⊢
    have hlen : n ≤ cs.length := by
      have := (List.takeWhile_prefix (l := cs) Char.isDigit).length_le
      omega
    refine ⟨cs.take n, (List.take_append_drop n cs).symm, ?_, ?_, ?_⟩
    · intro c hc
      have hpre : cs.take n <+: cs.takeWhile Char.isDigit := by
        have h1 : cs.takeWhile Char.isDigit = cs.take (cs.takeWhile Char.isDigit).length :=
          List.prefix_iff_eq_take.mp (List.takeWhile_prefix Char.isDigit)
        rw [h1]
        exact List.take_prefix_take_left cs hnm
      exact List.mem_takeWhile_imp (hpre.subset hc)
    · rw [List.length_take]; omega
    · intro h hh
      rw [List.length_take]
      have := hhi h hh
      omega
  · rintro ⟨w, rfl, hw, hlo, hhi⟩
    have hm : w.length ≤ ((w ++ rest).takeWhile Char.isDigit).length := by
      rw [List.takeWhile_append_of_pos hw]
      simp
    have htop : w.length ≤ digitsTop hi ((w ++ rest).takeWhile Char.isDigit).length :=
      (le_digitsTop hi _ _).mpr ⟨hm, hhi⟩
    refine ⟨digitsTop hi ((w ++ rest).takeWhile Char.isDigit).length - w.length, by omega, ?_⟩
    rw [Nat.sub_sub_self htop]
    simp

theorem mem_run_iff (r : Regex) :
    ∀ (cs rest : List Char) (caps : List (List Char)),
      (rest, caps) ∈ r.run cs ↔ ∃ w, cs = w ++ rest ∧ r.Matches w caps := by
  induction r with
  | digits lo hi =>
    intro cs rest caps
    simp only [Regex.run, List.mem_map, Prod.mk.injEq, Regex.Matches]
    constructor
    · rintro ⟨x, hx, rfl, rfl⟩
      obtain ⟨w, h1, h2, h3, h4⟩ := (mem_digitsRun lo hi cs x).mp hx
      exact ⟨w, h1, h2, h3, h4, rfl⟩
    · rintro ⟨w, h1, h2, h3, h4, rfl⟩
      exact ⟨rest, (mem_digitsRun lo hi cs rest).mpr ⟨w, h1, h2, h3, h4⟩, rfl, rfl⟩
  | char c =>
    intro cs rest caps
    cases cs with
    | nil => simp [Regex.run, Regex.Matches]
    | cons x xs =>
      by_cases hx : x = c
      · subst hx
        simp only [Regex.run, if_true, List.mem_singleton, Prod.mk.injEq, Regex.Matches]
        constructor
        · rintro ⟨rfl, rfl⟩
          exact ⟨[x], rfl, rfl, rfl⟩
        · rintro ⟨w, h, rfl, rfl⟩
          simp only [List.singleton_append, List.cons.injEq, true_and] at h
          exact ⟨h.symm, rfl⟩
      · simp only [Regex.run, if_neg hx, List.not_mem_nil, Regex.Matches, false_iff]
        rintro ⟨w, h, rfl, rfl⟩
        simp only [List.singleton_append, List.cons.injEq] at h
        exact hx h.1
  | seq r1 r2 ih1 ih2 =>
    intro cs rest caps
    simp only [Regex.run, List.mem_flatMap, List.mem_map, Prod.mk.injEq, Regex.Matches]
    constructor
    · rintro ⟨⟨rest1, c1⟩, ha, ⟨rest2, c2⟩, hb, rfl, rfl⟩
      obtain ⟨w1, rfl, hm1⟩ := (ih1 cs rest1 c1).mp ha
      obtain ⟨w2, h2, hm2⟩ := (ih2 rest1 rest2 c2).mp hb
      subst h2
      exact ⟨w1 ++ w2, by simp, w1, w2, c1, c2, rfl, rfl, hm1, hm2⟩
    · rintro ⟨w, rfl, w1, w2, c1, c2, rfl, rfl, hm1, hm2⟩
      refine ⟨(w2 ++ rest, c1), (ih1 _ _ _).mpr ⟨w1, by simp, hm1⟩, (rest, c2),
        (ih2 _ _ _).mpr ⟨w2, rfl, hm2⟩, rfl, rfl⟩
  | group r ih =>
    intro cs rest caps
    simp only [Regex.run, List.mem_map, Prod.mk.injEq, Regex.Matches]
    constructor
    · rintro ⟨⟨rest1, c1⟩, ha, rfl, rfl⟩
      obtain ⟨w, rfl, hm⟩ := (ih cs rest1 c1).mp ha
      exact ⟨w, rfl, c1, by simp, hm⟩
    · rintro ⟨w, rfl, c, rfl, hm⟩
      exact ⟨(rest, c), (ih _ _ _).mpr ⟨w, rfl, hm⟩, rfl, by simp⟩

theorem regex_match_some (s : String) (r : Regex) (caps : List (List Char))
    (h : regex_match s r = some caps) : r.Matches s.toList caps := by
  simp only [regex_match, Option.map_eq_some'] at h
  obtain ⟨⟨rest, c⟩, hfind, rfl⟩ := h
  have hmem := List.mem_of_find?_eq_some hfind
  have hp := List.find?_some hfind
  simp only [List.isEmpty_eq_true] at hp
  subst hp
  obtain ⟨w, hw, hm⟩ := (mem_run_iff r s.toList [] c).mp hmem
  simp only [List.append_nil] at hw
  rw [hw]
  exact hm

theorem regex_match_isSome (s : String) (r : Regex) :
    (regex_match s r).isSome = true ↔ ∃ caps, r.Matches s.toList caps := by
  constructor
  · intro h
    obtain ⟨caps, hc⟩ := Option.isSome_iff_exists.mp h
    exact ⟨caps, regex_match_some s r caps hc⟩
  · rintro ⟨caps, hm⟩
    have hmem : (([] : List Char), caps) ∈ r.run s.toList :=
      (mem_run_iff r s.toList [] caps).mpr ⟨s.toList, by simp, hm⟩
    simp only [regex_match, Option.isSome_map', List.find?_isSome]
    exact ⟨([], caps), hmem, by simp⟩

/-- What a match of `kPartyArgumentRegex` is: the text is `ID,A.B.C.D,PORT` and the groups
are `ID`, `A.B.C.D` and `PORT`. -/
theorem matches_kPartyArgumentRegex (cs : List Char) (caps : List (List Char)) :
    kPartyArgumentRegex.Matches cs caps ↔
      ∃ id a b c d port : List Char,
        1 ≤ id.length ∧ (∀ ch ∈ id, ch.isDigit = true) ∧
        IsDigits 1 3 a ∧ IsDigits 1 3 b ∧ IsDigits 1 3 c ∧ IsDigits 1 3 d ∧
        IsDigits 1 5 port ∧
        cs = partyArgument id a b c d port ∧ caps = [id, hostText a b c d, port] := by
  simp only [kPartyArgumentRegex, Regex.Matches, Option.some.injEq, forall_eq', false_implies,
    implies_true, true_and, and_true, IsDigits]
  constructor
  · rintro ⟨id, _, _, _, rfl, rfl, ⟨_, rfl, hid1, hid2, -, rfl⟩,
      _, _, _, _, rfl, rfl, ⟨rfl, rfl⟩,
      _, _, _, _, rfl, rfl,
      ⟨_, rfl, a, _, _, _, rfl, rfl, ⟨ha1, ha2, ha3, rfl⟩,
        _, _, _, _, rfl, rfl, ⟨rfl, rfl⟩,
        b, _, _, _, rfl, rfl, ⟨hb1, hb2, hb3, rfl⟩,
        _, _, _, _, rfl, rfl, ⟨rfl, rfl⟩,
        c, _, _, _, rfl, rfl, ⟨hc1, hc2, hc3, rfl⟩,
        _, d, _, _, rfl, rfl, ⟨rfl, rfl⟩, hd1, hd2, hd3, rfl⟩,
      _, port, _, _, rfl, rfl, ⟨rfl, rfl⟩, _, rfl, hp1, hp2, hp3, rfl⟩
    refine ⟨id, a, b, c, d, port, hid2, hid1, ⟨ha1, ha2, ha3⟩, ⟨hb1, hb2, hb3⟩, ⟨hc1, hc2, hc3⟩,
      ⟨hd1, hd2, hd3⟩, ⟨hp1, hp2, hp3⟩, ?_, ?_⟩
    · simp [partyArgument, hostText]
    · simp [hostText]
  · rintro ⟨id, a, b, c, d, port, hid2, hid1, ⟨ha1, ha2, ha3⟩, ⟨hb1, hb2, hb3⟩, ⟨hc1, hc2, hc3⟩,
      ⟨hd1, hd2, hd3⟩, ⟨hp1, hp2, hp3⟩, rfl, rfl⟩
    exact ⟨id, _, [id], _, rfl, rfl, ⟨[], rfl, hid1, hid2, by simp, rfl⟩,
      [','], _, [], _, rfl, rfl, ⟨rfl, rfl⟩,
      hostText a b c d, _, [hostText a b c d], _, rfl, rfl,
      ⟨[], rfl, a, _, [], [], rfl, rfl, ⟨ha1, ha2, ha3, rfl⟩,
        ['.'], _, [], [], rfl, rfl, ⟨rfl, rfl⟩,
        b, _, [], [], rfl, rfl, ⟨hb1, hb2, hb3, rfl⟩,
        ['.'], _, [], [], rfl, rfl, ⟨rfl, rfl⟩,
        c, _, [], [], rfl, rfl, ⟨hc1, hc2, hc3, rfl⟩,
        ['.'], d, [], [], rfl, rfl, ⟨rfl, rfl⟩, hd1, hd2, hd3, rfl⟩,
      [','], port, [], [port], rfl, rfl, ⟨rfl, rfl⟩, [], rfl, hp1, hp2, hp3, rfl⟩

theorem digits_split_unique :
    ∀ (w1 w2 r1 r2 : List Char) (x y : Char),
      (∀ c ∈ w1, c.isDigit = true) → (∀ c ∈ w2, c.isDigit = true) →
      x.isDigit = false → y.isDigit = false →
      w1 ++ x :: r1 = w2 ++ y :: r2 → w1 = w2 ∧ r1 = r2 := by
  intro w1
  induction w1 with
  | nil =>
    intro w2 r1 r2 x y _ h2 hx _ h
    cases w2 with
    | nil =>
      simp only [List.nil_append, List.cons.injEq] at h
      exact ⟨rfl, h.2⟩
    | cons z w2 =>
      simp only [List.nil_append, List.cons_append, List.cons.injEq] at h
      have := h2 z (List.mem_cons_self z w2)
      rw [← h.1, hx] at this
      cases this
  | cons a w1 ih =>
    intro w2 r1 r2 x y h1 h2 hx hy h
    cases w2 with
    | nil =>
      simp only [List.nil_append, List.cons_append, List.cons.injEq] at h
      have := h1 a (List.mem_cons_self a w1)
      rw [h.1, hy] at this
      cases this
    | cons z w2 =>
      simp only [List.cons_append, List.cons.injEq] at h
      obtain ⟨e1, e2⟩ := ih w2 r1 r2 x y (fun c hc => h1 c (List.mem_cons_of_mem a hc))
        (fun c hc => h2 c (List.mem_cons_of_mem z hc)) hx hy h.2
      exact ⟨by rw [h.1, e1], e2⟩

theorem partyArgument_unique (id a b c d port id' a' b' c' d' port' : List Char)
    (hid : ∀ ch ∈ id, ch.isDigit = true) (ha : IsDigits 1 3 a) (hb : IsDigits 1 3 b)
    (hc : IsDigits 1 3 c) (hd : IsDigits 1 3 d)
    (hid' : ∀ ch ∈ id', ch.isDigit = true) (ha' : IsDigits 1 3 a') (hb' : IsDigits 1 3 b')
    (hc' : IsDigits 1 3 c') (hd' : IsDigits 1 3 d')
    (h : partyArgument id a b c d port = partyArgument id' a' b' c' d' port') :
    id = id' ∧ hostText a b c d = hostText a' b' c' d' ∧ port = port' := by
  have hcomma : ','.isDigit = false := by decide
  have hdot : '.'.isDigit = false := by decide
  simp only [partyArgument, hostText, List.append_assoc, List.cons_append] at h
  obtain ⟨e1, h1⟩ := digits_split_unique _ _ _ _ _ _ hid hid' hcomma hcomma h
  obtain ⟨e2, h2⟩ := digits_split_unique _ _ _ _ _ _ ha.1 ha'.1 hdot hdot h1
  obtain ⟨e3, h3⟩ := digits_split_unique _ _ _ _ _ _ hb.1 hb'.1 hdot hdot h2
  obtain ⟨e4, h4⟩ := digits_split_unique _ _ _ _ _ _ hc.1 hc'.1 hdot hdot h3
  obtain ⟨e5, h5⟩ := digits_split_unique _ _ _ _ _ _ hd.1 hd'.1 hcomma hcomma h4
  rw [e1, e2, e3, e4, e5, h5]
  exact ⟨rfl, rfl, rfl⟩

/-- On a text of the form `ID,A.B.C.D,PORT` the match succeeds and the groups are the
fields. -/
theorem regex_match_partyArgument (s : String) (id a b c d port : List Char)
    (hid1 : 1 ≤ id.length) (hid : ∀ ch ∈ id, ch.isDigit = true)
    (ha : IsDigits 1 3 a) (hb : IsDigits 1 3 b) (hc : IsDigits 1 3 c) (hd : IsDigits 1 3 d)
    (hp : IsDigits 1 5 port) (hs : s.toList = partyArgument id a b c d port) :
    regex_match s kPartyArgumentRegex = some [id, hostText a b c d, port] := by
  have hsome : (regex_match s kPartyArgumentRegex).isSome = true :=
    (regex_match_isSome s kPartyArgumentRegex).mpr
      ⟨_, (matches_kPartyArgumentRegex _ _).mpr
        ⟨id, a, b, c, d, port, hid1, hid, ha, hb, hc, hd, hp, hs, rfl⟩⟩
  obtain ⟨caps, hcaps⟩ := Option.isSome_iff_exists.mp hsome
  obtain ⟨id', a', b', c', d', port', -, hid', ha', hb', hc', hd', -, hs', rfl⟩ :=
    (matches_kPartyArgumentRegex _ _).mp (regex_match_some s _ caps hcaps)
  rw [hs] at hs'
  obtain ⟨e1, e2, e3⟩ := partyArgument_unique id a b c d port id' a' b' c' d' port'
    hid ha hb hc hd hid' ha' hb' hc' hd' hs'
  rw [hcaps, e1, e2, e3]

theorem CheckPartyArgumentSyntax_iff (s : String) :
    CheckPartyArgumentSyntax s = true ↔ HasPartyArgumentForm s := by
  unfold CheckPartyArgumentSyntax HasPartyArgumentForm
  rw [regex_match_isSome]
  constructor
  · rintro ⟨caps, h⟩
    obtain ⟨id, a, b, c, d, port, h1, h2, h3, h4, h5, h6, h7, h8, -⟩ :=
      (matches_kPartyArgumentRegex _ _).mp h
    exact ⟨id, a, b, c, d, port, h1, h2, h3, h4, h5, h6, h7, h8⟩
  · rintro ⟨id, a, b, c, d, port, h1, h2, h3, h4, h5, h6, h7, h8⟩
    exact ⟨_, (matches_kPartyArgumentRegex _ _).mpr
      ⟨id, a, b, c, d, port, h1, h2, h3, h4, h5, h6, h7, h8, rfl⟩⟩

theorem lexical_cast_digits (width : Nat) (w : List Char) (hne : 1 ≤ w.length)
    (hw : ∀ ch ∈ w, ch.isDigit = true) :
    lexical_cast width w
      = if decimalValue w < 2 ^ width then .ok (decimalValue w) else .error .bad_lexical_cast := by
  cases w with
  | nil => simp at hne
  | cons x xs =>
    have hx : x.isDigit = true := hw x (List.mem_cons_self x xs)
    have hminus : x ≠ '-' := by
      rintro rfl
      exact absurd hx (by decide)
    have hplus : x ≠ '+' := by
      rintro rfl
      exact absurd hx (by decide)
    have hall : (x :: xs).all Char.isDigit = true := by
      rw [List.all_eq_true]
      exact hw
    simp only [lexical_cast, List.head?_cons, Option.some.injEq, hminus, hplus, or_self,
      if_false, hall, ne_eq, reduceCtorEq, not_false_eq_true, true_and]

/-! ### The claims about the party arguments -/

/-- C8: `CheckPartyArgumentSyntax(s)` is true exactly when all of `s` has the form
`ID,A.B.C.D,PORT` (`ID` one or more digits, `A`..`D` one to three digits, `PORT` one to
five digits); the documented example is accepted, and a missing field, an empty field,
extra whitespace and a host name are rejected. -/
theorem CheckPartyArgumentSyntax_accepts_the_form :
    (∀ s : String, CheckPartyArgumentSyntax s = true ↔ HasPartyArgumentForm s) ∧
    CheckPartyArgumentSyntax "1,127.0.0.1,7777" = true ∧
    CheckPartyArgumentSyntax "1,127.0.0.1" = false ∧
    CheckPartyArgumentSyntax "127.0.0.1,7777" = false ∧
    CheckPartyArgumentSyntax "1,,7777" = false ∧
    CheckPartyArgumentSyntax "1,127.0..1,7777" = false ∧
    CheckPartyArgumentSyntax " 1,127.0.0.1,7777" = false ∧
    CheckPartyArgumentSyntax "1, 127.0.0.1,7777" = false ∧
    CheckPartyArgumentSyntax "1,127.0.0.1,7777 " = false ∧
    CheckPartyArgumentSyntax "1,localhost,7777" = false := by
  refine ⟨CheckPartyArgumentSyntax_iff, ?_, ?_, ?_, ?_, ?_, ?_, ?_, ?_, ?_⟩ <;> decide

/-- C9, counterexample: a port field of five digits above 65535 passes the syntax check
and makes `ParsePartyArgument` raise `bad_lexical_cast`; so does an id field that does not
fit a `size_t`. -/
theorem ParsePartyArgument_rejects_accepted :
    CheckPartyArgumentSyntax "1,127.0.0.1,99999" = true ∧
    ParsePartyArgument "1,127.0.0.1,99999" = .error .bad_lexical_cast ∧
    CheckPartyArgumentSyntax "18446744073709551616,127.0.0.1,7777" = true ∧
    ParsePartyArgument "18446744073709551616,127.0.0.1,7777" = .error .bad_lexical_cast := by
  refine ⟨?_, ?_, ?_, ?_⟩ <;> decide

/-- C9, amended: a string accepted by `CheckPartyArgumentSyntax` has fields
`ID,A.B.C.D,PORT`; if the decimal value of `ID` is below `2^64` and that of `PORT` below
`2^16`, `ParsePartyArgument` returns the value of `ID`, the text `A.B.C.D` unchanged and
the value of `PORT`; otherwise it raises `bad_lexical_cast`. -/
theorem ParsePartyArgument_of_accepted (s : String) (h : CheckPartyArgumentSyntax s = true) :
    ∃ id a b c d port : List Char,
      s.toList = partyArgument id a b c d port ∧
      1 ≤ id.length ∧ (∀ ch ∈ id, ch.isDigit = true) ∧
      IsDigits 1 3 a ∧ IsDigits 1 3 b ∧ IsDigits 1 3 c ∧ IsDigits 1 3 d ∧ IsDigits 1 5 port ∧
      ParsePartyArgument s
        = if decimalValue id < 2 ^ 64 ∧ decimalValue port < 2 ^ 16 then
            .ok (decimalValue id, String.mk (hostText a b c d), decimalValue port)
          else .error .bad_lexical_cast := by
  obtain ⟨id, a, b, c, d, port, hid1, hid, ha, hb, hc, hd, hp, hs⟩ :=
    (CheckPartyArgumentSyntax_iff s).mp h
  refine ⟨id, a, b, c, d, port, hs, hid1, hid, ha, hb, hc, hd, hp, ?_⟩
  have hm := regex_match_partyArgument s id a b c d port hid1 hid ha hb hc hd hp hs
  simp only [ParsePartyArgument, hm, sub_match, List.getD_cons_zero, Nat.sub_self,
    lexical_cast_digits 64 id hid1 hid]
  have h3 : [id, hostText a b c d, port].getD (3 - 1) [] = port := rfl
  have h2 : [id, hostText a b c d, port].getD (2 - 1) [] = hostText a b c d := rfl
  rw [h3, h2, lexical_cast_digits 16 port hp.2.1 hp.1]
  by_cases h64 : decimalValue id < 2 ^ 64
  · by_cases h16 : decimalValue port < 2 ^ 16
    · rw [if_pos h64, if_pos h16, if_pos ⟨h64, h16⟩]
    · have hn : ¬ (decimalValue id < 2 ^ 64 ∧ decimalValue port < 2 ^ 16) := fun h => h16 h.2
      rw [if_pos h64, if_neg h16, if_neg hn]
  · have hn : ¬ (decimalValue id < 2 ^ 64 ∧ decimalValue port < 2 ^ 16) := fun h => h64 h.1
    rw [if_neg h64, if_neg hn]

/-- Witness for the amended C9: the documented example. -/
theorem ParsePartyArgument_of_accepted_witness :
    CheckPartyArgumentSyntax "1,127.0.0.1,7777" = true ∧
    (∃ id a b c d port : List Char,
      "1,127.0.0.1,7777".toList = partyArgument id a b c d port ∧
      1 ≤ id.length ∧ (∀ ch ∈ id, ch.isDigit = true) ∧
      IsDigits 1 3 a ∧ IsDigits 1 3 b ∧ IsDigits 1 3 c ∧ IsDigits 1 3 d ∧ IsDigits 1 5 port ∧
      ParsePartyArgument "1,127.0.0.1,7777"
        = if decimalValue id < 2 ^ 64 ∧ decimalValue port < 2 ^ 16 then
            .ok (decimalValue id, String.mk (hostText a b c d), decimalValue port)
          else .error .bad_lexical_cast) ∧
    ParsePartyArgument "1,127.0.0.1,7777" = .ok (1, "127.0.0.1", 7777) :=
  ⟨by decide, ParsePartyArgument_of_accepted "1,127.0.0.1,7777" (by decide), by decide⟩

/-! ### `CreateParty` -/

theorem find_other_parties (m : VariablesMap) (ps : List String)
    (h : m.other_parties = some ps) : m.as_strings "other-parties" = .ok ps := by
  simp [VariablesMap.as_strings, VariablesMap.find, h]

theorem find_my_id (m : VariablesMap) (n : Nat) (h : m.my_id = some n) :
    m.as_size_t "my-id" = .ok n := by
  simp [VariablesMap.as_size_t, VariablesMap.find, h]

/-- The loop of `CreateParty` never touches `connections`, and keeps the number of slots. -/
theorem fillConfiguration_connections (n : Nat) :
    ∀ (entries : List String) (s : Creation),
      (∀ s', fillConfiguration n entries s = .done s' →
        s'.connections = s.connections ∧
          s'.parties_configuration.length = s.parties_configuration.length) ∧
      (∀ e s', fillConfiguration n entries s = .raised e s' →
        s'.connections = s.connections) := by
  intro entries
  induction entries with
  | nil =>
    intro s
    simp [fillConfiguration]
  | cons x rest ih =>
    intro s
    simp only [fillConfiguration]
    cases hx : ParsePartyArgument x with
    | error e =>
      simp only
      refine ⟨(fun s' h => by cases h), fun e' s' h => ?_⟩
      cases h
      rfl
    | ok r =>
      obtain ⟨party_id, host, port⟩ := r
      simp only
      by_cases hge : party_id ≥ n
      · simp only [hge, if_true]
        refine ⟨(fun s' h => by cases h), fun e' s' h => ?_⟩
        cases h
        rfl
      · simp only [hge, if_false]
        by_cases hlt : party_id < s.parties_configuration.length
        · simp only [hlt, if_true]
          obtain ⟨h1, h2⟩ := ih
            { s with parties_configuration := s.parties_configuration.set party_id (host, port) }
          refine ⟨fun s' h => ?_, fun e' s' h => ?_⟩
          · have := h1 s' h
            simpa using this
          · have := h2 e' s' h
            simpa using this
        · simp only [hlt, if_false]
          refine ⟨(fun s' h => by cases h), fun e' s' h => ?_⟩
          cases h
          rfl

/-- With `n` slots and entries that all parse, the loop raises a runtime error if an entry
carries an id that is not below `n`, and completes otherwise. -/
theorem fillConfiguration_cases (n : Nat) :
    ∀ (entries : List String) (s : Creation), s.parties_configuration.length = n →
      (∀ e ∈ entries, ∃ r, ParsePartyArgument e = .ok r) →
      ((∃ e ∈ entries, ∃ r, ParsePartyArgument e = .ok r ∧ n ≤ r.1) ∧
        ∃ what s', fillConfiguration n entries s = .raised (.runtime_error what) s') ∨
      ((∀ e ∈ entries, ∀ r, ParsePartyArgument e = .ok r → r.1 < n) ∧
        ∃ s', fillConfiguration n entries s = .done s') := by
  intro entries
  induction entries with
  | nil =>
    intro s _ _
    exact Or.inr ⟨by simp, s, rfl⟩
  | cons x rest ih =>
    intro s hlen hparse
    obtain ⟨r, hr⟩ := hparse x (List.mem_cons_self x rest)
    obtain ⟨party_id, host, port⟩ := r
    by_cases hge : party_id ≥ n
    · left
      refine ⟨⟨x, List.mem_cons_self x rest, _, hr, hge⟩, ?_⟩
      simp only [fillConfiguration, hr, hge, if_true]
      exact ⟨_, _, rfl⟩
    · have hlt : party_id < s.parties_configuration.length := by omega
      have hstep : fillConfiguration n (x :: rest) s = fillConfiguration n rest
          { s with parties_configuration := s.parties_configuration.set party_id (host, port) } := by
        simp only [fillConfiguration, hr, hge, if_false, hlt, if_true]
      rw [hstep]
      rcases ih { s with
          parties_configuration := s.parties_configuration.set party_id (host, port) }
        (by simpa using hlen) (fun e he => hparse e (List.mem_cons_of_mem x he)) with
        ⟨⟨e, he, r', hr', hn⟩, hraise⟩ | ⟨hall, hdone⟩
      · exact Or.inl ⟨⟨e, List.mem_cons_of_mem x he, r', hr', hn⟩, hraise⟩
      · refine Or.inr ⟨?_, hdone⟩
        intro e he r' hr'
        rcases List.mem_cons.mp he with rfl | he'
        · rw [hr] at hr'
          cases hr'
          omega
        · exact hall e he' r' hr'

/-- C7: when `my-id` and `other-parties` are set and every entry parses, `CreateParty`
raises a runtime error if and only if `my-id >= n` or some entry carries an id `>= n`,
`n` being the number of entries; whenever it raises a runtime error, no connection has
been set up; and when `online-after-setup` has a value, as it always has after
`ParseProgramOptions`, these runtime errors are its only failures. -/
theorem CreateParty_runtime_error_iff (user_options : VariablesMap) (my_id : Nat)
    (parties : List String) (hid : user_options.my_id = some my_id)
    (hp : user_options.other_parties = some parties)
    (hparse : ∀ e ∈ parties, ∃ r, ParsePartyArgument e = .ok r) :
    ((∃ what s, CreateParty user_options = .raised (.runtime_error what) s) ↔
      (parties.length ≤ my_id ∨
        ∃ e ∈ parties, ∃ r, ParsePartyArgument e = .ok r ∧ parties.length ≤ r.1)) ∧
    (∀ what s, CreateParty user_options = .raised (.runtime_error what) s →
      s.connections = none) ∧
    ∀ b, user_options.online_after_setup = some b →
      ∀ e s, CreateParty user_options = .raised e s →
        s.connections = none ∧ ∃ what, e = .runtime_error what := by
  have hs := find_other_parties user_options parties hp
  have hm := find_my_id user_options my_id hid
  by_cases hge : my_id ≥ parties.length
  · -- the check of `my-id` fails
    have hrun : ∃ what, CreateParty user_options
        = .raised (.runtime_error what)
            { parties_configuration := [], connections := none, logging := none,
              online_after_setup := none } := by
      simp only [CreateParty, hs, hm, hge, if_true]
      exact ⟨_, rfl⟩
    obtain ⟨what, hwhat⟩ := hrun
    refine ⟨⟨fun _ => Or.inl hge, fun _ => ⟨what, _, hwhat⟩⟩, ?_, ?_⟩
    · intro what' s h
      rw [hwhat] at h
      cases h
      rfl
    · intro b _ e s h
      rw [hwhat] at h
      cases h
      exact ⟨rfl, what, rfl⟩
  · have hrun : CreateParty user_options
        = (fillConfiguration parties.length parties
            { parties_configuration := List.replicate parties.length ("", 0),
              connections := none, logging := none, online_after_setup := none }).andThen
          fun s =>
            match user_options.as_bool "online-after-setup" with
            | .error e => .raised e
                { s with connections := some (my_id, s.parties_configuration),
                         logging := some (decide (user_options.count "disable-logging" = 0)) }
            | .ok b => .done
                { s with connections := some (my_id, s.parties_configuration),
                         logging := some (decide (user_options.count "disable-logging" = 0)),
                         online_after_setup := some b } := by
      simp only [CreateParty, hs, hm, hge, if_false]
    obtain ⟨hconn_done, hconn_raised⟩ := fillConfiguration_connections parties.length parties
      { parties_configuration := List.replicate parties.length ("", 0),
        connections := none, logging := none, online_after_setup := none }
    rcases fillConfiguration_cases parties.length parties
      { parties_configuration := List.replicate parties.length ("", 0),
        connections := none, logging := none, online_after_setup := none }
      (by simp) hparse with ⟨hex, what, s', hraise⟩ | ⟨hall, s', hdone⟩
    · -- an entry carries an id that is too large
      have hcp : CreateParty user_options = .raised (.runtime_error what) s' := by
        rw [hrun, hraise]
        rfl
      refine ⟨⟨fun _ => Or.inr hex, fun _ => ⟨what, s', hcp⟩⟩, ?_, ?_⟩
      · intro what' s h
        rw [hcp] at h
        cases h
        exact hconn_raised _ _ hraise
      · intro b _ e s h
        rw [hcp] at h
        cases h
        exact ⟨hconn_raised _ _ hraise, what, rfl⟩
    · -- every id is in range: no runtime error
      have hno : ∀ what s, CreateParty user_options ≠ .raised (.runtime_error what) s := by
        intro what s h
        rw [hrun, hdone] at h
        simp only [Outcome.andThen] at h
        cases hb : user_options.as_bool "online-after-setup" with
        | error e =>
          rw [hb] at h
          simp only [Outcome.raised.injEq] at h
          have he : e = .bad_any_cast := by
            simp only [VariablesMap.as_bool] at hb
            split at hb
            · cases hb
            · cases hb
              rfl
          rw [he] at h
          cases h.1
        | ok b =>
          rw [hb] at h
          cases h
      refine ⟨⟨fun ⟨what, s, h⟩ => absurd h (hno what s), ?_⟩,
        (fun what s h => absurd h (hno what s)), ?_⟩
      · rintro (h | ⟨e, he, r, hr, hn⟩)
        · omega
        · have := hall e he r hr
          omega
      · intro b hb e s h
        have hbool : user_options.as_bool "online-after-setup" = .ok b := by
          simp [VariablesMap.as_bool, VariablesMap.find, hb]
        rw [hrun, hdone] at h
        simp only [Outcome.andThen, hbool] at h
        cases h

/-- Witness for C7: two entries and `my-id = 2`; and two entries one of which carries the
id 5. -/
theorem CreateParty_runtime_error_iff_witness :
    (∃ what s, CreateParty
        { VariablesMap.empty with
          my_id := some 2,
          other_parties := some ["0,127.0.0.1,7777", "1,127.0.0.1,7778"],
          online_after_setup := some true }
        = .raised (.runtime_error what) s ∧ s.connections = none) ∧
    (∃ what s, CreateParty
        { VariablesMap.empty with
          my_id := some 0,
          other_parties := some ["0,127.0.0.1,7777", "5,127.0.0.1,7778"],
          online_after_setup := some true }
        = .raised (.runtime_error what) s ∧ s.connections = none) := by
  have h1 := CreateParty_runtime_error_iff
    { VariablesMap.empty with
      my_id := some 2,
      other_parties := some ["0,127.0.0.1,7777", "1,127.0.0.1,7778"],
      online_after_setup := some true }
    2 ["0,127.0.0.1,7777", "1,127.0.0.1,7778"] rfl rfl
    (by
      intro e he
      simp only [List.mem_cons, List.mem_singleton, List.not_mem_nil, or_false] at he
      rcases he with rfl | rfl
      · exact ⟨(0, "127.0.0.1", 7777), by decide⟩
      · exact ⟨(1, "127.0.0.1", 7778), by decide⟩)
  have h2 := CreateParty_runtime_error_iff
    { VariablesMap.empty with
      my_id := some 0,
      other_parties := some ["0,127.0.0.1,7777", "5,127.0.0.1,7778"],
      online_after_setup := some true }
    0 ["0,127.0.0.1,7777", "5,127.0.0.1,7778"] rfl rfl
    (by
      intro e he
      simp only [List.mem_cons, List.mem_singleton, List.not_mem_nil, or_false] at he
      rcases he with rfl | rfl
      · exact ⟨(0, "127.0.0.1", 7777), by decide⟩
      · exact ⟨(5, "127.0.0.1", 7778), by decide⟩)
  refine ⟨?_, ?_⟩
  · obtain ⟨what, s, h⟩ := h1.1.mpr (Or.inl (by decide))
    exact ⟨what, s, h, h1.2.1 what s h⟩
  · obtain ⟨what, s, h⟩ := h2.1.mpr
      (Or.inr ⟨"5,127.0.0.1,7778", by simp, (5, "127.0.0.1", 7778), by decide, by decide⟩)
    exact ⟨what, s, h, h2.2.1 what s h⟩

/-! ### `ParseProgramOptions` -/

theorem checkParties_cases (ps : List String) :
    ((∀ e ∈ ps, CheckPartyArgumentSyntax e = true) ∧ checkParties ps = .ok ()) ∨
    ((∃ e ∈ ps, CheckPartyArgumentSyntax e = false) ∧
      ∃ what, checkParties ps = .error (.runtime_error what)) := by
  induction ps with
  | nil => exact Or.inl ⟨by simp, rfl⟩
  | cons x rest ih =>
    cases hx : CheckPartyArgumentSyntax x with
    | false =>
      refine Or.inr ⟨⟨x, List.mem_cons_self x rest, hx⟩, ?_⟩
      simp only [checkParties, hx]
      exact ⟨_, rfl⟩
    | true =>
      have hstep : checkParties (x :: rest) = checkParties rest := by
        simp only [checkParties, hx, if_true]
      rw [hstep]
      rcases ih with ⟨hall, hok⟩ | ⟨⟨e, he, hf⟩, hraise⟩
      · refine Or.inl ⟨?_, hok⟩
        intro e he
        rcases List.mem_cons.mp he with rfl | he'
        · exact hx
        · exact hall e he'
      · exact Or.inr ⟨⟨e, List.mem_cons_of_mem x he, hf⟩, hraise⟩

theorem readConfigurationFile_ok (config_file : String → VariablesMap → VariablesMap)
    (parsed : VariablesMap) : ∃ m, readConfigurationFile config_file parsed = .ok m := by
  unfold readConfigurationFile
  cases h : parsed.configuration_file with
  | none => simp [VariablesMap.count, VariablesMap.find, h]
  | some name => simp [VariablesMap.count, VariablesMap.find, VariablesMap.as_string, h]

/-- What `ParseProgramOptions` does once the help switch is known to be off and the
configuration file has been read. -/
theorem ParseProgramOptions_eq (config_file : String → VariablesMap → VariablesMap)
    (parsed m : VariablesMap) (hhelp : parsed.switch "help" = false)
    (hm : readConfigurationFile config_file parsed = .ok m) :
    ParseProgramOptions config_file parsed
      = match m.my_id with
        | none => .error (.runtime_error "My id is not set but required")
        | some _ =>
          match m.other_parties with
          | none =>
            .error (.runtime_error "Other parties' information is not set but required")
          | some ps =>
            match checkParties ps with
            | .error e => .error e
            | .ok _ =>
              if m.switch "print-configuration" then .error .bad_any_cast
              else .ok (m, m.switch "help") := by
  simp only [ParseProgramOptions, hhelp, hm]
  cases hid : m.my_id with
  | none => simp [VariablesMap.count, VariablesMap.find, hid]
  | some id =>
    cases hps : m.other_parties with
    | none =>
      by_cases hprint : m.switch "print-configuration" = true <;>
        simp [VariablesMap.count, VariablesMap.find, VariablesMap.as_size_t, hid, hps, hprint]
    | some ps =>
      cases hc : checkParties ps with
      | error e =>
        by_cases hprint : m.switch "print-configuration" = true <;>
          simp [VariablesMap.count, VariablesMap.find, VariablesMap.as_size_t,
            VariablesMap.as_strings, hid, hps, hprint, hc]
      | ok u =>
        by_cases hprint : m.switch "print-configuration" = true <;>
          simp [VariablesMap.count, VariablesMap.find, VariablesMap.as_size_t,
            VariablesMap.as_strings, hid, hps, hprint, hc]

/-- C10: with the help switch off, `ParseProgramOptions` raises a runtime error if, once
the configuration file is read, `my-id` is absent, `other-parties` is absent, or an entry
of `other-parties` is rejected by `CheckPartyArgumentSyntax`; so a map returned with
`help = false` has `my-id` and has `other-parties` with only accepted entries.  With the
help switch on it returns the empty map and `true`, whatever else is set. -/
theorem ParseProgramOptions_validates (config_file : String → VariablesMap → VariablesMap)
    (parsed : VariablesMap) :
    (parsed.switch "help" = false →
      ∃ m, readConfigurationFile config_file parsed = .ok m ∧
        (m.my_id = none →
          ∃ what, ParseProgramOptions config_file parsed = .error (.runtime_error what)) ∧
        (m.other_parties = none →
          ∃ what, ParseProgramOptions config_file parsed = .error (.runtime_error what)) ∧
        (∀ ps, m.other_parties = some ps → (∃ e ∈ ps, CheckPartyArgumentSyntax e = false) →
          ∃ what, ParseProgramOptions config_file parsed = .error (.runtime_error what))) ∧
    (∀ m, ParseProgramOptions config_file parsed = .ok (m, false) →
      (∃ id, m.my_id = some id) ∧
        ∃ ps, m.other_parties = some ps ∧ ∀ e ∈ ps, CheckPartyArgumentSyntax e = true) ∧
    (parsed.switch "help" = true →
      ParseProgramOptions config_file parsed = .ok (VariablesMap.empty, true)) := by
  refine ⟨?_, ?_, ?_⟩
  · intro hhelp
    obtain ⟨m, hm⟩ := readConfigurationFile_ok config_file parsed
    have heq := ParseProgramOptions_eq config_file parsed m hhelp hm
    refine ⟨m, hm, ?_, ?_, ?_⟩
    · intro hid
      rw [heq, hid]
      exact ⟨_, rfl⟩
    · intro hps
      rw [heq, hps]
      cases m.my_id <;> exact ⟨_, rfl⟩
    · intro ps hps ⟨e, he, hf⟩
      rw [heq, hps]
      cases m.my_id with
      | none => exact ⟨_, rfl⟩
      | some id =>
        rcases checkParties_cases ps with ⟨hall, -⟩ | ⟨-, what, hraise⟩
        · rw [hall e he] at hf
          cases hf
        · simp only [hraise]
          exact ⟨what, rfl⟩
  · intro m h
    cases hhelp : parsed.switch "help" with
    | true =>
      simp [ParseProgramOptions, hhelp] at h
    | false =>
      obtain ⟨m', hm'⟩ := readConfigurationFile_ok config_file parsed
      rw [ParseProgramOptions_eq config_file parsed m' hhelp hm'] at h
      cases hid : m'.my_id with
      | none =>
        rw [hid] at h
        cases h
      | some id =>
        cases hps : m'.other_parties with
        | none =>
          rw [hid, hps] at h
          cases h
        | some ps =>
          rw [hid, hps] at h
          rcases checkParties_cases ps with ⟨hall, hok⟩ | ⟨-, what, hraise⟩
          · simp only [hok] at h
            by_cases hprint : m'.switch "print-configuration" = true
            · rw [if_pos hprint] at h
              cases h
            · rw [if_neg hprint] at h
              simp only [Except.ok.injEq, Prod.mk.injEq] at h
              obtain ⟨rfl, -⟩ := h
              exact ⟨⟨id, hid⟩, ps, hps, hall⟩
          · simp only [hraise] at h
            cases h
  · intro hhelp
    simp [ParseProgramOptions, hhelp]

/-- Witness for C10: a command line that is accepted, one without `my-id`, one with a
malformed entry, and one with the help switch. -/
theorem ParseProgramOptions_validates_witness :
    ParseProgramOptions (fun _ m => m)
        { VariablesMap.empty with
          help := some false, print_configuration := some false, my_id := some 0,
          other_parties := some ["0,127.0.0.1,7777", "1,127.0.0.1,7778"],
          online_after_setup := some true, repetitions := some 1 }
      = .ok ({ VariablesMap.empty with
          help := some false, print_configuration := some false, my_id := some 0,
          other_parties := some ["0,127.0.0.1,7777", "1,127.0.0.1,7778"],
          online_after_setup := some true, repetitions := some 1 }, false) ∧
    (∃ what, ParseProgramOptions (fun _ m => m)
        { VariablesMap.empty with
          help := some false, print_configuration := some false,
          other_parties := some ["0,127.0.0.1,7777"],
          online_after_setup := some true, repetitions := some 1 }
      = .error (.runtime_error what)) ∧
    (∃ what, ParseProgramOptions (fun _ m => m)
        { VariablesMap.empty with
          help := some false, print_configuration := some false, my_id := some 0,
          other_parties := some ["0,localhost,7777"],
          online_after_setup := some true, repetitions := some 1 }
      = .error (.runtime_error what)) ∧
    ParseProgramOptions (fun _ m => m)
        { VariablesMap.empty with
          help := some true, print_configuration := some false,
          online_after_setup := some true, repetitions := some 1 }
      = .ok (VariablesMap.empty, true) := by
  refine ⟨by decide, ?_, ?_, ?_⟩
  · obtain ⟨m, hm, h1, -, -⟩ := (ParseProgramOptions_validates (fun _ m => m)
      { VariablesMap.empty with
        help := some false, print_configuration := some false,
        other_parties := some ["0,127.0.0.1,7777"],
        online_after_setup := some true, repetitions := some 1 }).1 (by decide)
    have hm' : m = { VariablesMap.empty with
        help := some false, print_configuration := some false,
        other_parties := some ["0,127.0.0.1,7777"],
        online_after_setup := some true, repetitions := some 1 } := by
      have : readConfigurationFile (fun _ m => m)
          { VariablesMap.empty with
            help := some false, print_configuration := some false,
            other_parties := some ["0,127.0.0.1,7777"],
            online_after_setup := some true, repetitions := some 1 }
          = .ok { VariablesMap.empty with
            help := some false, print_configuration := some false,
            other_parties := some ["0,127.0.0.1,7777"],
            online_after_setup := some true, repetitions := some 1 } := by decide
      rw [this] at hm
      cases hm
      rfl
    exact h1 (by rw [hm']; rfl)
  · exact ⟨"Incorrect party argument syntax 0,localhost,7777", by decide⟩
  · exact (ParseProgramOptions_validates (fun _ m => m)
      { VariablesMap.empty with
        help := some true, print_configuration := some false,
        online_after_setup := some true, repetitions := some 1 }).2.2 (by decide)

end mytest

end Motion

namespace Motion

namespace matmult

/-! ### What the party is asked to do -/

theorem countP_flatMap_const {α β : Type} (q : β → Bool) (f : α → List β) (c : Nat) :
    ∀ l : List α, (∀ x ∈ l, (f x).countP q = c) → (l.flatMap f).countP q = l.length * c := by
  intro l
  induction l with
  | nil => intro _; simp
  | cons x xs ih =>
    intro h
    rw [List.flatMap_cons, List.countP_append, h x (List.mem_cons_self x xs),
      ih (fun y hy => h y (List.mem_cons_of_mem x hy)), List.length_cons]
    ring

theorem length_flatMap_const {α β : Type} (f : α → List β) (c : Nat) :
    ∀ l : List α, (∀ x ∈ l, (f x).length = c) → (l.flatMap f).length = l.length * c := by
  intro l
  induction l with
  | nil => intro _; simp
  | cons x xs ih =>
    intro h
    rw [List.flatMap_cons, List.length_append, h x (List.mem_cons_self x xs),
      ih (fun y hy => h y (List.mem_cons_of_mem x hy)), List.length_cons]
    ring

theorem countP_map_const {α β : Type} (q : β → Bool) (f : α → β) (b : Bool)
    (h : ∀ x, q (f x) = b) (l : List α) :
    (l.map f).countP q = if b then l.length else 0 := by
  induction l with
  | nil => cases b <;> simp
  | cons x xs ih =>
    rw [List.map_cons, List.countP_cons, ih, h x]
    cases b <;> simp

theorem cellEvents_counts (op : InputOperation) (g0 dim i j : Nat) :
    (cellEvents op g0 dim i j).countP Event.isInput = 0 ∧
    (cellEvents op g0 dim i j).countP Event.isMul = dim ∧
    (cellEvents op g0 dim i j).countP Event.isAdd = dim - 1 ∧
    (cellEvents op g0 dim i j).length = dim + (dim - 1) := by
  unfold cellEvents
  refine ⟨?_, ?_, ?_, ?_⟩
  · rw [List.countP_append,
      countP_map_const Event.isInput
        (fun k => Event.mul (in1 op g0 (i * dim + k)) (in2 op g0 (k * dim + j))) false
        (fun _ => rfl),
      countP_map_const Event.isInput
        (fun m => Event.add (accShare (prodShare op g0 dim i j) (dim - 1) m)
          (prodShare op g0 dim i j (dim - 1 - 1 - m))) false (fun _ => rfl)]
    simp
  · rw [List.countP_append,
      countP_map_const Event.isMul
        (fun k => Event.mul (in1 op g0 (i * dim + k)) (in2 op g0 (k * dim + j))) true
        (fun _ => rfl),
      countP_map_const Event.isMul
        (fun m => Event.add (accShare (prodShare op g0 dim i j) (dim - 1) m)
          (prodShare op g0 dim i j (dim - 1 - 1 - m))) false (fun _ => rfl)]
    simp
  · rw [List.countP_append,
      countP_map_const Event.isAdd
        (fun k => Event.mul (in1 op g0 (i * dim + k)) (in2 op g0 (k * dim + j))) false
        (fun _ => rfl),
      countP_map_const Event.isAdd
        (fun m => Event.add (accShare (prodShare op g0 dim i j) (dim - 1) m)
          (prodShare op g0 dim i j (dim - 1 - 1 - m))) true (fun _ => rfl)]
    simp
  · simp

theorem builtEvents_counts (op : InputOperation) (value : InputValue) (g0 dim : Nat) :
    (builtEvents op value g0 dim).countP Event.isInput = 2 * (dim * dim) ∧
    (builtEvents op value g0 dim).countP Event.isMul = dim * dim * dim ∧
    (builtEvents op value g0 dim).countP Event.isAdd = dim * dim * (dim - 1) ∧
    (builtEvents op value g0 dim).length
      = 2 * (dim * dim) + dim * dim * dim + dim * dim * (dim - 1) := by
  have hrows : ∀ (q : Event → Bool) (c : Nat),
      (∀ i j, (cellEvents op g0 dim i j).countP q = c) →
      ((List.range dim).flatMap (fun i =>
        (List.range dim).flatMap (fun j => cellEvents op g0 dim i j))).countP q
        = dim * (dim * c) := by
    intro q c h
    rw [countP_flatMap_const q _ (dim * c) _ (fun i _ => by
      rw [countP_flatMap_const q _ c _ (fun j _ => h i j), List.length_range]),
      List.length_range]
  have hlen : ((List.range dim).flatMap (fun i =>
        (List.range dim).flatMap (fun j => cellEvents op g0 dim i j))).length
        = dim * (dim * (dim + (dim - 1))) := by
    rw [length_flatMap_const _ (dim * (dim + (dim - 1))) _ (fun i _ => by
      rw [length_flatMap_const _ (dim + (dim - 1)) _
        (fun j _ => (cellEvents_counts op g0 dim i j).2.2.2), List.length_range]),
      List.length_range]
  unfold builtEvents
  refine ⟨?_, ?_, ?_, ?_⟩
  · rw [List.countP_append, hrows _ 0 (fun i j => (cellEvents_counts op g0 dim i j).1),
      List.countP_replicate]
    simp [Event.isInput]
  · rw [List.countP_append, hrows _ dim (fun i j => (cellEvents_counts op g0 dim i j).2.1),
      List.countP_replicate]
    simp [Event.isMul]
    ring
  · rw [List.countP_append, hrows _ (dim - 1)
      (fun i j => (cellEvents_counts op g0 dim i j).2.2.1), List.countP_replicate]
    simp [Event.isAdd]
    ring
  · rw [List.length_append, hlen, List.length_replicate]
    ring

theorem accState_trace (op : InputOperation) (value : InputValue) (p : Party) (dim : Nat) :
    (accState op value p dim dim).party.trace
      = p.trace ++ builtEvents op value p.trace.length dim := by
  simp [accState, builtEvents]

theorem finalState_trace (op : InputOperation) (value : InputValue) (p : Party) (dim : Nat) :
    (finalState op value p dim).party.trace
      = p.trace ++ builtEvents op value p.trace.length dim
          ++ Event.run :: (if p.finished then [] else [Event.finish]) := by
  have hfin : (accState op value p dim dim).party.finished = p.finished := by simp [accState]
  simp only [finalState, Party.Run, Party.Finish, hfin, accState_trace]
  cases p.finished <;> simp

theorem builtEvents_inputs (op : InputOperation) (value : InputValue) (g0 dim : Nat) :
    ∀ e ∈ builtEvents op value g0 dim, e.isInput = true → e = Event.input op (some 0) value := by
  intro e he hin
  simp only [builtEvents, List.mem_append, List.mem_replicate, List.mem_flatMap, List.mem_range,
    cellEvents, List.mem_map] at he
  rcases he with ⟨-, rfl⟩ | ⟨i, -, j, -, ⟨k, -, rfl⟩ | ⟨m, -, rfl⟩⟩
  · rfl
  · cases hin
  · cases hin

/-- C18, counterexample: with `dim = 2^32`, for which `dim*dim` is 0 modulo `2^64`, the
input loop makes no round, so that no gate at all is built, and the first product reads the
empty `v1`: the run ends there, without `Run`.  With `bit_size = 2^64 - 1` and Boolean GMW
the vector `temporary_bool` cannot be constructed, and again no gate is built. -/
theorem matmult_builds_nothing :
    (EvaluateProtocol (Platform.lp64 32) Party.fresh 1 8 4294967296 .kBooleanGmw
      = .raised (.undefined_behaviour .index_out_of_range) (State.init Party.fresh) ∧
    EvaluateProtocol (Platform.lp64 32) Party.fresh 1 18446744073709551615 2 .kBooleanGmw
      = .raised .length_error (State.init Party.fresh)) ∧
    (State.init Party.fresh).party.trace = [] ∧
    2 * 4294967296 ^ 2 ≠ (State.init Party.fresh).party.trace.countP Event.isInput := by
  refine ⟨⟨?_, ?_⟩, rfl, by decide⟩
  · exact EvaluateProtocol_raised _ _ _ _ _ _ _ _
      (buildCircuit_wrapped (Platform.lp64 32) Party.fresh 1 8 4294967296 .kBooleanGmw
        (by decide) (by decide) (by decide) (by decide))
  · exact EvaluateProtocol_raised _ _ _ _ _ _ _ _
      (buildCircuit_refused (Platform.lp64 32) Party.fresh 1 18446744073709551615 2
        .kBooleanGmw .length_error (by decide))

/-- C18, amended: for every `dim` whose `dim*dim` fits the `int` loop counter (1 and above,
and 0 as well) and every supported combination, when the vectors of the call are
constructed `EvaluateProtocol` returns, and what it has asked of the party when it returns
is, after what the party had recorded before: exactly `2*dim^2` input gates, all with owner
0 (`dim^2` in `v1` and `dim^2` in `v2`), exactly `dim^3` multiplications and exactly
`dim^2*(dim-1)` additions, nothing else, and only then `Run` (and `Finish`).  The counts are
those of every run that returns. -/
theorem matmult_gate_counts (pf : Platform) (p : Party) (number_of_simd bit_size dim : Nat)
    (protocol : MpcProtocol) (hs : Supported protocol bit_size) :
    (Constructed pf number_of_simd bit_size protocol → dim * dim ≤ INT_MAX →
      ∃ s, EvaluateProtocol pf p number_of_simd bit_size dim protocol = .done s) ∧
    ∀ s, EvaluateProtocol pf p number_of_simd bit_size dim protocol = .done s →
      ∃ built : List Event,
        s.party.trace
          = p.trace ++ built ++ Event.run :: (if p.finished then [] else [Event.finish]) ∧
        built.countP Event.isInput = 2 * dim ^ 2 ∧
        (∀ e ∈ built, e.isInput = true → ∃ op value, e = Event.input op (some 0) value) ∧
        s.v1.length = dim ^ 2 ∧ s.v2.length = dim ^ 2 ∧
        built.countP Event.isMul = dim ^ 3 ∧
        built.countP Event.isAdd = dim ^ 2 * (dim - 1) ∧
        built.length = 2 * dim ^ 2 + dim ^ 3 + dim ^ 2 * (dim - 1) ∧
        Event.run ∉ built ∧ Event.finish ∉ built := by
  refine ⟨fun hc hd =>
    ⟨_, EvaluateProtocol_done pf p number_of_simd bit_size dim protocol hs hc hd⟩, ?_⟩
  intro s h
  obtain ⟨-, -, -, rfl⟩ :=
    EvaluateProtocol_done_inv pf p number_of_simd bit_size dim protocol s h
  obtain ⟨c1, c2, c3, c4⟩ := builtEvents_counts (inputOf number_of_simd bit_size protocol).1
    (inputOf number_of_simd bit_size protocol).2 p.trace.length dim
  have e2 : dim ^ 2 = dim * dim := by ring
  have e3 : dim ^ 3 = dim * dim * dim := by ring
  have hnot : ∀ e ∈ builtEvents (inputOf number_of_simd bit_size protocol).1
      (inputOf number_of_simd bit_size protocol).2 p.trace.length dim,
      e ≠ Event.run ∧ e ≠ Event.finish := by
    intro e he
    simp only [builtEvents, List.mem_append, List.mem_replicate, List.mem_flatMap,
      List.mem_range, cellEvents, List.mem_map] at he
    rcases he with ⟨-, rfl⟩ | ⟨i, -, j, -, ⟨k, -, rfl⟩ | ⟨m, -, rfl⟩⟩ <;>
      exact ⟨by simp, by simp⟩
  refine ⟨_, finalState_trace _ _ p dim, ?_, ?_, ?_, ?_, ?_, ?_, ?_, ?_, ?_⟩
  · rw [c1, e2]
  · intro e he hin
    exact ⟨_, _, builtEvents_inputs _ _ _ _ e he hin⟩
  · simp [finalState, accState, e2]
  · simp [finalState, accState, e2]
  · rw [c2, e3]
  · rw [c3, e2]
  · rw [c4, e2, e3]
  · exact fun hmem => (hnot _ hmem).1 rfl
  · exact fun hmem => (hnot _ hmem).2 rfl

/-- Witness for C18: `dim = 2` with 8-bit arithmetic GMW on a fresh party gives 8 input
gates, 8 multiplications, 4 additions, then `Run` and `Finish`: 22 events. -/
theorem matmult_gate_counts_witness :
    ∃ s, EvaluateProtocol (Platform.lp64 32) Party.fresh 1 8 2 .kArithmeticGmw = .done s ∧
      s.party.trace.countP Event.isInput = 8 ∧ s.party.trace.countP Event.isMul = 8 ∧
      s.party.trace.countP Event.isAdd = 4 ∧ s.party.trace.length = 22 := by
  obtain ⟨s, hs⟩ := (matmult_gate_counts (Platform.lp64 32) Party.fresh 1 8 2 .kArithmeticGmw
    (by decide)).1 (by decide) (by decide)
  refine ⟨s, hs, ?_⟩
  obtain ⟨-, -, -, rfl⟩ := EvaluateProtocol_done_inv _ _ _ _ _ _ s hs
  decide

end matmult

end Motion

namespace Motion

namespace matmult

/-! ### The temporary vector -/

end matmult

end Motion

namespace Motion

namespace mytest

/-! ### The slots of the parties configuration -/

theorem writeAll_length (rs : List (Nat × String × Nat)) :
    ∀ cfg, (writeAll cfg rs).length = cfg.length := by
  induction rs with
  | nil => intro cfg; rfl
  | cons r rest ih =>
    intro cfg
    simp only [writeAll, List.foldl_cons] at ih ⊢
    rw [ih, List.length_set]

/-- A slot that no entry carries keeps what it held. -/
theorem writeAll_untouched (k : Nat) (rs : List (Nat × String × Nat)) :
    ∀ cfg, (∀ r ∈ rs, r.1 ≠ k) → (writeAll cfg rs)[k]? = cfg[k]? := by
  induction rs with
  | nil => intro cfg _; rfl
  | cons r rest ih =>
    intro cfg h
    simp only [writeAll, List.foldl_cons] at ih ⊢
    rw [ih _ (fun r' hr' => h r' (List.mem_cons_of_mem r hr')),
      List.getElem?_set_ne (h r (List.mem_cons_self r rest))]

/-- A slot holds what the last entry that carries its id gave. -/
theorem writeAll_last (r : Nat × String × Nat) (post : List (Nat × String × Nat))
    (hpost : ∀ r' ∈ post, r'.1 ≠ r.1) (pre : List (Nat × String × Nat)) :
    ∀ cfg, r.1 < cfg.length → (writeAll cfg (pre ++ r :: post))[r.1]? = some (r.2.1, r.2.2) := by
  induction pre with
  | nil =>
    intro cfg hlt
    have h := writeAll_untouched r.1 post (cfg.set r.1 (r.2.1, r.2.2)) hpost
    simp only [writeAll, List.nil_append, List.foldl_cons] at h ⊢
    rw [h, List.getElem?_set_self hlt]
  | cons x pre ih =>
    intro cfg hlt
    have h := ih (cfg.set x.1 (x.2.1, x.2.2)) (by rw [List.length_set]; exact hlt)
    simpa only [writeAll, List.cons_append, List.foldl_cons] using h

/-- With entries that parse to `rs` with ids below `n`, the loop of `CreateParty` completes
and has written the entries in order. -/
theorem fillConfiguration_done (n : Nat) :
    ∀ (parties : List String) (rs : List (Nat × String × Nat)) (s : Creation),
      parties.map ParsePartyArgument = rs.map Except.ok → (∀ r ∈ rs, r.1 < n) →
      s.parties_configuration.length = n →
      fillConfiguration n parties s
        = .done { s with parties_configuration := writeAll s.parties_configuration rs } := by
  intro parties
  induction parties with
  | nil =>
    intro rs s hparse _ _
    cases rs with
    | nil => rfl
    | cons r rest => simp at hparse
  | cons x rest ih =>
    intro rs s hparse hrange hlen
    cases rs with
    | nil => simp at hparse
    | cons r rs' =>
      simp only [List.map_cons, List.cons.injEq] at hparse
      obtain ⟨hx, hrest⟩ := hparse
      obtain ⟨party_id, host, port⟩ := r
      have hlt : party_id < n := hrange _ (List.mem_cons_self _ rs')
      have hge : ¬ party_id ≥ n := by omega
      have hlt' : party_id < s.parties_configuration.length := by omega
      simp only [fillConfiguration, hx, hge, if_false, hlt', if_true]
      rw [ih rs' _ hrest (fun r hr => hrange r (List.mem_cons_of_mem _ hr))
        (by simpa using hlen)]
      rfl

/-- `n` numbers below `n` without repetition are all the numbers below `n`. -/
theorem mem_of_nodup_of_length (ids : List Nat) (hlt : ∀ k ∈ ids, k < ids.length)
    (hnd : ids.Nodup) : ∀ k, k < ids.length → k ∈ ids := by
  intro k hk
  have hsub : ids.toFinset ⊆ Finset.range ids.length := by
    intro x hx
    exact Finset.mem_range.mpr (hlt x (List.mem_toFinset.mp hx))
  have hcard : (Finset.range ids.length).card ≤ ids.toFinset.card := by
    rw [List.toFinset_card_of_nodup hnd, Finset.card_range]
  have heq := Finset.eq_of_subset_of_card_le hsub hcard
  have : k ∈ ids.toFinset := by
    rw [heq]
    exact Finset.mem_range.mpr hk
  exact List.mem_toFinset.mp this

/-- `n` numbers below `n` with a repetition leave out a number below `n`. -/
theorem exists_not_mem_of_not_nodup (ids : List Nat) (hnd : ¬ ids.Nodup) :
    ∃ k, k < ids.length ∧ k ∉ ids := by
  by_contra hcon
  push_neg at hcon
  have hsub : Finset.range ids.length ⊆ ids.toFinset := by
    intro x hx
    exact List.mem_toFinset.mpr (hcon x (Finset.mem_range.mp hx))
  have h1 : ids.length ≤ ids.toFinset.card := by
    have := Finset.card_le_card hsub
    rwa [Finset.card_range] at this
  have h2 : ids.toFinset.card = ids.length := le_antisymm (List.toFinset_card_le ids) h1
  have h3 : Multiset.card (ids : Multiset Nat) = ids.length := rfl
  exact hnd (Multiset.coe_nodup.mp
    (Multiset.toFinset_card_eq_card_iff_nodup.mp (by rw [h3]; exact h2)))

/-- C19: when `my-id` is in range and the `n` entries parse to `rs` with ids below `n`,
`CreateParty` raises no error and the configuration it hands to the connection setup has
`n` slots, where a slot holds what the last entry carrying its id gave (a later entry
overwrites an earlier one) and a slot whose id no entry carries keeps the default
`("", 0)`.  If the ids are pairwise distinct, every slot is carried by exactly one entry
and holds its (host, port); if two entries carry the same id, some slot keeps the
default. -/
theorem CreateParty_fills_configuration (user_options : VariablesMap) (my_id : Nat)
    (parties : List String) (rs : List (Nat × String × Nat)) (b : Bool)
    (hid : user_options.my_id = some my_id)
    (hp : user_options.other_parties = some parties)
    (hb : user_options.online_after_setup = some b)
    (hparse : parties.map ParsePartyArgument = rs.map Except.ok)
    (hmy : my_id < parties.length) (hrange : ∀ r ∈ rs, r.1 < parties.length) :
    ∃ s, CreateParty user_options = .done s ∧
      s.parties_configuration.length = parties.length ∧
      s.connections = some (my_id, s.parties_configuration) ∧
      (∀ pre r post, rs = pre ++ r :: post → (∀ r' ∈ post, r'.1 ≠ r.1) →
        s.parties_configuration[r.1]? = some (r.2.1, r.2.2)) ∧
      (∀ k, k < parties.length → (∀ r ∈ rs, r.1 ≠ k) →
        s.parties_configuration[k]? = some ("", 0)) ∧
      ((rs.map (fun r => r.1)).Nodup →
        ∀ k, k < parties.length →
          ∃ r ∈ rs, r.1 = k ∧ (∀ r' ∈ rs, r'.1 = k → r' = r) ∧
            s.parties_configuration[k]? = some (r.2.1, r.2.2)) ∧
      (¬ (rs.map (fun r => r.1)).Nodup →
        ∃ k, k < parties.length ∧ (∀ r ∈ rs, r.1 ≠ k) ∧
          s.parties_configuration[k]? = some ("", 0)) := by
  have hs := find_other_parties user_options parties hp
  have hm := find_my_id user_options my_id hid
  have hbool : user_options.as_bool "online-after-setup" = .ok b := by
    simp [VariablesMap.as_bool, VariablesMap.find, hb]
  have hge : ¬ my_id ≥ parties.length := by omega
  have hlen : rs.length = parties.length := by
    have := congrArg List.length hparse
    simpa using this.symm
  have hfill := fillConfiguration_done parties.length parties rs
    { parties_configuration := List.replicate parties.length ("", 0),
      connections := none, logging := none, online_after_setup := none }
    hparse hrange (by simp)
  have hrun : CreateParty user_options
      = .done
          { parties_configuration := writeAll (List.replicate parties.length ("", 0)) rs,
            connections := some (my_id, writeAll (List.replicate parties.length ("", 0)) rs),
            logging := some (decide (user_options.count "disable-logging" = 0)),
            online_after_setup := some b } := by
    simp only [CreateParty, hs, hm, hge, if_false, hfill, Outcome.andThen, hbool]
  have hlast : ∀ pre r post, rs = pre ++ r :: post → (∀ r' ∈ post, r'.1 ≠ r.1) →
      (writeAll (List.replicate parties.length ("", 0)) rs)[r.1]? = some (r.2.1, r.2.2) := by
    intro pre r post hrs hpost
    subst hrs
    exact writeAll_last r post hpost pre _
      (by rw [List.length_replicate]; exact hrange r (by simp))
  have hdefault : ∀ k, k < parties.length → (∀ r ∈ rs, r.1 ≠ k) →
      (writeAll (List.replicate parties.length ("", 0)) rs)[k]? = some ("", 0) := by
    intro k hk hno
    rw [writeAll_untouched k rs _ hno]
    simp [hk]
  refine ⟨_, hrun, ?_, rfl, hlast, hdefault, ?_, ?_⟩
  · rw [writeAll_length, List.length_replicate]
  · intro hnd k hk
    have hall : ∀ x ∈ rs.map (fun r => r.1), x < (rs.map (fun r => r.1)).length := by
      intro x hx
      obtain ⟨r, hr, rfl⟩ := List.mem_map.mp hx
      rw [List.length_map, hlen]
      exact hrange r hr
    have hmem := mem_of_nodup_of_length (rs.map (fun r => r.1)) hall hnd k
      (by rw [List.length_map, hlen]; exact hk)
    obtain ⟨r, hr, rfl⟩ := List.mem_map.mp hmem
    obtain ⟨pre, post, rfl⟩ := List.append_of_mem hr
    have hnd' := hnd
    simp only [List.map_append, List.map_cons] at hnd'
    have hparts := List.nodup_append.mp hnd'
    have hcons := List.nodup_cons.mp hparts.2.1
    have hpost : ∀ r' ∈ post, r'.1 ≠ r.1 := by
      intro r' hr' heq
      exact hcons.1 (heq ▸ List.mem_map_of_mem (fun r => r.1) hr')
    have hpre : ∀ r' ∈ pre, r'.1 ≠ r.1 := by
      intro r' hr' heq
      exact hparts.2.2 (List.mem_map_of_mem (fun r => r.1) hr')
        (heq ▸ List.mem_cons_self _ _)
    refine ⟨r, hr, rfl, ?_, hlast pre r post rfl hpost⟩
    intro r' hr' heq
    rcases List.mem_append.mp hr' with h | h
    · exact absurd heq (hpre r' h)
    · rcases List.mem_cons.mp h with h | h
      · exact h
      · exact absurd heq (hpost r' h)
  · intro hnd
    obtain ⟨k, hk, hnot⟩ := exists_not_mem_of_not_nodup (rs.map (fun r => r.1)) hnd
    rw [List.length_map, hlen] at hk
    have hno : ∀ r ∈ rs, r.1 ≠ k := fun r hr heq =>
      hnot (heq ▸ List.mem_map_of_mem (fun r => r.1) hr)
    exact ⟨k, hk, hno, hdefault k hk hno⟩

/-- Witness for C19: two entries with the ids 1 and 0 fill both slots; two entries that
both carry the id 0 leave slot 1 at its default, and slot 0 holds the later one. -/
theorem CreateParty_fills_configuration_witness :
    (∃ s, CreateParty
        { VariablesMap.empty with
          my_id := some 0,
          other_parties := some ["1,127.0.0.1,7777", "0,127.0.0.2,7778"],
          online_after_setup := some true } = .done s ∧
      s.parties_configuration = [("127.0.0.2", 7778), ("127.0.0.1", 7777)]) ∧
    (∃ s, CreateParty
        { VariablesMap.empty with
          my_id := some 0,
          other_parties := some ["0,127.0.0.1,7777", "0,127.0.0.2,7778"],
          online_after_setup := some true } = .done s ∧
      s.parties_configuration = [("127.0.0.2", 7778), ("", 0)]) := by
  obtain ⟨s1, h1, -⟩ := CreateParty_fills_configuration
    { VariablesMap.empty with
      my_id := some 0,
      other_parties := some ["1,127.0.0.1,7777", "0,127.0.0.2,7778"],
      online_after_setup := some true }
    0 ["1,127.0.0.1,7777", "0,127.0.0.2,7778"]
    [(1, "127.0.0.1", 7777), (0, "127.0.0.2", 7778)] true rfl rfl rfl
    (by decide) (by decide) (by decide)
  obtain ⟨s2, h2, -⟩ := CreateParty_fills_configuration
    { VariablesMap.empty with
      my_id := some 0,
      other_parties := some ["0,127.0.0.1,7777", "0,127.0.0.2,7778"],
      online_after_setup := some true }
    0 ["0,127.0.0.1,7777", "0,127.0.0.2,7778"]
    [(0, "127.0.0.1", 7777), (0, "127.0.0.2", 7778)] true rfl rfl rfl
    (by decide) (by decide) (by decide)
  refine ⟨⟨s1, h1, ?_⟩, ⟨s2, h2, ?_⟩⟩
  · have : CreateParty
        { VariablesMap.empty with
          my_id := some 0,
          other_parties := some ["1,127.0.0.1,7777", "0,127.0.0.2,7778"],
          online_after_setup := some true }
        = .done
          { parties_configuration := [("127.0.0.2", 7778), ("127.0.0.1", 7777)],
            connections := some (0, [("127.0.0.2", 7778), ("127.0.0.1", 7777)]),
            logging := some true, online_after_setup := some true } := by decide
    rw [this] at h1
    cases h1
    rfl
  · have : CreateParty
        { VariablesMap.empty with
          my_id := some 0,
          other_parties := some ["0,127.0.0.1,7777", "0,127.0.0.2,7778"],
          online_after_setup := some true }
        = .done
          { parties_configuration := [("127.0.0.2", 7778), ("", 0)],
            connections := some (0, [("127.0.0.2", 7778), ("", 0)]),
            logging := some true, online_after_setup := some true } := by decide
    rw [this] at h2
    cases h2
    rfl

end mytest

end Motion

namespace Motion

namespace mytest

/-! ### `print-configuration` -/

/-- Once the help switch is off and the configuration file is read, a set
`print-configuration` switch keeps `ParseProgramOptions` from returning: whatever passes the
checks ends in `bad_any_cast`, the options `num-simd` and `protocol` not being declared. -/
theorem ParseProgramOptions_print_never_returns
    (config_file : String → VariablesMap → VariablesMap) (parsed m : VariablesMap)
    (hhelp : parsed.switch "help" = false)
    (hm : readConfigurationFile config_file parsed = .ok m)
    (hprint : m.switch "print-configuration" = true) :
    ∀ r, ParseProgramOptions config_file parsed ≠ .ok r := by
  intro r h
  rw [ParseProgramOptions_eq config_file parsed m hhelp hm] at h
  cases hid : m.my_id with
  | none =>
    rw [hid] at h
    cases h
  | some id =>
    cases hps : m.other_parties with
    | none =>
      rw [hid, hps] at h
      cases h
    | some ps =>
      rw [hid, hps] at h
      cases hc : checkParties ps with
      | error e =>
        simp only [hc] at h
        cases h
      | ok u =>
        simp only [hc, hprint, if_true] at h
        cases h

/-- C16, at the failing input: with `my-id` set and two valid entries in `other-parties`,
the command line is accepted without `print-configuration` and ends in `bad_any_cast`
with it. -/
theorem ParseProgramOptions_print_configuration_fails :
    ParseProgramOptions (fun _ m => m)
        { VariablesMap.empty with
          help := some false, print_configuration := some false, my_id := some 0,
          other_parties := some ["0,127.0.0.1,7777", "1,127.0.0.1,7778"],
          online_after_setup := some true, repetitions := some 1 }
      = .ok ({ VariablesMap.empty with
          help := some false, print_configuration := some false, my_id := some 0,
          other_parties := some ["0,127.0.0.1,7777", "1,127.0.0.1,7778"],
          online_after_setup := some true, repetitions := some 1 }, false) ∧
    ParseProgramOptions (fun _ m => m)
        { VariablesMap.empty with
          help := some false, print_configuration := some true, my_id := some 0,
          other_parties := some ["0,127.0.0.1,7777", "1,127.0.0.1,7778"],
          online_after_setup := some true, repetitions := some 1 }
      = .error .bad_any_cast := by
  refine ⟨?_, ?_⟩ <;> decide

end mytest

end Motion

namespace Motion

namespace mytest

/-! ### `EvaluateProtocol` of `mytest.cpp` -/

theorem makeShares_done (op : InputOperation) (value : InputValue) (p : Party) :
    makeShares (fun q => returned (Backend.Input op (some 0) value q)) (State.init p)
      = .done (inputState op value p) := by
  simp [makeShares, returned, Backend.Input, State.init, inputState]

theorem mytest_arithmeticCase_constructed (pf : Platform) (width number_of_simd : Nat)
    (p : Party)
    (h : pf.refuses (.temporary_arithmetic_a width number_of_simd) = none ∧
      pf.refuses (.temporary_arithmetic_b width number_of_simd) = none) :
    arithmeticCase pf width number_of_simd (State.init p)
      = .done (inputState .ArithmeticGmwInput
          (.unsigneds width (List.replicate number_of_simd 0)) p) := by
  simp [arithmeticCase, Platform.construct, h.1, h.2, matmult.In_Unsigneds_ArithmeticGmw,
    makeShares_done]

theorem mytest_arithmeticCase_refused (pf : Platform) (width number_of_simd : Nat) (s : State)
    (h : ¬ (pf.refuses (.temporary_arithmetic_a width number_of_simd) = none ∧
      pf.refuses (.temporary_arithmetic_b width number_of_simd) = none)) :
    ∃ e : StorageError, arithmeticCase pf width number_of_simd s = .raised e.toError s := by
  by_cases ha : pf.refuses (.temporary_arithmetic_a width number_of_simd) = none
  · have hb : pf.refuses (.temporary_arithmetic_b width number_of_simd) ≠ none :=
      fun hb => h ⟨ha, hb⟩
    obtain ⟨e, he⟩ := Option.ne_none_iff_exists'.mp hb
    exact ⟨e, by simp [arithmeticCase, Platform.construct, ha, he]⟩
  · obtain ⟨e, he⟩ := Option.ne_none_iff_exists'.mp ha
    exact ⟨e, by simp [arithmeticCase, Platform.construct, he]⟩

theorem mytest_makeInputs_supported (pf : Platform) (number_of_simd bit_size : Nat)
    (protocol : MpcProtocol) (hs : matmult.Supported protocol bit_size)
    (hc : protocol = .kArithmeticGmw →
      (bit_size = 8 ∨ bit_size = 16 ∨ bit_size = 32 ∨ bit_size = 64) →
      pf.refuses (.temporary_arithmetic_a bit_size number_of_simd) = none ∧
      pf.refuses (.temporary_arithmetic_b bit_size number_of_simd) = none) (p : Party) :
    makeInputs pf (List.replicate bit_size (List.replicate number_of_simd false))
        number_of_simd bit_size protocol (State.init p)
      = .done (inputState (matmult.inputOf number_of_simd bit_size protocol).1
          (matmult.inputOf number_of_simd bit_size protocol).2 p) := by
  unfold makeInputs
  rcases hs with rfl | rfl | ⟨rfl, hb⟩
  · simp only [matmult.In_BitVectors_BooleanGmw, matmult.inputOf, makeShares_done]
  · simp only [matmult.In_BitVectors_Bmr, matmult.inputOf, makeShares_done]
  · have hc' := hc rfl hb
    rcases hb with rfl | rfl | rfl | rfl <;>
    simp [mytest_arithmeticCase_constructed _ _ _ _ hc', matmult.inputOf]

theorem mytest_makeInputs_refused (pf : Platform) (temporary_bool : List (List Bool))
    (number_of_simd bit_size : Nat)
    (hb : bit_size = 8 ∨ bit_size = 16 ∨ bit_size = 32 ∨ bit_size = 64)
    (h : ¬ (pf.refuses (.temporary_arithmetic_a bit_size number_of_simd) = none ∧
      pf.refuses (.temporary_arithmetic_b bit_size number_of_simd) = none)) (s : State) :
    ∃ e : StorageError,
      makeInputs pf temporary_bool number_of_simd bit_size .kArithmeticGmw s
        = .raised e.toError s := by
  obtain ⟨e, he⟩ := mytest_arithmeticCase_refused pf bit_size number_of_simd s h
  refine ⟨e, ?_⟩
  unfold makeInputs
  rcases hb with rfl | rfl | rfl | rfl <;> simp [he]

theorem mytest_makeInputs_unsupported (pf : Platform) (temporary_bool : List (List Bool))
    (number_of_simd bit_size : Nat) (protocol : MpcProtocol)
    (hs : ¬ matmult.Supported protocol bit_size) (s : State) :
    makeInputs pf temporary_bool number_of_simd bit_size protocol s
      = .raised (.invalid_argument
          (if protocol = .kArithmeticGmw then "Unknown bit size" else "Invalid MPC protocol")) s := by
  unfold matmult.Supported at hs
  unfold makeInputs
  cases protocol <;> simp_all

theorem operate_known (operation_type : IntegerOperationType)
    (hk : KnownOperation operation_type) (op : InputOperation) (value : InputValue) (p : Party) :
    operate operation_type (inputState op value p)
      = .done (builtState op value p operation_type) := by
  rcases hk with rfl | rfl | rfl | rfl | rfl | rfl <;>
    simp [operate, applyOperator, inputState, SecureUnsignedInteger.discarded,
      SecureUnsignedInteger.mul, SecureUnsignedInteger.add, builtEvents, operationEvent,
      builtState]

theorem operate_unknown (operation_type : IntegerOperationType)
    (hk : ¬ KnownOperation operation_type) (s : State) :
    operate operation_type s = .raised (.invalid_argument "Unknown operation type") s := by
  unfold KnownOperation at hk
  unfold operate
  cases operation_type <;> simp_all

/-- Once `temporary_bool` is constructed, the two `switch`es run, then `Run` and
`Finish`. -/
theorem mytest_EvaluateProtocol_constructed (pf : Platform) (p : Party)
    (number_of_simd bit_size : Nat) (protocol : MpcProtocol)
    (operation_type : IntegerOperationType)
    (h : pf.refuses (.temporary_bool bit_size number_of_simd) = none) :
    EvaluateProtocol pf p number_of_simd bit_size protocol operation_type
      = ((makeInputs pf (List.replicate bit_size (List.replicate number_of_simd false))
          number_of_simd bit_size protocol (State.init p)).andThen
            (operate operation_type)).andThen runAndFinish := by
  unfold EvaluateProtocol
  rw [matmult.construct_constructed pf _ _ h]

/-- When `temporary_bool` cannot be constructed, the exception of its constructor is raised
before anything else is done. -/
theorem mytest_EvaluateProtocol_refused (pf : Platform) (p : Party)
    (number_of_simd bit_size : Nat) (protocol : MpcProtocol)
    (operation_type : IntegerOperationType) (e : StorageError)
    (h : pf.refuses (.temporary_bool bit_size number_of_simd) = some e) :
    EvaluateProtocol pf p number_of_simd bit_size protocol operation_type
      = .raised e.toError (State.init p) := by
  unfold EvaluateProtocol
  rw [matmult.construct_refused pf _ _ e h]

/-- The ways `EvaluateProtocol` of `mytest.cpp` can go: a vector cannot be constructed, or
the combination is not supported, or the operation type is unknown, or it returns. -/
theorem mytest_EvaluateProtocol_cases (pf : Platform) (p : Party)
    (number_of_simd bit_size : Nat) (protocol : MpcProtocol)
    (operation_type : IntegerOperationType) :
    (∃ e : StorageError, ¬ Constructed pf number_of_simd bit_size protocol ∧
      EvaluateProtocol pf p number_of_simd bit_size protocol operation_type
        = .raised e.toError (State.init p)) ∨
    (¬ matmult.Supported protocol bit_size ∧
      Constructed pf number_of_simd bit_size protocol ∧
      EvaluateProtocol pf p number_of_simd bit_size protocol operation_type
        = .raised (.invalid_argument
            (if protocol = .kArithmeticGmw then "Unknown bit size" else "Invalid MPC protocol"))
            (State.init p)) ∨
    (matmult.Supported protocol bit_size ∧ Constructed pf number_of_simd bit_size protocol ∧
      ¬ KnownOperation operation_type ∧
      EvaluateProtocol pf p number_of_simd bit_size protocol operation_type
        = .raised (.invalid_argument "Unknown operation type")
            (inputState (matmult.inputOf number_of_simd bit_size protocol).1
              (matmult.inputOf number_of_simd bit_size protocol).2 p)) ∨
    (matmult.Supported protocol bit_size ∧ Constructed pf number_of_simd bit_size protocol ∧
      KnownOperation operation_type ∧
      EvaluateProtocol pf p number_of_simd bit_size protocol operation_type
        = .done (finalState (matmult.inputOf number_of_simd bit_size protocol).1
            (matmult.inputOf number_of_simd bit_size protocol).2 p operation_type)) := by
  by_cases hb : pf.refuses (.temporary_bool bit_size number_of_simd) = none
  · rw [mytest_EvaluateProtocol_constructed pf p number_of_simd bit_size protocol
      operation_type hb]
    by_cases hs : matmult.Supported protocol bit_size
    · by_cases hc : Constructed pf number_of_simd bit_size protocol
      · rw [mytest_makeInputs_supported pf number_of_simd bit_size protocol hs hc.2 p]
        simp only [Outcome.andThen]
        by_cases hk : KnownOperation operation_type
        · refine Or.inr (Or.inr (Or.inr ⟨hs, hc, hk, ?_⟩))
          rw [operate_known operation_type hk]
          simp only [runAndFinish, Party.Run, Party.Finish, builtState, finalState]
          cases p.finished <;> simp
        · refine Or.inr (Or.inr (Or.inl ⟨hs, hc, hk, ?_⟩))
          rw [operate_unknown operation_type hk]
      · have ha : ¬ (protocol = .kArithmeticGmw →
            (bit_size = 8 ∨ bit_size = 16 ∨ bit_size = 32 ∨ bit_size = 64) →
            pf.refuses (.temporary_arithmetic_a bit_size number_of_simd) = none ∧
            pf.refuses (.temporary_arithmetic_b bit_size number_of_simd) = none) :=
          fun h => hc ⟨hb, h⟩
        have hp : protocol = .kArithmeticGmw := by
          by_contra hne
          exact ha (fun h => absurd h hne)
        have hne : ¬ (pf.refuses (.temporary_arithmetic_a bit_size number_of_simd) = none ∧
            pf.refuses (.temporary_arithmetic_b bit_size number_of_simd) = none) :=
          fun h => ha (fun _ _ => h)
        subst hp
        have hbits : bit_size = 8 ∨ bit_size = 16 ∨ bit_size = 32 ∨ bit_size = 64 := by
          rcases hs with h | h | ⟨-, h⟩
          · cases h
          · cases h
          · exact h
        obtain ⟨e, he⟩ := mytest_makeInputs_refused pf
          (List.replicate bit_size (List.replicate number_of_simd false))
          number_of_simd bit_size hbits hne (State.init p)
        refine Or.inl ⟨e, hc, ?_⟩
        rw [he]
        rfl
    · have hc : Constructed pf number_of_simd bit_size protocol := by
        refine ⟨hb, fun hp hbits => ?_⟩
        exact absurd (Or.inr (Or.inr ⟨hp, hbits⟩)) hs
      refine Or.inr (Or.inl ⟨hs, hc, ?_⟩)
      rw [mytest_makeInputs_unsupported pf _ number_of_simd bit_size protocol hs]
      rfl
  · obtain ⟨e, he⟩ := Option.ne_none_iff_exists'.mp hb
    exact Or.inl ⟨e, fun h => hb h.1,
      mytest_EvaluateProtocol_refused pf p number_of_simd bit_size protocol operation_type e he⟩

/-- If `EvaluateProtocol` of `mytest.cpp` returns, the final state is the closed form. -/
theorem mytest_EvaluateProtocol_done_inv (pf : Platform) (p : Party)
    (number_of_simd bit_size : Nat) (protocol : MpcProtocol)
    (operation_type : IntegerOperationType) (s : State)
    (h : EvaluateProtocol pf p number_of_simd bit_size protocol operation_type = .done s) :
    matmult.Supported protocol bit_size ∧ Constructed pf number_of_simd bit_size protocol ∧
      KnownOperation operation_type ∧
      s = finalState (matmult.inputOf number_of_simd bit_size protocol).1
          (matmult.inputOf number_of_simd bit_size protocol).2 p operation_type := by
  rcases mytest_EvaluateProtocol_cases pf p number_of_simd bit_size protocol operation_type with
    ⟨e, -, he⟩ | ⟨-, -, he⟩ | ⟨-, -, -, he⟩ | ⟨hs, hc, hk, he⟩
  · rw [he] at h; cases h
  · rw [he] at h; cases h
  · rw [he] at h; cases h
  · rw [he] at h
    exact ⟨hs, hc, hk, (Outcome.done.inj h).symm⟩

theorem drop_trace (t rest : List Event) : (t ++ rest).drop t.length = rest := by
  simp

/-- C15, counterexample: with `bit_size = 2^64 - 1` the constructor of `temporary_bool`
raises `length_error` before the first `switch`.  With Boolean GMW and `kAdd`, which the
two `switch`es have cases for, `Run` is therefore not called; with `kArithmeticGmw`, a case
that is not among the accepted ones, the error is not `invalid_argument`. -/
theorem mytest_length_error_before_switch :
    (EvaluateProtocol (Platform.lp64 32) Party.fresh 1 18446744073709551615 .kBooleanGmw .kAdd
        = .raised .length_error (State.init Party.fresh) ∧
      Event.run ∉ (State.init Party.fresh).party.trace) ∧
    EvaluateProtocol (Platform.lp64 32) Party.fresh 1 18446744073709551615 .kArithmeticGmw .kAdd
      = .raised .length_error (State.init Party.fresh) ∧
    ¬ ∃ what s, EvaluateProtocol (Platform.lp64 32) Party.fresh 1 18446744073709551615
        .kArithmeticGmw .kAdd = .raised (.invalid_argument what) s := by
  have h1 := mytest_EvaluateProtocol_refused (Platform.lp64 32) Party.fresh 1
    18446744073709551615 .kBooleanGmw .kAdd .length_error (by decide)
  have h2 := mytest_EvaluateProtocol_refused (Platform.lp64 32) Party.fresh 1
    18446744073709551615 .kArithmeticGmw .kAdd .length_error (by decide)
  refine ⟨⟨h1, by simp [State.init, Party.fresh]⟩, h2, ?_⟩
  rintro ⟨what, s, hw⟩
  rw [h2] at hw
  cases hw

/-- C15, amended: when the vectors that the call declares are constructed,
`EvaluateProtocol` of `mytest.cpp` calls `Party::Run()` if and only if the protocol is
`kBooleanGmw`, `kBmr` or `kArithmeticGmw`, the bit size is in {8,16,32,64} when it is
`kArithmeticGmw`, and the operation type is one of `kSub`, `kGt`, `kDiv`, `kMul`, `kAdd`,
`kEq`, and then it returns; otherwise it raises `invalid_argument` having called neither
`Run()` nor `Finish()`, and for an unknown protocol or an unsupported arithmetic bit size it
raises in the initial state, before any input gate.  When a vector cannot be constructed,
the exception of its constructor is raised in the initial state, and `Run()` is not
called. -/
theorem mytest_calls_Run_iff (pf : Platform) (p : Party) (number_of_simd bit_size : Nat)
    (protocol : MpcProtocol) (operation_type : IntegerOperationType) :
    (Constructed pf number_of_simd bit_size protocol →
      (Event.run ∈ (EvaluateProtocol pf p number_of_simd bit_size protocol
          operation_type).state.party.trace.drop p.trace.length ↔
        ((protocol = .kBooleanGmw ∨ protocol = .kBmr ∨
            (protocol = .kArithmeticGmw ∧
              (bit_size = 8 ∨ bit_size = 16 ∨ bit_size = 32 ∨ bit_size = 64))) ∧
          (operation_type = .kSub ∨ operation_type = .kGt ∨ operation_type = .kDiv ∨
            operation_type = .kMul ∨ operation_type = .kAdd ∨ operation_type = .kEq))) ∧
      (matmult.Supported protocol bit_size ∧ KnownOperation operation_type →
        ∃ s, EvaluateProtocol pf p number_of_simd bit_size protocol operation_type = .done s) ∧
      (¬ (matmult.Supported protocol bit_size ∧ KnownOperation operation_type) →
        ∃ what s, EvaluateProtocol pf p number_of_simd bit_size protocol operation_type
            = .raised (.invalid_argument what) s ∧
          Event.run ∉ s.party.trace.drop p.trace.length ∧
          Event.finish ∉ s.party.trace.drop p.trace.length ∧
          s.party.finished = p.finished) ∧
      (¬ matmult.Supported protocol bit_size →
        ∃ what, EvaluateProtocol pf p number_of_simd bit_size protocol operation_type
          = .raised (.invalid_argument what) (State.init p))) ∧
    (¬ Constructed pf number_of_simd bit_size protocol →
      (∃ e : StorageError,
        EvaluateProtocol pf p number_of_simd bit_size protocol operation_type
          = .raised e.toError (State.init p)) ∧
      Event.run ∉ (EvaluateProtocol pf p number_of_simd bit_size protocol
          operation_type).state.party.trace.drop p.trace.length) := by
  have hcases :=
    mytest_EvaluateProtocol_cases pf p number_of_simd bit_size protocol operation_type
  refine ⟨fun hc => ?_, fun hnc => ?_⟩
  · have h1 : matmult.Supported protocol bit_size → KnownOperation operation_type →
        EvaluateProtocol pf p number_of_simd bit_size protocol operation_type
          = .done (finalState (matmult.inputOf number_of_simd bit_size protocol).1
              (matmult.inputOf number_of_simd bit_size protocol).2 p operation_type) := by
      intro hs hk
      rcases hcases with ⟨e, hn, -⟩ | ⟨hn, -, -⟩ | ⟨-, -, hn, -⟩ | ⟨-, -, -, he⟩
      · exact absurd hc hn
      · exact absurd hs hn
      · exact absurd hk hn
      · exact he
    have h2 : matmult.Supported protocol bit_size → ¬ KnownOperation operation_type →
        EvaluateProtocol pf p number_of_simd bit_size protocol operation_type
          = .raised (.invalid_argument "Unknown operation type")
              (inputState (matmult.inputOf number_of_simd bit_size protocol).1
                (matmult.inputOf number_of_simd bit_size protocol).2 p) := by
      intro hs hk
      rcases hcases with ⟨e, hn, -⟩ | ⟨hn, -, -⟩ | ⟨-, -, -, he⟩ | ⟨-, -, hn, -⟩
      · exact absurd hc hn
      · exact absurd hs hn
      · exact he
      · exact absurd hn hk
    have h3 : ¬ matmult.Supported protocol bit_size →
        EvaluateProtocol pf p number_of_simd bit_size protocol operation_type
          = .raised (.invalid_argument
              (if protocol = .kArithmeticGmw then "Unknown bit size"
                else "Invalid MPC protocol")) (State.init p) := by
      intro hs
      rcases hcases with ⟨e, hn, -⟩ | ⟨-, -, he⟩ | ⟨hn, -, -, -⟩ | ⟨hn, -, -, -⟩
      · exact absurd hc hn
      · exact he
      · exact absurd hn hs
      · exact absurd hn hs
    have hraise : ¬ (matmult.Supported protocol bit_size ∧ KnownOperation operation_type) →
        ∃ what s, EvaluateProtocol pf p number_of_simd bit_size protocol operation_type
            = .raised (.invalid_argument what) s ∧
          Event.run ∉ s.party.trace.drop p.trace.length ∧
          Event.finish ∉ s.party.trace.drop p.trace.length ∧
          s.party.finished = p.finished := by
      intro hn
      by_cases hs : matmult.Supported protocol bit_size
      · have hk : ¬ KnownOperation operation_type := fun hk => hn ⟨hs, hk⟩
        refine ⟨_, _, h2 hs hk, ?_, ?_, rfl⟩
        · simp only [inputState, drop_trace]
          simp
        · simp only [inputState, drop_trace]
          simp
      · refine ⟨_, _, h3 hs, ?_, ?_, rfl⟩ <;> simp [State.init]
    refine ⟨?_, fun h => ⟨_, h1 h.1 h.2⟩, hraise, fun hs => ⟨_, h3 hs⟩⟩
    show _ ↔ (matmult.Supported protocol bit_size ∧ KnownOperation operation_type)
    constructor
    · intro hrun
      by_contra hn
      obtain ⟨what, s, hr, hno, -, -⟩ := hraise hn
      rw [hr] at hrun
      exact hno hrun
    · intro h
      rw [h1 h.1 h.2]
      simp only [Outcome.state, finalState, List.append_assoc, drop_trace]
      simp
  · have hst : ∃ e : StorageError,
        EvaluateProtocol pf p number_of_simd bit_size protocol operation_type
          = .raised e.toError (State.init p) := by
      rcases hcases with ⟨e, -, he⟩ | ⟨-, hc, -⟩ | ⟨-, hc, -, -⟩ | ⟨-, hc, -, -⟩
      · exact ⟨e, he⟩
      · exact absurd hc hnc
      · exact absurd hc hnc
      · exact absurd hc hnc
    refine ⟨hst, ?_⟩
    obtain ⟨e, he⟩ := hst
    rw [he]
    simp [Outcome.state, State.init]

/-- Witness for C15: on an implementation that constructs the vectors of 8 wires and one
SIMD value, Boolean GMW with `kAdd` calls `Run`, and `kBooleanConstant` does not. -/
theorem mytest_calls_Run_iff_witness :
    Constructed (Platform.lp64 32) 1 8 .kBooleanGmw ∧
    Event.run ∈ (EvaluateProtocol (Platform.lp64 32) Party.fresh 1 8 .kBooleanGmw
      .kAdd).state.party.trace.drop Party.fresh.trace.length ∧
    Event.run ∉ (EvaluateProtocol (Platform.lp64 32) Party.fresh 1 8 .kBooleanConstant
      .kAdd).state.party.trace.drop Party.fresh.trace.length :=
  ⟨by decide,
    ((mytest_calls_Run_iff (Platform.lp64 32) Party.fresh 1 8 .kBooleanGmw .kAdd).1
      (by decide)).1.mpr (by decide),
    fun h => absurd
      (((mytest_calls_Run_iff (Platform.lp64 32) Party.fresh 1 8 .kBooleanConstant .kAdd).1
        (by decide)).1.mp h) (by decide)⟩

/-- C17: `GenerateAllCombinations` returns the 12 combinations of the bit sizes 8, 16, 32,
64 (in this order) with the protocols `kArithmeticGmw`, `kBooleanGmw`, `kBmr` (in this
order), all with `kAdd` and one SIMD value; no (bit size, protocol) pair occurs twice; and
every one of them is a combination that the two `switch`es of `EvaluateProtocol` of
`mytest.cpp` have cases for: whenever the vectors of the call are constructed,
`EvaluateProtocol` passes its checks, calls `Run` and returns. -/
theorem GenerateAllCombinations_twelve :
    GenerateAllCombinations
      = [⟨8, .kArithmeticGmw, .kAdd, 1⟩, ⟨8, .kBooleanGmw, .kAdd, 1⟩, ⟨8, .kBmr, .kAdd, 1⟩,
         ⟨16, .kArithmeticGmw, .kAdd, 1⟩, ⟨16, .kBooleanGmw, .kAdd, 1⟩, ⟨16, .kBmr, .kAdd, 1⟩,
         ⟨32, .kArithmeticGmw, .kAdd, 1⟩, ⟨32, .kBooleanGmw, .kAdd, 1⟩, ⟨32, .kBmr, .kAdd, 1⟩,
         ⟨64, .kArithmeticGmw, .kAdd, 1⟩, ⟨64, .kBooleanGmw, .kAdd, 1⟩, ⟨64, .kBmr, .kAdd, 1⟩] ∧
    GenerateAllCombinations.length = 12 ∧
    (GenerateAllCombinations.map (fun c => (c.bit_size_, c.protocol_))).Nodup ∧
    (∀ bit_size ∈ [8, 16, 32, 64],
      ∀ protocol ∈ [MpcProtocol.kArithmeticGmw, MpcProtocol.kBooleanGmw, MpcProtocol.kBmr],
        (GenerateAllCombinations.map (fun c => (c.bit_size_, c.protocol_))).count
          (bit_size, protocol) = 1) ∧
    (∀ c ∈ GenerateAllCombinations,
      matmult.Supported c.protocol_ c.bit_size_ ∧ KnownOperation c.operation_type_ ∧
      Constructed (Platform.lp64 32) c.number_of_simd_ c.bit_size_ c.protocol_) ∧
    ∀ c ∈ GenerateAllCombinations, ∀ (pf : Platform) (p : Party),
      Constructed pf c.number_of_simd_ c.bit_size_ c.protocol_ →
      ∃ s, EvaluateProtocol pf p c.number_of_simd_ c.bit_size_ c.protocol_ c.operation_type_
          = .done s ∧
        Event.run ∈ s.party.trace.drop p.trace.length := by
  refine ⟨by decide, by decide, by decide, by decide, by decide, ?_⟩
  have hall : ∀ c ∈ GenerateAllCombinations,
      matmult.Supported c.protocol_ c.bit_size_ ∧ KnownOperation c.operation_type_ := by
    decide
  intro c hc pf p hcon
  have hsk := hall c hc
  rcases mytest_EvaluateProtocol_cases pf p c.number_of_simd_ c.bit_size_ c.protocol_
    c.operation_type_ with ⟨e, hn, -⟩ | ⟨hn, -, -⟩ | ⟨-, -, hn, -⟩ | ⟨-, -, -, he⟩
  · exact absurd hcon hn
  · exact absurd hsk.1 hn
  · exact absurd hsk.2 hn
  · refine ⟨_, he, ?_⟩
    simp only [finalState, List.append_assoc, drop_trace]
    simp

/-- Witness for C17: the first combination, on an implementation that constructs its
vectors. -/
theorem GenerateAllCombinations_twelve_witness :
    (⟨8, .kArithmeticGmw, .kAdd, 1⟩ : Combination) ∈ GenerateAllCombinations ∧
    Constructed (Platform.lp64 32) 1 8 .kArithmeticGmw ∧
    ∃ s, EvaluateProtocol (Platform.lp64 32) Party.fresh 1 8 .kArithmeticGmw .kAdd = .done s ∧
      Event.run ∈ s.party.trace.drop Party.fresh.trace.length :=
  ⟨by decide, by decide,
    GenerateAllCombinations_twelve.2.2.2.2.2 ⟨8, .kArithmeticGmw, .kAdd, 1⟩ (by decide)
      (Platform.lp64 32) Party.fresh (by decide)⟩

end mytest

/-! ## `Party::Finish` -/

theorem Finish_Finish (p : Party) : p.Finish.Finish = p.Finish := by
  unfold Party.Finish
  cases h : p.finished <;> simp [h]

theorem iterate_Finish (p : Party) : ∀ n, 1 ≤ n → Party.Finish^[n] p = p.Finish := by
  intro n
  induction n with
  | zero => intro h; omega
  | succ n ih =>
    intro _
    rcases Nat.eq_zero_or_pos n with rfl | hn
    · rfl
    · rw [Function.iterate_succ_apply', ih hn, Finish_Finish]

theorem count_finish_Finish (p : Party) :
    p.Finish.trace.count Event.finish
      = p.trace.count Event.finish + if p.finished then 0 else 1 := by
  unfold Party.Finish
  cases h : p.finished <;> simp [h]

theorem matmult_builtEvents_count_finish (op : InputOperation) (value : InputValue)
    (g0 dim : Nat) : (matmult.builtEvents op value g0 dim).count Event.finish = 0 := by
  rw [List.count_eq_zero]
  intro he
  simp only [matmult.builtEvents, List.mem_append, List.mem_replicate, List.mem_flatMap,
    List.mem_range, matmult.cellEvents, List.mem_map] at he
  rcases he with ⟨-, h⟩ | ⟨i, -, j, -, ⟨k, -, h⟩ | ⟨m, -, h⟩⟩ <;> cases h

theorem mytest_builtEvents_count_finish (op : InputOperation) (value : InputValue)
    (g0 : Nat) (operation_type : IntegerOperationType) :
    (mytest.builtEvents op value g0 operation_type).count Event.finish = 0 := by
  rw [List.count_eq_zero]
  intro he
  simp only [mytest.builtEvents, List.mem_cons, List.mem_singleton, List.not_mem_nil,
    or_false] at he
  rcases he with h | h | h
  · cases h
  · cases h
  · cases operation_type <;> cases h

/-- C12: `Finish()` is idempotent: called twice, or any number of times from 1 on, it leaves
the party as one call does, with the same termination messages sent: one if the party had
not finished before, none otherwise.  The states in which `EvaluateProtocol` of `matmult`
and of `mytest` return are left unchanged by the `Finish()` of the destructor, and their
traces hold one termination signal more than the party held at the start if it had not
finished, none more otherwise. -/
theorem Finish_idempotent (p : Party) :
    p.Finish.Finish = p.Finish ∧
    (∀ n, 1 ≤ n → Party.Finish^[n] p = p.Finish) ∧
    (∀ n, 1 ≤ n → (Party.Finish^[n] p).trace.count Event.finish
      = p.trace.count Event.finish + if p.finished then 0 else 1) ∧
    (∀ pf number_of_simd bit_size dim protocol s,
      matmult.EvaluateProtocol pf p number_of_simd bit_size dim protocol = .done s →
        s.party.destroy = s.party ∧
        s.party.destroy.trace.count Event.finish
          = p.trace.count Event.finish + if p.finished then 0 else 1) ∧
    (∀ pf number_of_simd bit_size protocol operation_type s,
      mytest.EvaluateProtocol pf p number_of_simd bit_size protocol operation_type = .done s →
        s.party.destroy = s.party ∧
        s.party.destroy.trace.count Event.finish
          = p.trace.count Event.finish + if p.finished then 0 else 1) := by
  refine ⟨Finish_Finish p, iterate_Finish p, ?_, ?_, ?_⟩
  · intro n hn
    rw [iterate_Finish p n hn, count_finish_Finish]
  · intro pf number_of_simd bit_size dim protocol s h
    obtain ⟨-, -, -, rfl⟩ :=
      matmult.EvaluateProtocol_done_inv pf p number_of_simd bit_size dim protocol s h
    have hd : (matmult.finalState (matmult.inputOf number_of_simd bit_size protocol).1
        (matmult.inputOf number_of_simd bit_size protocol).2 p dim).party.destroy
        = (matmult.finalState (matmult.inputOf number_of_simd bit_size protocol).1
        (matmult.inputOf number_of_simd bit_size protocol).2 p dim).party := by
      simp only [Party.destroy, matmult.finalState]
      exact Finish_Finish _
    refine ⟨hd, ?_⟩
    rw [hd, matmult.finalState_trace, List.count_append, List.count_append,
      matmult_builtEvents_count_finish]
    cases p.finished <;> simp
  · intro pf number_of_simd bit_size protocol operation_type s h
    obtain ⟨-, -, -, rfl⟩ := mytest.mytest_EvaluateProtocol_done_inv pf p number_of_simd
      bit_size protocol operation_type s h
    refine ⟨by simp [Party.destroy, Party.Finish, mytest.finalState], ?_⟩
    have hd : (mytest.finalState (matmult.inputOf number_of_simd bit_size protocol).1
        (matmult.inputOf number_of_simd bit_size protocol).2 p
        operation_type).party.destroy.trace
        = p.trace ++ mytest.builtEvents (matmult.inputOf number_of_simd bit_size protocol).1
            (matmult.inputOf number_of_simd bit_size protocol).2 p.trace.length
            operation_type ++
          Event.run :: (if p.finished then [] else [Event.finish]) := by
      simp [Party.destroy, Party.Finish, mytest.finalState]
    rw [hd, List.count_append, List.count_append, mytest_builtEvents_count_finish]
    cases p.finished <;> simp

/-- Witness for C12: a fresh party, three calls of `Finish()`. -/
theorem Finish_idempotent_witness :
    Party.Finish^[3] Party.fresh = Party.fresh.Finish ∧
    (Party.Finish^[3] Party.fresh).trace = [Event.finish] :=
  ⟨(Finish_idempotent Party.fresh).2.1 3 (by decide), by decide⟩

end Motion

namespace Motion

theorem Gates.move_state_self (s : Gates) (g : Nat) (st : GateState) :
    (s.move g st).state g = st := by
  simp [Gates.move]

theorem Gates.move_state_ne (s : Gates) (g h : Nat) (st : GateState) (hne : h ≠ g) :
    (s.move g st).state h = s.state h := by
  simp [Gates.move, hne]

/-- A step changes the state of one gate only, and never that of a gate in `OnlineDone`. -/
theorem Gates.step_frame (parents : Nat → List Nat) (t : Transition) (s s' : Gates)
    (h : s.step parents t = some s') :
    ∃ g st, s.state g ≠ .OnlineDone ∧ s'.state g = st ∧ (∀ h, h ≠ g → s'.state h = s.state h) := by
  cases t with
  | beginSetup g =>
    simp only [Gates.step] at h
    split at h
    · rename_i hg
      cases h
      exact ⟨g, _, by rw [hg]; decide, Gates.move_state_self s g _,
        fun h hne => Gates.move_state_ne s g h _ hne⟩
    · cases h
  | endSetup g =>
    simp only [Gates.step] at h
    split at h
    · rename_i hg
      cases h
      exact ⟨g, .SetupDone, by rw [hg]; decide, by simp [Gates.move],
        fun h hne => by simp [Gates.move, hne]⟩
    · cases h
  | beginOnline g =>
    simp only [Gates.step] at h
    split at h
    · rename_i hg
      cases h
      exact ⟨g, _, by rw [hg.1]; decide, Gates.move_state_self s g _,
        fun h hne => Gates.move_state_ne s g h _ hne⟩
    · cases h
  | endOnline g =>
    simp only [Gates.step] at h
    split at h
    · rename_i hg
      cases h
      exact ⟨g, _, by rw [hg]; decide, Gates.move_state_self s g _,
        fun h hne => Gates.move_state_ne s g h _ hne⟩
    · cases h

theorem Gates.step_OnlineDone (parents : Nat → List Nat) (t : Transition) (s s' : Gates)
    (h : s.step parents t = some s') (g : Nat) (hg : s.state g = .OnlineDone) :
    s'.state g = .OnlineDone := by
  obtain ⟨g', st, hne, -, hframe⟩ := Gates.step_frame parents t s s' h
  have : g ≠ g' := by
    rintro rfl
    exact hne hg
  rw [hframe g this, hg]

theorem Gates.step_setup_completed (parents : Nat → List Nat) (t : Transition) (s s' : Gates)
    (h : s.step parents t = some s') (g : Nat) (hg : s.setup_completed g = true) :
    s'.setup_completed g = true := by
  cases t with
  | beginSetup g' =>
    simp only [Gates.step] at h
    split at h
    · cases h; exact hg
    · cases h
  | endSetup g' =>
    simp only [Gates.step] at h
    split at h
    · cases h
      by_cases e : g = g' <;> simp [e, hg]
    · cases h
  | beginOnline g' =>
    simp only [Gates.step] at h
    split at h
    · cases h; exact hg
    · cases h
  | endOnline g' =>
    simp only [Gates.step] at h
    split at h
    · cases h; exact hg
    · cases h

/-- A gate enters its online phase only from `SetupDone` with all its parents in
`OnlineDone`. -/
theorem Gates.step_enters_online (parents : Nat → List Nat) (t : Transition) (s s' : Gates)
    (h : s.step parents t = some s') (g : Nat)
    (hafter : s'.state g = .OnlinePending ∨ s'.state g = .OnlineDone)
    (hbefore : ¬ (s.state g = .OnlinePending ∨ s.state g = .OnlineDone)) :
    t = .beginOnline g ∧ s.state g = .SetupDone ∧ s'.state g = .OnlinePending ∧
      ∀ q ∈ parents g, s.state q = .OnlineDone := by
  cases t with
  | beginSetup g' =>
    simp only [Gates.step] at h
    split at h
    · cases h
      by_cases e : g = g'
      · subst e
        simp [Gates.move] at hafter
      · rw [Gates.move_state_ne s g' g _ e] at hafter
        exact absurd hafter hbefore
    · cases h
  | endSetup g' =>
    simp only [Gates.step] at h
    split at h
    · cases h
      by_cases e : g = g'
      · subst e
        simp [Gates.move] at hafter
      · simp only [Gates.move, e, if_false] at hafter
        exact absurd hafter hbefore
    · cases h
  | beginOnline g' =>
    simp only [Gates.step] at h
    split at h
    · rename_i hg
      cases h
      by_cases e : g = g'
      · subst e
        exact ⟨rfl, hg.1, Gates.move_state_self s g _, hg.2⟩
      · rw [Gates.move_state_ne s g' g _ e] at hafter
        exact absurd hafter hbefore
    · cases h
  | endOnline g' =>
    simp only [Gates.step] at h
    split at h
    · rename_i hg
      cases h
      by_cases e : g = g'
      · subst e
        exact absurd (Or.inl hg) hbefore
      · rw [Gates.move_state_ne s g' g _ e] at hafter
        exact absurd hafter hbefore
    · cases h

theorem Gates.step_enters_SetupDone (parents : Nat → List Nat) (t : Transition) (s s' : Gates)
    (h : s.step parents t = some s') (g : Nat) (hafter : s'.state g = .SetupDone) :
    s.state g = .SetupDone ∨ s'.setup_completed g = true := by
  cases t with
  | beginSetup g' =>
    simp only [Gates.step] at h
    split at h
    · cases h
      by_cases e : g = g'
      · subst e
        simp [Gates.move] at hafter
      · rw [Gates.move_state_ne s g' g _ e] at hafter
        exact Or.inl hafter
    · cases h
  | endSetup g' =>
    simp only [Gates.step] at h
    split at h
    · cases h
      by_cases e : g = g'
      · subst e
        right
        simp
      · simp only [Gates.move, e, if_false] at hafter
        exact Or.inl hafter
    · cases h
  | beginOnline g' =>
    simp only [Gates.step] at h
    split at h
    · cases h
      by_cases e : g = g'
      · subst e
        simp [Gates.move] at hafter
      · rw [Gates.move_state_ne s g' g _ e] at hafter
        exact Or.inl hafter
    · cases h
  | endOnline g' =>
    simp only [Gates.step] at h
    split at h
    · cases h
      by_cases e : g = g'
      · subst e
        simp [Gates.move] at hafter
      · rw [Gates.move_state_ne s g' g _ e] at hafter
        exact Or.inl hafter
    · cases h

theorem Gates.Invariant_init (parents : Nat → List Nat) : Gates.init.Invariant parents := by
  refine ⟨?_, ?_⟩
  · intro g hg
    simp [Gates.init] at hg
  · intro g hg
    simp [Gates.init] at hg

theorem Gates.Invariant_step (parents : Nat → List Nat) (t : Transition) (s s' : Gates)
    (h : s.step parents t = some s') (hinv : s.Invariant parents) : s'.Invariant parents := by
  obtain ⟨hord, hsetup⟩ := hinv
  refine ⟨?_, ?_⟩
  · intro g hg
    by_cases hbefore : s.state g = .OnlinePending ∨ s.state g = .OnlineDone
    · obtain ⟨h1, h2⟩ := hord g hbefore
      exact ⟨Gates.step_setup_completed parents t s s' h g h1,
        fun q hq => Gates.step_OnlineDone parents t s s' h q (h2 q hq)⟩
    · obtain ⟨-, h1, -, h2⟩ := Gates.step_enters_online parents t s s' h g hg hbefore
      exact ⟨Gates.step_setup_completed parents t s s' h g (hsetup g h1),
        fun q hq => Gates.step_OnlineDone parents t s s' h q (h2 q hq)⟩
  · intro g hg
    rcases Gates.step_enters_SetupDone parents t s s' h g hg with h1 | h1
    · exact Gates.step_setup_completed parents t s s' h g (hsetup g h1)
    · exact h1

theorem Gates.Invariant_run (parents : Nat → List Nat) :
    ∀ (ts : List Transition) (s s' : Gates), s.run parents ts = some s' →
      s.Invariant parents → s'.Invariant parents := by
  intro ts
  induction ts with
  | nil =>
    intro s s' h hinv
    simp only [Gates.run, Option.some.injEq] at h
    exact h ▸ hinv
  | cons t ts ih =>
    intro s s' h hinv
    simp only [Gates.run] at h
    cases hstep : s.step parents t with
    | none =>
      rw [hstep] at h
      cases h
    | some s1 =>
      rw [hstep] at h
      exact ih s1 s' h (Gates.Invariant_step parents t s s1 hstep hinv)

/-- C13: in every state the state machine reaches from the constructed gates, a gate in
`OnlineDone` (or `OnlinePending`) has completed its own setup and all its parents are in
`OnlineDone`; a step takes a gate into its online phase only from `SetupDone` with all
parents in `OnlineDone`; a gate in `OnlineDone` stays there, and `OnlineDone` is entered
from `OnlinePending` only. -/
theorem gate_OnlineDone_ordering (parents : Nat → List Nat) :
    (∀ ts s, Gates.init.run parents ts = some s →
      ∀ g, (s.state g = .OnlinePending ∨ s.state g = .OnlineDone) →
        s.setup_completed g = true ∧ ∀ q ∈ parents g, s.state q = .OnlineDone) ∧
    (∀ t s s', Gates.step parents t s = some s' →
      ∀ g, (s'.state g = .OnlinePending ∨ s'.state g = .OnlineDone) →
        ¬ (s.state g = .OnlinePending ∨ s.state g = .OnlineDone) →
        s.state g = .SetupDone ∧ s'.state g = .OnlinePending ∧
          ∀ q ∈ parents g, s.state q = .OnlineDone) ∧
    (∀ t s s', Gates.step parents t s = some s' →
      ∀ g, s.state g = .OnlineDone → s'.state g = .OnlineDone) ∧
    (∀ ts s s', Gates.run parents ts s = some s' →
      ∀ g, s.state g = .OnlineDone → s'.state g = .OnlineDone) := by
  refine ⟨?_, ?_, ?_, ?_⟩
  · intro ts s h
    exact (Gates.Invariant_run parents ts Gates.init s h (Gates.Invariant_init parents)).1
  · intro t s s' h g hafter hbefore
    exact (Gates.step_enters_online parents t s s' h g hafter hbefore).2
  · intro t s s' h g hg
    exact Gates.step_OnlineDone parents t s s' h g hg
  · intro ts
    induction ts with
    | nil =>
      intro s s' h g hg
      simp only [Gates.run, Option.some.injEq] at h
      exact h ▸ hg
    | cons t ts ih =>
      intro s s' h g hg
      simp only [Gates.run] at h
      cases hstep : s.step parents t with
      | none =>
        rw [hstep] at h
        cases h
      | some s1 =>
        rw [hstep] at h
        exact ih s1 s' h g (Gates.step_OnlineDone parents t s s1 hstep g hg)

theorem gate_OnlineDone_ordering_witness :
    ∃ s, Gates.init.run (fun g => if g = 1 then [0] else [])
        [.beginSetup 0, .beginSetup 1, .endSetup 1, .endSetup 0, .beginOnline 0, .endOnline 0,
          .beginOnline 1, .endOnline 1] = some s ∧
      s.state 1 = .OnlineDone ∧
      (s.setup_completed 1 = true ∧
        ∀ q ∈ (fun g => if g = 1 then [0] else []) 1, s.state q = .OnlineDone) ∧
      (Gates.init.run (fun g => if g = 1 then [0] else [])
        [.beginSetup 0, .beginSetup 1, .endSetup 1, .endSetup 0,
          .beginOnline 1]).isNone = true := by
  refine ⟨_, rfl, rfl, ?_, rfl⟩
  exact (gate_OnlineDone_ordering (fun g => if g = 1 then [0] else [])).1
    [.beginSetup 0, .beginSetup 1, .endSetup 1, .endSetup 0, .beginOnline 0, .endOnline 0,
      .beginOnline 1, .endOnline 1] _ rfl 1 (Or.inr rfl)

theorem UnsimdifyGate.evaluated {α : Type} (s : SimdShare α) :
    (UnsimdifyGate.new s).EvaluateSetup.EvaluateOnline.GetOutputAsVectorOfShares =
      (List.range s.number_of_simd).map (UnsimdifyGate.layer s) := by
  simp [UnsimdifyGate.new, UnsimdifyGate.EvaluateSetup, UnsimdifyGate.EvaluateOnline,
    UnsimdifyGate.GetOutputAsVectorOfShares]

theorem UnsimdifyGate.layer_Ready {α : Type} (s : SimdShare α) (hs : s.Ready) (i : Nat)
    (hi : i < s.number_of_simd) : (UnsimdifyGate.layer s i).Ready := by
  intro wire hwire
  simp only [UnsimdifyGate.layer, List.mem_map] at hwire
  obtain ⟨pw, hpw, rfl⟩ := hwire
  obtain ⟨values, rfl, hlen⟩ := hs pw hpw
  have hlt : i < values.length := by omega
  refine ⟨[values[i]], ?_, rfl⟩
  simp [UnsimdifyGate.layer, List.getElem?_eq_getElem hlt]

theorem UnsimdifyGate.layer_value {α : Type} (s : SimdShare α) (i j : Nat) :
    (UnsimdifyGate.layer s i).value j 0 = s.value j i := by
  simp only [SimdShare.value, UnsimdifyGate.layer, List.getElem?_map]
  cases h : s.wires[j]? with
  | none => rfl
  | some wire =>
    cases wire with
    | none => rfl
    | some values =>
      cases hv : values[i]? with
      | none => simp [hv]
      | some x => simp [hv]

theorem SimdShare.value_isSome {α : Type} (s : SimdShare α) (hs : s.Ready) (i j : Nat)
    (hi : i < s.number_of_simd) (hj : j < s.wires.length) : (s.value j i).isSome = true := by
  obtain ⟨values, hw, hlen⟩ := hs s.wires[j] (List.getElem_mem hj)
  have hlt : i < values.length := by omega
  simp [SimdShare.value, List.getElem?_eq_getElem hj, hw, List.getElem?_eq_getElem hlt]

/-- C11: for a share `s` whose wires are all set, the unsimdify gate of `s` has, from
construction on, as many output shares as `s` has SIMD values, each with the wire count of
`s` and SIMD length 1; after the setup and online phases every output share has all its wires
set to a single value, and the single value of wire `j` of output share `i` is the `i`-th
value of wire `j` of `s`. -/
theorem Unsimdify_output_shape_and_values {α : Type} (s : SimdShare α) (hs : s.Ready) :
    ((UnsimdifyGate.new s).GetOutputAsVectorOfShares.length = s.number_of_simd ∧
      ∀ o ∈ (UnsimdifyGate.new s).GetOutputAsVectorOfShares,
        o.wires.length = s.wires.length ∧ o.number_of_simd = 1) ∧
    (UnsimdifyGate.new s).EvaluateSetup.EvaluateOnline.state = .OnlineDone ∧
    (UnsimdifyGate.new s).EvaluateSetup.EvaluateOnline.GetOutputAsVectorOfShares.length =
      s.number_of_simd ∧
    (∀ o ∈ (UnsimdifyGate.new s).EvaluateSetup.EvaluateOnline.GetOutputAsVectorOfShares,
      o.wires.length = s.wires.length ∧ o.number_of_simd = 1 ∧ o.Ready) ∧
    ∀ i, i < s.number_of_simd → ∀ j, j < s.wires.length →
      ∃ o x, (UnsimdifyGate.new s).EvaluateSetup.EvaluateOnline.GetOutputAsVectorOfShares[i]? =
          some o ∧
        o.wires[j]? = some (some [x]) ∧ s.value j i = some x := by
  rw [UnsimdifyGate.evaluated]
  refine ⟨⟨?_, ?_⟩, ?_, ?_, ?_, ?_⟩
  · simp [UnsimdifyGate.new, UnsimdifyGate.GetOutputAsVectorOfShares]
  · intro o ho
    simp only [UnsimdifyGate.new, UnsimdifyGate.GetOutputAsVectorOfShares] at ho
    rw [List.eq_of_mem_replicate ho]
    simp
  · simp [UnsimdifyGate.new, UnsimdifyGate.EvaluateSetup, UnsimdifyGate.EvaluateOnline]
  · simp
  · intro o ho
    simp only [List.mem_map, List.mem_range] at ho
    obtain ⟨i, hi, rfl⟩ := ho
    refine ⟨?_, rfl, UnsimdifyGate.layer_Ready s hs i hi⟩
    simp [UnsimdifyGate.layer]
  · intro i hi j hj
    have hsome := SimdShare.value_isSome s hs i j hi hj
    obtain ⟨x, hx⟩ := Option.isSome_iff_exists.mp hsome
    refine ⟨UnsimdifyGate.layer s i, x, ?_, ?_, hx⟩
    · simp [List.getElem?_eq_getElem, hi]
    · obtain ⟨values, hw, hlen⟩ := hs s.wires[j] (List.getElem_mem hj)
      have hlt : i < values.length := by omega
      have hx2 : values[i] = x := by
        simpa [SimdShare.value, List.getElem?_eq_getElem hj, hw,
          List.getElem?_eq_getElem hlt] using hx
      simp [UnsimdifyGate.layer, List.getElem?_eq_getElem hj, hw,
        List.getElem?_eq_getElem hlt, hx2]

theorem Unsimdify_output_shape_and_values_witness :
    (SimdShare.mk 3 [some [1, 2, 3], some [4, 5, 6]]).Ready ∧
    (UnsimdifyGate.new
      (SimdShare.mk 3 [some [1, 2, 3], some [4, 5, 6]])).EvaluateSetup.EvaluateOnline.GetOutputAsVectorOfShares =
      [SimdShare.mk 1 [some [1], some [4]], SimdShare.mk 1 [some [2], some [5]],
        SimdShare.mk 1 [some [3], some [6]]] ∧
    ∀ i, i < 3 → ∀ j, j < 2 →
      ∃ o x, (UnsimdifyGate.new
          (SimdShare.mk 3 [some [1, 2, 3], some [4, 5, 6]])).EvaluateSetup.EvaluateOnline.GetOutputAsVectorOfShares[i]? =
          some o ∧
        o.wires[j]? = some (some [x]) ∧
        (SimdShare.mk 3 [some [1, 2, 3], some [4, 5, 6]]).value j i = some x :=
  have h : (SimdShare.mk 3 [some [1, 2, 3], some [4, 5, 6]]).Ready := by
    intro wire hwire
    simp only [List.mem_cons, List.mem_singleton, List.not_mem_nil, or_false] at hwire
    rcases hwire with rfl | rfl
    · exact ⟨[1, 2, 3], rfl, rfl⟩
    · exact ⟨[4, 5, 6], rfl, rfl⟩
  ⟨h, by decide,
    (Unsimdify_output_shape_and_values (SimdShare.mk 3 [some [1, 2, 3], some [4, 5, 6]]) h).2.2.2.2⟩

end Motion
